import Mathlib

/-!
# genconplanner: event identity, reconciliation and calendar clustering

A shallow embedding of `events/event.go` and of the reconciliation and
calendar-merge code of `internal/postgres/db.go`.

Conventions of the embedding:

* a Go `string` that is only compared for equality is a `String`; where the
  source slices a string by byte index the bytes of its UTF-8 encoding are
  computed explicitly (`goBytes`);
* a `time.Time` is the integer instant it denotes, so `Before` is `<` and
  `After` is `>`;
* a Go function that can stop with a run-time panic (index or slice bound out
  of range, failed type assertion) returns an `Option`, `none` standing for
  "did not return";
* an `error` result is an explicit value.
-/

namespace Genconplanner

/-! ## Go run-time library -/

/-- Equality of results is decidable, so that the code can be evaluated on
concrete inputs. -/
instance decEqExcept {ε α : Type} [DecidableEq ε] [DecidableEq α] : DecidableEq (Except ε α)
  | Except.ok a, Except.ok b =>
    if h : a = b then isTrue (by rw [h]) else isFalse (fun h2 => h (by cases h2; rfl))
  | Except.error a, Except.error b =>
    if h : a = b then isTrue (by rw [h]) else isFalse (fun h2 => h (by cases h2; rfl))
  | Except.ok _, Except.error _ => isFalse (fun h => by cases h)
  | Except.error _, Except.ok _ => isFalse (fun h => by cases h)

/-- The two predicates of Go's `unicode` package used by the source.  Their
range tables belong to the Go library and are taken as a parameter. -/
structure RuneTables where
  IsLetter : Char → Bool
  IsDigit : Char → Bool

/-- The facts about Go's tables that the proofs use: the ASCII digits are
decimal digits (category Nd) and no letters, and no letter (category L) is a
decimal digit. -/
structure RuneTables.Sound (T : RuneTables) : Prop where
  digit_isDigit : ∀ ch : Char, ch.isDigit = true → T.IsDigit ch = true
  digit_not_letter : ∀ ch : Char, ch.isDigit = true → T.IsLetter ch = false
  letter_not_digit : ∀ ch : Char, T.IsLetter ch = true → T.IsDigit ch = false

/-- The restriction of Go's tables to ASCII, used to evaluate the code on
concrete ASCII event codes. -/
def asciiTables : RuneTables := ⟨Char.isAlpha, Char.isDigit⟩

/-- UTF-8 encoding of one rune, the way Go stores it inside a string. -/
def utf8EncodeRune (c : Char) : List Nat :=
  let n := c.toNat
  if n < 0x80 then [n]
  else if n < 0x800 then [0xC0 + n / 64, 0x80 + n % 64]
  else if n < 0x10000 then [0xE0 + n / 4096, 0x80 + (n / 64) % 64, 0x80 + n % 64]
  else [0xF0 + n / 262144, 0x80 + (n / 4096) % 64, 0x80 + (n / 64) % 64, 0x80 + n % 64]

/-- The bytes of a Go string given by its runes. -/
def goBytes : List Char → List Nat
  | [] => []
  | c :: cs => utf8EncodeRune c ++ goBytes cs

/-- Go's `strings.TrimLeftFunc`. -/
def TrimLeftFunc (s : List Char) (f : Char → Bool) : List Char :=
  s.dropWhile f

/-- Go's `strings.TrimRightFunc`. -/
def TrimRightFunc (s : List Char) (f : Char → Bool) : List Char :=
  (s.reverse.dropWhile f).reverse

/-- The digit loop of `strconv.Atoi`: `ch -= 48` on a byte, failing when the
result exceeds 9. -/
def atoiDigits : List Nat → Nat → Option Nat
  | [], n => some n
  | ch :: rest, n =>
    let d := (ch + 256 - 48) % 256
    if d > 9 then none else atoiDigits rest (n * 10 + d)

/-- Go's `strconv.Atoi` on the bytes of its argument, for a 64-bit `int`:
an optional sign `+` (43) or `-` (45), then at least one ASCII digit, and the
value has to fit the `int` type; `none` is a non-nil error. -/
def Atoi (s : List Nat) : Option Int :=
  match s with
  | [] => none
  | b :: rest =>
    let digits := if b = 45 ∨ b = 43 then rest else b :: rest
    if digits = [] then none
    else
      match atoiDigits digits 0 with
      | none => none
      | some n =>
        let v : Int := if b = 45 then -(n : Int) else (n : Int)
        if -(2 : Int) ^ 63 ≤ v ∧ v < (2 : Int) ^ 63 then some v else none

/-! ## events/event.go -/

/-- The ways `splitId` can stop without returning: the slice `yearId[:2]` is
out of range, or one of the two `log.Fatalf` calls ends the process. -/
inductive SplitIdFailure where
  | sliceOutOfRange
  | unableToParseYear
  | unsupportedYear
  deriving DecidableEq, Repr

/-- A transcription of `splitId`. -/
def splitId (T : RuneTables) (rawEventId : String) : Except SplitIdFailure (String × Int) :=
  let yearId := TrimLeftFunc rawEventId.data T.IsLetter
  let category := TrimRightFunc rawEventId.data T.IsDigit
  let bytes := goBytes yearId
  if bytes.length < 2 then Except.error SplitIdFailure.sliceOutOfRange
  else
    match Atoi (bytes.take 2) with
    | none => Except.error SplitIdFailure.unableToParseYear
    | some twoDigitYear =>
      if 15 > twoDigitYear ∨ 19 < twoDigitYear then
        Except.error SplitIdFailure.unsupportedYear
      else Except.ok (String.mk category, 2000 + twoDigitYear)

/-- A transcription of `CategoryFromEvent`. -/
def CategoryFromEvent (T : RuneTables) (rawEventId : String) : Except SplitIdFailure String :=
  (splitId T rawEventId).map Prod.fst

/-- A transcription of `YearFromEvent`. -/
def YearFromEvent (T : RuneTables) (rawEventId : String) : Except SplitIdFailure Int :=
  (splitId T rawEventId).map Prod.snd

/-- An event code built from a category, a two-digit year and a numeric tail,
the construction that `splitId` inverts. -/
def mkEventCode (category : String) (yy : Nat) (tail : String) : String :=
  String.mk (category.data ++ [Char.ofNat (48 + yy / 10), Char.ofNat (48 + yy % 10)] ++ tail.data)

/-- The record of `GenconEvent`. -/
structure GenconEvent where
  EventId : String := ""
  Year : Int := 0
  Active : Bool := false
  Group : String := ""
  Title : String := ""
  ShortDescription : String := ""
  LongDescription : String := ""
  EventType : String := ""
  GameSystem : String := ""
  RulesEdition : String := ""
  MinPlayers : Int := 0
  MaxPlayers : Int := 0
  AgeRequired : String := ""
  ExperienceRequired : String := ""
  MaterialsProvided : Bool := false
  StartTime : Int := 0
  Duration : Int := 0
  EndTime : Int := 0
  GMNames : String := ""
  Website : String := ""
  Email : String := ""
  Tournament : Bool := false
  RoundNumber : Int := 0
  TotalRounds : Int := 0
  MinPlayTime : Int := 0
  AttendeeRegistration : String := ""
  Cost : Int := 0
  Location : String := ""
  RoomName : String := ""
  TableNumber : String := ""
  SpecialCategory : String := ""
  TicketsAvailable : Int := 0
  LastModified : Int := 0
  ShortCategory : String := ""
  deriving DecidableEq, Repr

/-- A transcription of `GenconLink`: the bytes of the link, `none` when the
slice `[2:]` is out of range. -/
def GenconLink (T : RuneTables) (e : GenconEvent) : Option (List Nat) :=
  let bytes := goBytes (TrimLeftFunc e.EventId.data T.IsLetter)
  if bytes.length < 2 then none
  else some (goBytes "http://gencon.com/events/".data ++ bytes.drop 2)

/-! ## Go maps -/

/-- A Go `map[string]ν`, kept as its entries.  The order of the entries is the
order in which a `range` loop of the model visits them; Go leaves that order
unspecified, so no statement below depends on it beyond membership. -/
abbrev GoMap (ν : Type) := List (String × ν)

/-- The test `_, found := m[k]`. -/
def GoMap.contains {ν : Type} (m : GoMap ν) (k : String) : Bool :=
  m.any (fun p => decide (p.1 = k))

/-- The lookup `v, found := m[k]`. -/
def GoMap.get? {ν : Type} (m : GoMap ν) (k : String) : Option ν :=
  (m.find? (fun p => decide (p.1 = k))).map Prod.snd

/-- The assignment `m[k] = v`. -/
def GoMap.set {ν : Type} (m : GoMap ν) (k : String) (v : ν) : GoMap ν :=
  if m.contains k then m.map (fun p => if p.1 = k then (k, v) else p) else m ++ [(k, v)]

/-- The call `delete(m, k)`. -/
def GoMap.delete {ν : Type} (m : GoMap ν) (k : String) : GoMap ν :=
  m.filter (fun p => !decide (p.1 = k))

/-- The keys visited by `for k := range m`. -/
def GoMap.keys {ν : Type} (m : GoMap ν) : List String :=
  m.map Prod.fst

/-! ## internal/postgres/db.go: calendar clusters -/

/-- The record of `CalendarEventCluster`; `GenconUrl` holds the bytes that
`GenconLink` produces. -/
structure CalendarEventCluster where
  Title : String
  StartTime : Int
  EndTime : Int
  GenconUrl : List Nat
  PlannerUrl : String
  ShortCategory : String
  ShortDescription : String
  SimilarCount : Int
  deriving DecidableEq, Repr

/-- A transcription of `newClusterForEvent`.  The method `PlannerLink` is not
among the sources and is taken as a parameter; `none` is the panic of
`GenconLink`. -/
def newClusterForEvent (T : RuneTables) (PlannerLink : GenconEvent → String)
    (event : GenconEvent) : Option CalendarEventCluster :=
  match GenconLink T event with
  | none => none
  | some url =>
    some
      { Title := event.Title
        StartTime := event.StartTime
        EndTime := event.EndTime
        GenconUrl := url
        PlannerUrl := PlannerLink event
        ShortCategory := event.ShortCategory
        ShortDescription := event.ShortDescription
        SimilarCount := 1 }

/-- The map `eventsById` that `LoadStarredEventClusters` builds from the
loaded starred events. -/
def eventsById (starredEvents : List GenconEvent) : GoMap GenconEvent :=
  starredEvents.foldl (fun m e => m.set e.EventId e) []

/-- The loop that resolves the ids of one day group, skipping the ids that
are not in `eventsById`. -/
def resolveDayGroup (byId : GoMap GenconEvent) : List String → List GenconEvent
  | [] => []
  | id :: rest =>
    match byId.get? id with
    | some e => e :: resolveDayGroup byId rest
    | none => resolveDayGroup byId rest

/-- The call `sort.Slice(dayGroupEvents, ...)` with `Before` on the start
times.  Go's sort is not stable; the model fixes one of the orders it may
produce. -/
def sortByStartTime (dayGroupEvents : List GenconEvent) : List GenconEvent :=
  dayGroupEvents.insertionSort (fun a b => a.StartTime ≤ b.StartTime)

/-- The merge loop `for _, event := range dayGroupEvents[1:]`: the state is the
open cluster and the clusters emitted so far. -/
def mergeLoop (T : RuneTables) (PlannerLink : GenconEvent → String) :
    List GenconEvent → CalendarEventCluster → List CalendarEventCluster →
    Option (CalendarEventCluster × List CalendarEventCluster)
  | [], cluster, groupedEvents => some (cluster, groupedEvents)
  | event :: rest, cluster, groupedEvents =>
    if event.StartTime > cluster.EndTime then
      match newClusterForEvent T PlannerLink event with
      | none => none
      | some fresh => mergeLoop T PlannerLink rest fresh (groupedEvents ++ [cluster])
    else if event.EndTime > cluster.EndTime then
      mergeLoop T PlannerLink rest
        { cluster with EndTime := event.EndTime, SimilarCount := cluster.SimilarCount + 1 }
        groupedEvents
    else mergeLoop T PlannerLink rest cluster groupedEvents

/-- The clustering of one sorted day group, appended to `groupedEvents`:
`none` is the panic of `dayGroupEvents[0]` on an empty group, or of
`GenconLink`. -/
def clusterDayGroup (T : RuneTables) (PlannerLink : GenconEvent → String)
    (dayGroupEvents : List GenconEvent) (groupedEvents : List CalendarEventCluster) :
    Option (List CalendarEventCluster) :=
  match dayGroupEvents with
  | [] => none
  | first :: rest =>
    match newClusterForEvent T PlannerLink first with
    | none => none
    | some cluster =>
      match mergeLoop T PlannerLink rest cluster groupedEvents with
      | none => none
      | some (last, grouped) => some (grouped ++ [last])

/-- The loop `for rows.Next()` of `LoadStarredEventClusters`; a row is the
outcome of `rows.Scan`: an error, or the day of the week with its event ids. -/
def clusterRows {ε : Type} (T : RuneTables) (PlannerLink : GenconEvent → String)
    (byId : GoMap GenconEvent) :
    List (Except ε (String × List String)) → List CalendarEventCluster →
    Option (Except ε (List CalendarEventCluster))
  | [], groupedEvents => some (Except.ok groupedEvents)
  | Except.error err :: _, _ => some (Except.error err)
  | Except.ok (_, eventIds) :: rest, groupedEvents =>
    match clusterDayGroup T PlannerLink (sortByStartTime (resolveDayGroup byId eventIds))
        groupedEvents with
    | none => none
    | some grouped => clusterRows T PlannerLink byId rest grouped

/-- A transcription of `LoadStarredEventClusters`.  The outcome of `db.Query`
is an input: an error, or the rows `(day_of_week, event_ids)` of the grouped
starred ids.  The result is `none` when the function panics. -/
def LoadStarredEventClusters {ε : Type} (T : RuneTables) (PlannerLink : GenconEvent → String)
    (query : Except ε (List (Except ε (String × List String))))
    (starredEvents : List GenconEvent) : Option (Except ε (List CalendarEventCluster)) :=
  match query with
  | Except.error err => some (Except.error err)
  | Except.ok rows => clusterRows T PlannerLink (eventsById starredEvents) rows []

/-! ## internal/postgres/db.go: reconciliation -/

/-- One scanned row of the query of `loadEventIds`. -/
structure IndexRow where
  id : String
  active : Bool
  updateTime : Int
  deriving DecidableEq, Repr

/-- The statements that reconciliation sends through `tx.Exec`:
`INSERT INTO events (...) VALUES ...` with the rows of one batch,
`UPDATE events SET (...) = (...) WHERE event_id = ...` for one row, and
`UPDATE events SET active = FALSE WHERE event_id in (...)` for a batch of ids. -/
inductive Stmt where
  | insert (rows : List GenconEvent)
  | update (row : GenconEvent)
  | deactivate (ids : List String)
  deriving DecidableEq, Repr

/-- The transaction handle `tx` as the code uses it: the year-index query (an
error, or the rows, each of which scans or fails) and `Exec`, which fails or
yields the next state.  A statement that fails leaves the state as it was.
`isPGError` tells whether an error value implements `pq.PGError`: the logging
lines of `bulkInsert`, `bulkUpdate` and `bulkDelete` evaluate the type
assertion `err.(pq.PGError)`, which panics on any other error. -/
structure Database (σ ε : Type) where
  queryYear : σ → Int → Except ε (List (Except ε IndexRow))
  exec : σ → Stmt → Except ε σ
  isPGError : ε → Bool

/-- The scanning loop of `loadEventIds`. -/
def loadEventIdsLoop {ε : Type} :
    List (Except ε IndexRow) → GoMap Int → GoMap Int → Except ε (GoMap Int × GoMap Int)
  | [], activeEvents, inactiveEvents => Except.ok (activeEvents, inactiveEvents)
  | Except.error err :: _, _, _ => Except.error err
  | Except.ok row :: rest, activeEvents, inactiveEvents =>
    if row.active then
      loadEventIdsLoop rest (activeEvents.set row.id row.updateTime) inactiveEvents
    else loadEventIdsLoop rest activeEvents (inactiveEvents.set row.id row.updateTime)

/-- A transcription of `loadEventIds`. -/
def loadEventIds {σ ε : Type} (db : Database σ ε) (tx : σ) (year : Int) :
    Except ε (GoMap Int × GoMap Int) :=
  match db.queryYear tx year with
  | Except.error err => Except.error err
  | Except.ok rows => loadEventIdsLoop rows [] []

/-- The loop of `bulkDelete`.  The first argument bounds the number of
iterations; `none` means the bound was too small, or the panic of the type
assertion in the logging line. -/
def bulkDeleteLoop {σ ε : Type} (db : Database σ ε) :
    Nat → Nat → List String → σ → Option (σ × Option ε)
  | 0, _, deletedEvents, tx => if deletedEvents.length > 0 then none else some (tx, none)
  | fuel + 1, batchSize, deletedEvents, tx =>
    if deletedEvents.length > 0 then
      let batchSize := if deletedEvents.length < batchSize then deletedEvents.length else batchSize
      let batch := deletedEvents.take batchSize
      match db.exec tx (Stmt.deactivate batch) with
      | Except.error err => if db.isPGError err then some (tx, some err) else none
      | Except.ok tx1 => bulkDeleteLoop db fuel batchSize (deletedEvents.drop batchSize) tx1
    else some (tx, none)

/-- A transcription of `bulkDelete`: the state reached and the error returned. -/
def bulkDelete {σ ε : Type} (db : Database σ ε) (tx : σ) (deletedEvents : List String) :
    Option (σ × Option ε) :=
  bulkDeleteLoop db deletedEvents.length 100 deletedEvents tx

/-- A transcription of `bulkUpdate`: one statement for each row; `none` is the
panic of the type assertion in the logging line. -/
def bulkUpdate {σ ε : Type} (db : Database σ ε) :
    σ → List GenconEvent → Option (σ × Option ε)
  | tx, [] => some (tx, none)
  | tx, row :: rest =>
    match db.exec tx (Stmt.update row) with
    | Except.error err => if db.isPGError err then some (tx, some err) else none
    | Except.ok tx1 => bulkUpdate db tx1 rest

/-- The loop of `bulkInsert`.  The first argument bounds the number of
iterations; `none` means the bound was too small, or the panic of the type
assertion in the logging line. -/
def bulkInsertLoop {σ ε : Type} (db : Database σ ε) :
    Nat → Nat → List GenconEvent → σ → Option (σ × Option ε)
  | 0, _, newRows, tx => if newRows.length > 0 then none else some (tx, none)
  | fuel + 1, batchSize, newRows, tx =>
    if newRows.length > 0 then
      let batchSize := if batchSize > newRows.length then newRows.length else batchSize
      let batch := newRows.take batchSize
      match db.exec tx (Stmt.insert batch) with
      | Except.error err => if db.isPGError err then some (tx, some err) else none
      | Except.ok tx1 => bulkInsertLoop db fuel batchSize (newRows.drop batchSize) tx1
    else some (tx, none)

/-- A transcription of `bulkInsert`: the state reached and the error returned. -/
def bulkInsert {σ ε : Type} (db : Database σ ε) (tx : σ) (newRows : List GenconEvent) :
    Option (σ × Option ε) :=
  bulkInsertLoop db newRows.length 100 newRows tx

/-- The map `persistedEvents` of `BulkUpdateEvents`. -/
def persistedEvents (activeEvents inactiveEvents : GoMap Int) : GoMap Int :=
  inactiveEvents.foldl (fun m p => m.set p.1 p.2)
    (activeEvents.foldl (fun m p => m.set p.1 p.2) [])

/-- The local variables of the classification loop of `BulkUpdateEvents`. -/
structure Classification where
  newEvents : List GenconEvent
  updatedEvents : List GenconEvent
  activeEvents : GoMap Int
  latestUpdate : Int
  deriving DecidableEq, Repr

/-- The loop `for _, parsedEvent := range parsedEvents` of `BulkUpdateEvents`. -/
def classifyLoop (persisted : GoMap Int) : List GenconEvent → Classification → Classification
  | [], c => c
  | parsedEvent :: rest, c =>
    let c1 : Classification :=
      if persisted.contains parsedEvent.EventId then
        { c with
          updatedEvents := c.updatedEvents ++ [parsedEvent]
          activeEvents := c.activeEvents.delete parsedEvent.EventId }
      else { c with newEvents := c.newEvents ++ [parsedEvent] }
    let c2 : Classification :=
      if c1.latestUpdate < parsedEvent.LastModified then
        { c1 with latestUpdate := parsedEvent.LastModified }
      else c1
    classifyLoop persisted rest c2

/-- The classification that `BulkUpdateEvents` computes from the loaded index
and the incoming records, before any statement is sent. -/
def classifyEvents (activeEvents inactiveEvents : GoMap Int) (first : GenconEvent)
    (parsedEvents : List GenconEvent) : Classification :=
  classifyLoop (persistedEvents activeEvents inactiveEvents) parsedEvents
    { newEvents := [], updatedEvents := [], activeEvents := activeEvents,
      latestUpdate := first.LastModified }

/-- The slice `deletedEvents` of `BulkUpdateEvents`: the keys left in
`activeEvents`. -/
def deletedEvents (c : Classification) : List String :=
  c.activeEvents.keys

/-- A transcription of `BulkUpdateEvents`: the state the transaction is left
in and the error returned; `none` when the function does not return (the
index `parsedEvents[0]` of an empty list is out of range, or a logging line
panics). -/
def BulkUpdateEvents {σ ε : Type} (db : Database σ ε) (tx : σ)
    (parsedEvents : List GenconEvent) : Option (σ × Option ε) :=
  match parsedEvents with
  | [] => none
  | first :: _ =>
    match loadEventIds db tx first.Year with
    | Except.error err => some (tx, some err)
    | Except.ok (activeEvents, inactiveEvents) =>
      let c := classifyEvents activeEvents inactiveEvents first parsedEvents
      match bulkInsert db tx c.newEvents with
      | none => none
      | some (tx1, some err) => some (tx1, some err)
      | some (tx1, none) =>
        match bulkUpdate db tx1 c.updatedEvents with
        | none => none
        | some (tx2, some err) => some (tx2, some err)
        | some (tx2, none) => bulkDelete db tx2 (deletedEvents c)

/-! ## The store behind the transaction -/

/-- Modelled from the spec: the `events` table and the SQL engine are not
among the sources.  The store is a map from id to row, kept as the list of
its rows. -/
abbrev Store := List GenconEvent

/-- Modelled from the spec: insert adds the row under its id. -/
def Store.insertRow (s : Store) (r : GenconEvent) : Store :=
  if s.any (fun x => decide (x.EventId = r.EventId)) then
    s.map (fun x => if x.EventId = r.EventId then r else x)
  else s ++ [r]

/-- Modelled from the spec: update replaces the whole row of the id. -/
def Store.updateRow (s : Store) (r : GenconEvent) : Store :=
  s.map (fun x => if x.EventId = r.EventId then r else x)

/-- Modelled from the spec: deactivate sets `active` to false for the ids. -/
def Store.deactivate (s : Store) (ids : List String) : Store :=
  s.map (fun x => if x.EventId ∈ ids then { x with Active := false } else x)

/-- Modelled from the spec: the effect of one statement on the store. -/
def Store.apply (s : Store) : Stmt → Store
  | Stmt.insert rows => rows.foldl Store.insertRow s
  | Stmt.update row => s.updateRow row
  | Stmt.deactivate ids => s.deactivate ids

/-- Modelled from the spec: the year index `readYearIndex(year)` of the store,
the rows `event_id, active, last_modified` of the given year. -/
def Store.yearIndex (s : Store) (year : Int) : List IndexRow :=
  (s.filter (fun r => decide (r.Year = year))).map
    (fun r => { id := r.EventId, active := r.Active, updateTime := r.LastModified })

/-- Modelled from the spec: the store as a database on which no read and no
statement fails. -/
def storeDb (ε : Type) : Database Store ε where
  queryYear := fun s year => Except.ok ((s.yearIndex year).map Except.ok)
  exec := fun s stmt => Except.ok (s.apply stmt)
  isPGError := fun _ => true

/-- Modelled from the spec: the caller that owns the transaction is not among
the sources.  "The whole operation is one transaction: any batch failure
aborts and rolls back all three classes of change": the transaction is
committed when `BulkUpdateEvents` returns no error and rolled back to the
state it started from when it returns one. -/
def reconcile {σ ε : Type} (db : Database σ ε) (store : σ) (parsedEvents : List GenconEvent) :
    Option (σ × Option ε) :=
  match BulkUpdateEvents db store parsedEvents with
  | none => none
  | some (tx, none) => some (tx, none)
  | some (_, some err) => some (store, some err)

/-! ## Statement sequences -/

/-- Consecutive batches of at most `n` elements; the first argument bounds the
number of batches. -/
def batches {α : Type} (n : Nat) : Nat → List α → List (List α)
  | 0, _ => []
  | fuel + 1, l => if l.length > 0 then l.take n :: batches n fuel (l.drop n) else []

/-- Sending statements in order and stopping at the first one that fails: the
state reached and the error of that statement, or `none` when that error is
no `pq.PGError` and the logging line panics. -/
def runStmts {σ ε : Type} (db : Database σ ε) : σ → List Stmt → Option (σ × Option ε)
  | tx, [] => some (tx, none)
  | tx, stmt :: rest =>
    match db.exec tx stmt with
    | Except.error err => if db.isPGError err then some (tx, some err) else none
    | Except.ok tx1 => runStmts db tx1 rest

/-- The statements of one reconciliation, in the order they are sent. -/
def plannedStmts (c : Classification) : List Stmt :=
  (batches 100 c.newEvents.length c.newEvents).map Stmt.insert
    ++ c.updatedEvents.map Stmt.update
    ++ (batches 100 (deletedEvents c).length (deletedEvents c)).map Stmt.deactivate

/-! ## Runs of merged sessions -/

/-- The latest end time among a first record and the records merged after it. -/
def latestEnd (e : GenconEvent) (es : List GenconEvent) : Int :=
  es.foldl (fun m x => max m x.EndTime) e.EndTime

/-- Every record after the first starts no later than the latest end time of
the records before it. -/
def Merged (e : GenconEvent) (es : List GenconEvent) : Prop :=
  ∀ (n : Nat) (x : GenconEvent), es[n]? = some x → x.StartTime ≤ latestEnd e (es.take n)

/-- The cluster of a run of records: it starts with the first record of the
run, ends at the latest end time of the run, and every later record of the
run was merged. -/
def IsClusterOf (run : List GenconEvent) (cluster : CalendarEventCluster) : Prop :=
  ∃ (e : GenconEvent) (es : List GenconEvent),
    run = e :: es ∧ cluster.StartTime = e.StartTime ∧ cluster.EndTime = latestEnd e es ∧
      Merged e es

/-- The second run opens strictly after the latest end time of the first. -/
def Separated (run1 run2 : List GenconEvent) : Prop :=
  ∃ (e1 : GenconEvent) (es1 : List GenconEvent) (e2 : GenconEvent) (es2 : List GenconEvent),
    run1 = e1 :: es1 ∧ run2 = e2 :: es2 ∧ latestEnd e1 es1 < e2.StartTime

/-- The time window and the count of a cluster. -/
def CalendarEventCluster.window (c : CalendarEventCluster) : Int × Int × Int :=
  (c.StartTime, c.EndTime, c.SimilarCount)

/-! ## Go run-time library: strings and encoding/csv -/

/-- Go's `unicode.IsSpace`: the code points with the White_Space property. -/
def IsSpace (c : Char) : Bool :=
  let n := c.toNat
  (9 ≤ n && n ≤ 13) || n == 32 || n == 0x85 || n == 0xA0 || n == 0x1680 ||
    (0x2000 ≤ n && n ≤ 0x200a) || n == 0x2028 || n == 0x2029 || n == 0x202f ||
    n == 0x205f || n == 0x3000

/-- Go's `strings.TrimSpace`. -/
def TrimSpace (s : List Char) : List Char :=
  TrimRightFunc (TrimLeftFunc s IsSpace) IsSpace

/-- Go's `strings.Replace(s, old, "", -1)` for a one-character `old`. -/
def removeAll (s : List Char) (old : Char) : List Char :=
  s.filter (fun c => !decide (c = old))

/-- Go's `strings.ContainsAny`. -/
def ContainsAny (s chars : List Char) : Bool :=
  s.any (fun c => decide (c ∈ chars))

/-- The line handling of `csv.Reader.readLine`, applied to the whole input:
a line end `\r\n` is read as `\n`, and a `\r` that is the last byte before
the end of the input is dropped. -/
def csvNormalize : List Char → List Char
  | [] => []
  | c :: rest =>
    if c = '\r' then
      match rest with
      | [] => []
      | d :: _ => if d = '\n' then csvNormalize rest else c :: csvNormalize rest
    else c :: csvNormalize rest

/-- The places of `csv.Reader.readRecord` between two characters of a record:
at the start of a field, inside a field without quotes, inside a quoted
field, and right after a quote met inside a quoted field. -/
inductive CsvState where
  | fieldStart
  | unquoted (field : List Char)
  | quoted (field : List Char)
  | quoteSeen (field : List Char)

/-- The field loop of `csv.Reader.readRecord` with `Comma = ' '` and the other
settings at their defaults (no lazy quotes, no trimming of leading space, no
comment character), character by character: the last argument holds the
fields completed so far, which is what `Read` returns, also when it stops
with a parse error (a bare quote in a field without quotes, a quoted field
that is not closed, a closing quote followed by other text). -/
def csvFields : CsvState → List Char → List (List Char) → List (List Char)
  | CsvState.fieldStart, [], fields => fields ++ [[]]
  | CsvState.fieldStart, c :: rest, fields =>
    if c = '"' then csvFields (CsvState.quoted []) rest fields
    else if c = ' ' then csvFields CsvState.fieldStart rest (fields ++ [[]])
    else if c = '\n' then fields ++ [[]]
    else csvFields (CsvState.unquoted [c]) rest fields
  | CsvState.unquoted field, [], fields => fields ++ [field]
  | CsvState.unquoted field, c :: rest, fields =>
    if c = '"' then fields
    else if c = ' ' then csvFields CsvState.fieldStart rest (fields ++ [field])
    else if c = '\n' then fields ++ [field]
    else csvFields (CsvState.unquoted (field ++ [c])) rest fields
  | CsvState.quoted _, [], fields => fields
  | CsvState.quoted field, c :: rest, fields =>
    if c = '"' then csvFields (CsvState.quoteSeen field) rest fields
    else csvFields (CsvState.quoted (field ++ [c])) rest fields
  | CsvState.quoteSeen field, [], fields => fields ++ [field]
  | CsvState.quoteSeen field, c :: rest, fields =>
    if c = '"' then csvFields (CsvState.quoted (field ++ ['"'])) rest fields
    else if c = ' ' then csvFields CsvState.fieldStart rest (fields ++ [field])
    else if c = '\n' then fields ++ [field]
    else fields

/-- The first call of `csv.Reader.Read` with `Comma = ' '` on a reader over
the given text, its error dropped: empty lines are skipped, the record is
`nil` at the end of the input, and otherwise the fields of the first record. -/
def csvRead (input : List Char) : List (List Char) :=
  match (csvNormalize input).dropWhile (fun c => decide (c = '\n')) with
  | [] => []
  | c :: rest => csvFields CsvState.fieldStart (c :: rest) []

/-! ## web.go: the query parser -/

/-- The record of `ParsedQuery`. -/
structure ParsedQuery where
  TextQueries : List String := []
  Year : Int := 0
  DaysOfWeek : GoMap Bool := []
  RawQuery : String := ""
  StartBeforeHour : Int := 0
  StartAfterHour : Int := 0
  EndBeforeHour : Int := 0
  EndAfterHour : Int := 0
  deriving DecidableEq, Repr

/-- The body of the loop `for _, term := range splitQuery` of `parseQuery`:
the term that one token appends to `TextQueries`, or `none` when the loop
continues without appending. -/
def parseTerm (term : List Char) : Option String :=
  let invertTerm := term.head? = some '-'
  let term := if invertTerm then term.dropWhile (fun c => decide (c = '-')) else term
  if ContainsAny term ":<>=-~".data then none
  else
    let term := removeAll term '<'
    let term := removeAll term '>'
    let term := removeAll term '='
    let term := removeAll term '-'
    let term := removeAll term '~'
    let term := TrimSpace term
    if term.length = 0 then none
    else
      let term := if invertTerm then '!' :: term else term
      some (String.mk term)

/-- The loop `for _, term := range splitQuery` of `parseQuery`. -/
def parseTerms : List (List Char) → List String → List String
  | [], textQueries => textQueries
  | term :: rest, textQueries =>
    match parseTerm term with
    | none => parseTerms rest textQueries
    | some t => parseTerms rest (textQueries ++ [t])

/-- The preprocessing of `parseQuery` that removes the symbols of tsquery from
the raw query. -/
def stripTsquerySymbols (searchQuery : List Char) : List Char :=
  removeAll (removeAll (removeAll (removeAll (removeAll searchQuery '!') '&') '(') ')') '|'

/-- The tokens `splitQuery` of `parseQuery`. -/
def splitQuery (searchQuery : String) : List (List Char) :=
  csvRead (stripTsquerySymbols searchQuery.data)

/-- The year that `parseQuery` stores: `currentYear` stands for
`time.Now().Year()`. -/
def parseYear (currentYear : Int) (yearParam : String) : Int :=
  let yearParam := TrimSpace yearParam.data
  if yearParam.length > 0 then
    match Atoi (goBytes yearParam) with
    | some parsedYear => parsedYear
    | none => currentYear
  else currentYear

/-- A transcription of `parseQuery`; `currentYear` stands for
`time.Now().Year()`. -/
def parseQuery (currentYear : Int) (searchQuery yearParam : String) : ParsedQuery :=
  { TextQueries := parseTerms (splitQuery searchQuery) []
    Year := parseYear currentYear yearParam }

/-! ## Terms of the query parser -/

/-- No leading and no trailing white space. -/
def Trimmed (s : List Char) : Prop :=
  (∀ c, s.head? = some c → IsSpace c = false) ∧ (∀ c, s.getLast? = some c → IsSpace c = false)

/-- The term a token contributes, in the words of the parser's description:
a token that begins with `-` is negated and loses its leading hyphens; a token
whose rest contains one of `: < > = - ~` contributes nothing; the rest is
trimmed, contributes nothing when empty, and is prefixed with `!` when
negated. -/
def termOfToken (token : List Char) : Option String :=
  let negated := token.head? = some '-'
  let body := if negated then token.dropWhile (fun c => decide (c = '-')) else token
  if body.any (fun c => decide (c ∈ [':', '<', '>', '=', '-', '~'])) then none
  else if TrimSpace body = [] then none
  else some (String.mk (if negated then '!' :: TrimSpace body else TrimSpace body))

/-- The characters of the field that is being read in a state. -/
def CsvState.field : CsvState → List Char
  | CsvState.fieldStart => []
  | CsvState.unquoted field => field
  | CsvState.quoted field => field
  | CsvState.quoteSeen field => field

/-- The value of a string of decimal digits. -/
def decimalValue (digits : List Char) : Nat :=
  digits.foldl (fun n c => n * 10 + (c.toNat - 48)) 0

/-- The integer a text denotes, when it is an integer in decimal notation: an
optional sign `+` or `-` followed by at least one decimal digit. -/
def integerLiteral (s : List Char) : Option Int :=
  match s with
  | [] => none
  | c :: rest =>
    if c = '-' then
      if rest ≠ [] ∧ rest.all Char.isDigit = true then some (-(decimalValue rest : Int)) else none
    else if c = '+' then
      if rest ≠ [] ∧ rest.all Char.isDigit = true then some (decimalValue rest : Int) else none
    else if (c :: rest).all Char.isDigit = true then some (decimalValue (c :: rest) : Int)
    else none

/-! ## web.go: partitioning of groups -/

/-- The record of `EventGroup`. -/
structure EventGroup where
  Name : String := ""
  EventId : String := ""
  Description : String := ""
  ShortCategory : String := ""
  GameSystem : String := ""
  Count : Int := 0
  WedTickets : Int := 0
  ThursTickets : Int := 0
  FriTickets : Int := 0
  SatTickets : Int := 0
  SunTickets : Int := 0
  TotalTickets : Int := 0
  deriving DecidableEq, Repr

/-- The comparison of Go strings, byte by byte, a proper prefix coming first. -/
def bytesLE : List Nat → List Nat → Bool
  | [], _ => true
  | _ :: _, [] => false
  | a :: as, b :: bs => decide (a < b) || (decide (a = b) && bytesLE as bs)

/-- The order `a <= b` of Go strings. -/
def stringLE (a b : String) : Prop :=
  bytesLE (goBytes a.data) (goBytes b.data) = true

instance stringLE_decidable : DecidableRel stringLE :=
  fun a b => inferInstanceAs (Decidable (bytesLE (goBytes a.data) (goBytes b.data) = true))

/-- The call `sort.Strings(keys)`. -/
def sortStrings (keys : List String) : List String :=
  keys.insertionSort stringLE

/-- The loop `for _, group := range groups` of `partitionGroups`. -/
def partitionLoop (keyFunction : EventGroup → String) :
    List EventGroup → GoMap (List EventGroup) → List String →
    GoMap (List EventGroup) × List String
  | [], partitions, keys => (partitions, keys)
  | group :: rest, partitions, keys =>
    let key := keyFunction group
    match partitions.get? key with
    | some partition =>
      partitionLoop keyFunction rest (partitions.set key (partition ++ [group])) keys
    | none =>
      partitionLoop keyFunction rest (partitions.set key ([] ++ [group])) (keys ++ [key])

/-- A transcription of `partitionGroups`. -/
def partitionGroups (groups : List EventGroup) (keyFunction : EventGroup → String) :
    List String × GoMap (List EventGroup) :=
  let r := partitionLoop keyFunction groups [] []
  (sortStrings r.2, r.1)

/-! ## internal/postgres/db.go: aggregation of groups -/

/-- A row of the table `events` as the grouping queries read it: the columns
of the event and the two columns `cluster_key` and `day_of_week` that the
database keeps beside them (0 is Sunday, 3 Wednesday, 6 Saturday). -/
structure EventRow where
  event : GenconEvent
  cluster_key : String
  day_of_week : Int
  deriving DecidableEq, Repr

/-- A row of the inner `SELECT ... GROUP BY cluster_key, short_category, title`
of `LoadEventGroups` and `FindEvents`. -/
structure GroupRow where
  cluster_key : String
  short_category : String
  title : String
  start_time : Int
  num_events : Int
  tickets_available : Int
  wed_tickets : Int
  thu_tickets : Int
  fri_tickets : Int
  sat_tickets : Int
  sun_tickets : Int
  deriving DecidableEq, Repr

/-- The aggregate `sum(tickets_available)`. -/
def sumTickets (rows : List EventRow) : Int :=
  (rows.map (fun r => r.event.TicketsAvailable)).sum

/-- The aggregate `sum(CASE WHEN day_of_week = d THEN tickets_available ELSE 0 END)`. -/
def sumTicketsOn (day : Int) (rows : List EventRow) : Int :=
  (rows.map (fun r => if r.day_of_week = day then r.event.TicketsAvailable else 0)).sum

/-- The aggregate `min(start_time)` of a group with at least one row. -/
def minStartTime (first : EventRow) (rest : List EventRow) : Int :=
  rest.foldl (fun m r => min m r.event.StartTime) first.event.StartTime

/-- The columns of `GROUP BY cluster_key, short_category, title`. -/
def groupKey (r : EventRow) : String × String × String :=
  (r.cluster_key, r.event.ShortCategory, r.event.Title)

/-- The aggregate row of one group, given by its rows. -/
def groupAggregate (first : EventRow) (rest : List EventRow) : GroupRow :=
  { cluster_key := first.cluster_key
    short_category := first.event.ShortCategory
    title := first.event.Title
    start_time := minStartTime first rest
    num_events := ((first :: rest).length : Int)
    tickets_available := sumTickets (first :: rest)
    wed_tickets := sumTicketsOn 3 (first :: rest)
    thu_tickets := sumTicketsOn 4 (first :: rest)
    fri_tickets := sumTicketsOn 5 (first :: rest)
    sat_tickets := sumTicketsOn 6 (first :: rest)
    sun_tickets := sumTicketsOn 0 (first :: rest) }

/-- The groups of `GROUP BY`: for every key that occurs, the rows with it. -/
def groupRows (rows : List EventRow) : List (List EventRow) :=
  ((rows.map groupKey).dedup).map (fun k => rows.filter (fun r => decide (groupKey r = k)))

/-- The rows of the inner grouping query over the rows that pass its `WHERE`. -/
def aggregateGroups (rows : List EventRow) : List GroupRow :=
  (groupRows rows).filterMap
    (fun members =>
      match members with
      | [] => none
      | first :: rest => some (groupAggregate first rest))

/-- A transcription of `rowToGroup` on a row of the outer query: the columns
of the event `e` and of the aggregate `c`. -/
def rowToGroup (e : EventRow) (c : GroupRow) : EventGroup :=
  { EventId := e.event.EventId
    Name := e.event.Title
    Description := e.event.ShortDescription
    ShortCategory := e.event.ShortCategory
    GameSystem := e.event.GameSystem
    Count := c.num_events
    TotalTickets := c.tickets_available
    WedTickets := c.wed_tickets
    ThursTickets := c.thu_tickets
    FriTickets := c.fri_tickets
    SatTickets := c.sat_tickets
    SunTickets := c.sun_tickets }

/-- The join `events e JOIN (...) AS c ON e.title = c.title AND
e.short_category = c.short_category AND e.cluster_key = c.cluster_key AND
e.start_time = c.start_time` of both queries. -/
def joinsGroup (e : EventRow) (c : GroupRow) : Bool :=
  decide (e.event.Title = c.title) && decide (e.event.ShortCategory = c.short_category) &&
    decide (e.cluster_key = c.cluster_key) && decide (e.event.StartTime = c.start_time)

/-- The condition `WHERE active and year=$1 and short_category=$2` of the
inner query of `LoadEventGroups`. -/
def loadEventGroupsInnerWhere (cat : String) (year : Int) (r : EventRow) : Bool :=
  r.event.Active && decide (r.event.Year = year) && decide (r.event.ShortCategory = cat)

/-- The groups that `LoadEventGroups` returns when the query and the scans
succeed (it returns the error otherwise), as a collection: the order of
`ORDER BY` depends on the collation of the database and is not modelled. -/
def LoadEventGroups (table : List EventRow) (cat : String) (year : Int) (days : List Int) :
    List EventGroup :=
  let daysOfWeek := if days.length > 0 then days else [3, 4, 5, 6, 0]
  let groups := aggregateGroups (table.filter (loadEventGroupsInnerWhere cat year))
  ((table.filter (fun e => decide (e.event.Year = year))).map
    (fun e =>
      (groups.filter (fun c => joinsGroup e c && decide (e.day_of_week ∈ daysOfWeek))).map
        (rowToGroup e))).flatten

/-- The column `c.<d>_tickets` that `FindEvents` names for a key `d` of
`DaysOfWeek`; `none` when the inner query has no such column. -/
def ticketsColumn (d : String) (c : GroupRow) : Option Int :=
  if d = "wed" then some c.wed_tickets
  else if d = "thu" then some c.thu_tickets
  else if d = "fri" then some c.fri_tickets
  else if d = "sat" then some c.sat_tickets
  else if d = "sun" then some c.sun_tickets
  else none

/-- The condition `dayPart` of `FindEvents` on a group, given the keys of
`DaysOfWeek` whose value is true: one of the named columns is positive. -/
def dayPart (days : List String) (c : GroupRow) : Bool :=
  days.any (fun d => match ticketsColumn d c with
    | some t => decide (t > 0)
    | none => false)

/-- The condition `innerWhere` of `FindEvents`: active, the year, the four
bounds on the hours, and the text match when there are terms.  The hour in the
time zone of the convention (`hourOf`) and the text match of the database
(`matchesTsquery`) are parameters. -/
def innerWhere (hourOf : Int → Int) (matchesTsquery : String → EventRow → Bool)
    (query : ParsedQuery) (r : EventRow) : Bool :=
  let tsquery := " & ".intercalate query.TextQueries
  r.event.Active && decide (r.event.Year = query.Year) &&
    decide (hourOf r.event.StartTime ≤ query.StartBeforeHour) &&
    decide (hourOf r.event.StartTime ≥ query.StartAfterHour) &&
    decide (hourOf r.event.EndTime ≤ query.EndBeforeHour) &&
    decide (hourOf r.event.EndTime ≥ query.EndAfterHour) &&
    (if tsquery.length > 0 then matchesTsquery tsquery r else true)

/-- The groups that `FindEvents` returns when the query and the scans succeed,
as a collection (the ranks and the order are not modelled).  The result is
`none` when the database rejects the query text: `DaysOfWeek` is not empty and
holds no true entry, or a true entry that names no column. -/
def FindEvents (hourOf : Int → Int) (matchesTsquery : String → EventRow → Bool)
    (table : List EventRow) (query : ParsedQuery) : Option (List EventGroup) :=
  let groups := aggregateGroups (table.filter (innerWhere hourOf matchesTsquery query))
  let days := (query.DaysOfWeek.filter (fun p => p.2)).map Prod.fst
  if query.DaysOfWeek.length > 0 ∧
      (days = [] ∨ ∃ d ∈ days, d ∉ ["wed", "thu", "fri", "sat", "sun"]) then none
  else
    some
      ((table.filter (fun e => decide (e.event.Year = query.Year))).map
        (fun e =>
          (groups.filter
            (fun c => joinsGroup e c &&
              (if query.DaysOfWeek.length > 0 then dayPart days c else true))).map
            (rowToGroup e))).flatten

/-- The five ticket counts of a group, added up. -/
def EventGroup.dayTickets (g : EventGroup) : Int :=
  g.WedTickets + g.ThursTickets + g.FriTickets + g.SatTickets + g.SunTickets

/-! ## The contributing records of a group

The aggregation in the words of the specification: the records that
contribute to a group, their number and their tickets.  These definitions do
not use the aggregates of the grouping query above; the theorems on
`LoadEventGroups` and `FindEvents` compare the two. -/

/-- The contributing records of the group that the row `e` stands for, among
the rows that the inner query selects: the selected rows with the cluster
key, the short category and the title of `e`. -/
def contributingRecords (selected : List EventRow) (e : EventRow) : List EventRow :=
  selected.filter
    (fun r => decide (r.cluster_key = e.cluster_key) &&
      decide (r.event.ShortCategory = e.event.ShortCategory) &&
      decide (r.event.Title = e.event.Title))

/-- The tickets of a list of records, added up. -/
def ticketsOf : List EventRow → Int
  | [] => 0
  | r :: rest => r.event.TicketsAvailable + ticketsOf rest

/-- The tickets of the records that fall on the given day of the week. -/
def ticketsOnDay (day : Int) (records : List EventRow) : Int :=
  ticketsOf (records.filter (fun r => decide (r.day_of_week = day)))

/-- The tickets of the records that fall on none of the five days Wednesday
to Sunday. -/
def ticketsOnOtherDays (records : List EventRow) : Int :=
  ticketsOf (records.filter (fun r => decide (r.day_of_week ∉ [3, 4, 5, 6, 0])))

/-- What a returned group owes to its contributing records.  The group stands
for a row `e` of the table, whose id, title, short category and description
it shows; its contributing records are the selected rows that share cluster
key, short category and title with `e`, at least one; `Count` is their
number, `TotalTickets` their tickets, each of the five ticket counts the
tickets of those on that day; so `TotalTickets` is the sum of the five counts
plus the tickets of the records on another day of the week. -/
def AggregatesRecords (selected table : List EventRow) (g : EventGroup) : Prop :=
  ∃ e, e ∈ table ∧
    g.EventId = e.event.EventId ∧ g.Name = e.event.Title ∧
      g.ShortCategory = e.event.ShortCategory ∧
      contributingRecords selected e ≠ [] ∧
      g.Count = ((contributingRecords selected e).length : Int) ∧
      g.TotalTickets = ticketsOf (contributingRecords selected e) ∧
      g.WedTickets = ticketsOnDay 3 (contributingRecords selected e) ∧
      g.ThursTickets = ticketsOnDay 4 (contributingRecords selected e) ∧
      g.FriTickets = ticketsOnDay 5 (contributingRecords selected e) ∧
      g.SatTickets = ticketsOnDay 6 (contributingRecords selected e) ∧
      g.SunTickets = ticketsOnDay 0 (contributingRecords selected e) ∧
      g.TotalTickets = g.dayTickets + ticketsOnOtherDays (contributingRecords selected e) ∧
      ((∀ r ∈ contributingRecords selected e, r.day_of_week ∈ [3, 4, 5, 6, 0]) →
        g.TotalTickets = g.dayTickets)

/-- Whether a group aggregates its contributing records can be computed. -/
instance decAggregatesRecords (selected table : List EventRow) (g : EventGroup) :
    Decidable (AggregatesRecords selected table g) := by
  unfold AggregatesRecords
  infer_instance

/-! ## web.go and internal/web/categories.go: rows of categories -/

/-- The record of `CategorySummary`. -/
structure CategorySummary where
  Name : String := ""
  Code : String := ""
  Count : Int := 0
  deriving DecidableEq, Repr

/-- The slice expression `s[lo:hi]` of Go on a slice without spare capacity:
`none` is the panic for bounds out of range. -/
def goSlice {α : Type} (s : List α) (lo hi : Nat) : Option (List α) :=
  if lo ≤ hi ∧ hi ≤ s.length then some ((s.take hi).drop lo) else none

/-- The loop `for i := range categories` of `CategoryList`, over the indices
still to visit. -/
def categoryRowsLoop (summary : List CategorySummary) (batchSize tail numBuckets : Nat) :
    List Nat → Option (List (List CategorySummary))
  | [] => some []
  | i :: rest =>
    let base := batchSize * i
    let stop := if i = numBuckets - 1 then base + tail else base + batchSize
    match goSlice summary base stop with
    | none => none
    | some row =>
      match categoryRowsLoop summary batchSize tail numBuckets rest with
      | none => none
      | some rows => some (row :: rows)

/-- The rows `categories` that `CategoryList` builds from the summaries, in
both of its versions. -/
def categoryRows (summary : List CategorySummary) : Option (List (List CategorySummary)) :=
  let batchSize := 2
  let tail := summary.length % batchSize
  let numBuckets := if tail > 0 then summary.length / batchSize + 1 else summary.length / batchSize
  categoryRowsLoop summary batchSize tail numBuckets (List.range numBuckets)

/-! ## A database that records its statements -/

/-- The database whose state is the list of the statements sent so far; no
statement fails. -/
def recordingDb (ε : Type) : Database (List Stmt) ε where
  queryYear := fun _ _ => Except.ok []
  exec := fun log stmt => Except.ok (log ++ [stmt])
  isPGError := fun _ => true

/-! ## events/event.go: the sliced bytes -/

/-- The bytes of the local variable `yearId` of `splitId`, the event code
without its leading letters; `GenconLink` slices the same bytes. -/
def yearIdBytes (T : RuneTables) (rawEventId : String) : List Nat :=
  goBytes (TrimLeftFunc rawEventId.data T.IsLetter)

/-! ## Sample data -/

/-- A stored or incoming row of the year 2019 with the given id and flag. -/
def sampleRow (id : String) (active : Bool) : GenconEvent :=
  { EventId := id, Year := 2019, Active := active }

/-- A starred session with the given id and time window (minutes of the day). -/
def sampleSession (id : String) (startTime endTime : Int) : GenconEvent :=
  { EventId := id, Year := 2019, Active := true, StartTime := startTime, EndTime := endTime }

/-- The store as a database on which every deactivation statement fails and
every other statement succeeds; `pgError` says whether the error of the
failing statement is a `pq.PGError` (a server error) or not (for instance
`driver.ErrBadConn` when the connection is lost). -/
def failingDeactivateDb (pgError : Bool) : Database Store String where
  queryYear := (storeDb String).queryYear
  exec := fun s stmt =>
    match stmt with
    | Stmt.deactivate _ => Except.error "deactivate failed"
    | Stmt.insert rows => Except.ok (s.apply (Stmt.insert rows))
    | Stmt.update row => Except.ok (s.apply (Stmt.update row))
  isPGError := fun _ => pgError

/-- A row of the table with the given id, day of the week, start time and
tickets, in the year 2019. -/
def sampleEventRow (id : String) (day start tickets : Int) : EventRow :=
  { event := { EventId := id, Year := 2019, Active := true, Title := "Catan",
               ShortCategory := "BGM", StartTime := start, TicketsAvailable := tickets }
    cluster_key := "k"
    day_of_week := day }

/-- A category summary with the given name. -/
def sampleSummary (name : String) : CategorySummary :=
  { Name := name, Code := name, Count := 1 }

/-! ## Lemmas on Go maps -/

theorem GoMap.contains_iff {ν : Type} (m : GoMap ν) (k : String) :
    m.contains k = true ↔ k ∈ m.keys := by
  unfold GoMap.contains GoMap.keys
  induction m with
  | nil => simp
  | cons p m ih =>
    simp only [List.any_cons, Bool.or_eq_true, decide_eq_true_eq, List.map_cons, List.mem_cons, ih]
    constructor
    · rintro (h | h)
      · exact Or.inl h.symm
      · exact Or.inr h
    · rintro (h | h)
      · exact Or.inl h.symm
      · exact Or.inr h

theorem GoMap.mem_keys_set {ν : Type} (m : GoMap ν) (k : String) (v : ν) (k1 : String) :
    k1 ∈ (m.set k v).keys ↔ k1 = k ∨ k1 ∈ m.keys := by
  unfold GoMap.set
  by_cases hc : m.contains k = true
  · rw [if_pos hc]
    have hk : k ∈ m.keys := (GoMap.contains_iff m k).1 hc
    unfold GoMap.keys at *
    simp only [List.mem_map, Prod.exists] at *
    constructor
    · rintro ⟨a, b, ⟨a1, b1, hmem, heq⟩, rfl⟩
      by_cases h : a1 = k
      · simp only [h, if_true, Prod.mk.injEq] at heq
        exact Or.inl heq.1.symm
      · simp only [h, if_false, Prod.mk.injEq] at heq
        exact Or.inr ⟨a1, b1, hmem, heq.1⟩
    · rintro (rfl | ⟨a, b, hmem, rfl⟩)
      · obtain ⟨a, b, hmem, rfl⟩ := hk
        exact ⟨a, v, ⟨a, b, hmem, by simp⟩, rfl⟩
      · by_cases h : a = k
        · exact ⟨k, v, ⟨a, b, hmem, by simp [h]⟩, h.symm⟩
        · exact ⟨a, b, ⟨a, b, hmem, by simp [h]⟩, rfl⟩
  · rw [if_neg hc]
    unfold GoMap.keys
    simp only [List.map_append, List.mem_append, List.map_cons, List.map_nil, List.mem_singleton]
    tauto

theorem GoMap.mem_keys_delete {ν : Type} (m : GoMap ν) (k k1 : String) :
    k1 ∈ (m.delete k).keys ↔ k1 ∈ m.keys ∧ k1 ≠ k := by
  unfold GoMap.delete GoMap.keys
  simp only [List.mem_map, List.mem_filter, Bool.not_eq_true', decide_eq_false_iff_not,
    Prod.exists]
  constructor
  · rintro ⟨a, b, ⟨hmem, hne⟩, rfl⟩
    exact ⟨⟨a, b, hmem, rfl⟩, hne⟩
  · rintro ⟨⟨a, b, hmem, rfl⟩, hne⟩
    exact ⟨a, b, ⟨hmem, hne⟩, rfl⟩

theorem GoMap.mem_keys_foldl_set {ν : Type} (l : List (String × ν)) (m : GoMap ν) (k : String) :
    k ∈ (l.foldl (fun m p => m.set p.1 p.2) m).keys ↔ k ∈ m.keys ∨ k ∈ l.map Prod.fst := by
  induction l generalizing m with
  | nil => simp
  | cons p l ih =>
    rw [List.foldl_cons, ih, GoMap.mem_keys_set]
    simp only [List.map_cons, List.mem_cons]
    tauto

theorem persistedEvents_contains (activeEvents inactiveEvents : GoMap Int) (k : String) :
    (persistedEvents activeEvents inactiveEvents).contains k = true ↔
      k ∈ activeEvents.keys ∨ k ∈ inactiveEvents.keys := by
  rw [GoMap.contains_iff]
  unfold persistedEvents
  rw [GoMap.mem_keys_foldl_set, GoMap.mem_keys_foldl_set]
  simp [GoMap.keys]

/-! ## Lemmas on the classification loop -/

theorem classifyLoop_newEvents (persisted : GoMap Int) (parsedEvents : List GenconEvent)
    (c : Classification) :
    (classifyLoop persisted parsedEvents c).newEvents =
      c.newEvents ++ parsedEvents.filter (fun p => !persisted.contains p.EventId) := by
  induction parsedEvents generalizing c with
  | nil => simp [classifyLoop]
  | cons p rest ih =>
    rw [classifyLoop, ih]
    by_cases h : persisted.contains p.EventId = true
    · by_cases h2 : c.latestUpdate < p.LastModified <;> simp [h, h2, List.filter_cons]
    · by_cases h2 : c.latestUpdate < p.LastModified <;> simp [h, h2, List.filter_cons]

theorem classifyLoop_updatedEvents (persisted : GoMap Int) (parsedEvents : List GenconEvent)
    (c : Classification) :
    (classifyLoop persisted parsedEvents c).updatedEvents =
      c.updatedEvents ++ parsedEvents.filter (fun p => persisted.contains p.EventId) := by
  induction parsedEvents generalizing c with
  | nil => simp [classifyLoop]
  | cons p rest ih =>
    rw [classifyLoop, ih]
    by_cases h : persisted.contains p.EventId = true
    · by_cases h2 : c.latestUpdate < p.LastModified <;> simp [h, h2, List.filter_cons]
    · by_cases h2 : c.latestUpdate < p.LastModified <;> simp [h, h2, List.filter_cons]

theorem classifyLoop_activeEvents (persisted : GoMap Int) (parsedEvents : List GenconEvent)
    (c : Classification) (id : String) :
    id ∈ (classifyLoop persisted parsedEvents c).activeEvents.keys ↔
      id ∈ c.activeEvents.keys ∧
        ∀ p ∈ parsedEvents, persisted.contains p.EventId = true → p.EventId ≠ id := by
  induction parsedEvents generalizing c with
  | nil => simp [classifyLoop]
  | cons p rest ih =>
    rw [classifyLoop, ih]
    by_cases h : persisted.contains p.EventId = true
    · by_cases h2 : c.latestUpdate < p.LastModified <;>
        simp [h, h2, GoMap.mem_keys_delete] <;> constructor <;> intro hh <;>
        (try exact ⟨hh.1.1, fun hp => hh.1.2 hp.symm, hh.2⟩) <;>
        (try exact ⟨⟨hh.1, fun hp => hh.2.1 hp.symm⟩, hh.2.2⟩)
    · by_cases h2 : c.latestUpdate < p.LastModified <;> simp [h, h2]

/-! ## Lemmas on the statement sequences -/

theorem batches_nil {α : Type} (n fuel : Nat) : batches n fuel ([] : List α) = [] := by
  cases fuel <;> simp [batches]

theorem runStmts_append {σ ε : Type} (db : Database σ ε) (l1 l2 : List Stmt) (tx : σ) :
    runStmts db tx (l1 ++ l2) =
      match runStmts db tx l1 with
      | none => none
      | some (tx1, none) => runStmts db tx1 l2
      | some (tx1, some err) => some (tx1, some err) := by
  induction l1 generalizing tx with
  | nil => simp [runStmts]
  | cons st l1 ih =>
    simp only [List.cons_append, runStmts]
    cases h : db.exec tx st with
    | error err => by_cases hpg : db.isPGError err = true <;> simp [hpg]
    | ok tx1 => simpa using ih tx1

theorem bulkUpdate_eq_runStmts {σ ε : Type} (db : Database σ ε) (rows : List GenconEvent)
    (tx : σ) : bulkUpdate db tx rows = runStmts db tx (rows.map Stmt.update) := by
  induction rows generalizing tx with
  | nil => simp [bulkUpdate, runStmts]
  | cons r rows ih =>
    simp only [bulkUpdate, List.map_cons, runStmts]
    cases h : db.exec tx (Stmt.update r) with
    | error err => rfl
    | ok tx1 => simpa using ih tx1

theorem bulkInsertLoop_eq_runStmts {σ ε : Type} (db : Database σ ε) (fuel : Nat) :
    ∀ (batchSize : Nat) (newRows : List GenconEvent) (tx : σ), 1 ≤ batchSize →
      newRows.length ≤ fuel →
      bulkInsertLoop db fuel batchSize newRows tx =
        runStmts db tx ((batches batchSize fuel newRows).map Stmt.insert) := by
  induction fuel with
  | zero =>
    intro b rows tx _ hlen
    have hnil : rows = [] := List.length_eq_zero.1 (Nat.le_zero.1 hlen)
    subst hnil
    simp [bulkInsertLoop, batches, runStmts]
  | succ fuel ih =>
    intro b rows tx hb hlen
    by_cases hpos : rows.length > 0
    · have htake : rows.take (if b > rows.length then rows.length else b) = rows.take b := by
        by_cases hgt : b > rows.length
        · rw [if_pos hgt, List.take_of_length_le (Nat.le_refl _),
            List.take_of_length_le (Nat.le_of_lt hgt)]
        · rw [if_neg hgt]
      have hdrop : rows.drop (if b > rows.length then rows.length else b) = rows.drop b := by
        by_cases hgt : b > rows.length
        · rw [if_pos hgt, List.drop_of_length_le (Nat.le_refl _),
            List.drop_of_length_le (Nat.le_of_lt hgt)]
        · rw [if_neg hgt]
      simp only [bulkInsertLoop, batches, if_pos hpos, htake, hdrop, List.map_cons, runStmts]
      cases hexec : db.exec tx (Stmt.insert (rows.take b)) with
      | error err => rfl
      | ok tx1 =>
        have hlen2 : (rows.drop b).length ≤ fuel := by
          rw [List.length_drop]; omega
        have hb2 : 1 ≤ (if b > rows.length then rows.length else b) := by
          by_cases hgt : b > rows.length
          · rw [if_pos hgt]; exact hpos
          · rw [if_neg hgt]; exact hb
        simp only []
        rw [ih _ (rows.drop b) tx1 hb2 hlen2]
        by_cases hgt : b > rows.length
        · rw [if_pos hgt, List.drop_of_length_le (Nat.le_of_lt hgt), batches_nil, batches_nil]
        · rw [if_neg hgt]
    · have hnil : rows = [] := List.length_eq_zero.1 (by omega)
      subst hnil
      simp [bulkInsertLoop, batches, runStmts]

theorem bulkDeleteLoop_eq_runStmts {σ ε : Type} (db : Database σ ε) (fuel : Nat) :
    ∀ (batchSize : Nat) (ids : List String) (tx : σ), 1 ≤ batchSize →
      ids.length ≤ fuel →
      bulkDeleteLoop db fuel batchSize ids tx =
        runStmts db tx ((batches batchSize fuel ids).map Stmt.deactivate) := by
  induction fuel with
  | zero =>
    intro b rows tx _ hlen
    have hnil : rows = [] := List.length_eq_zero.1 (Nat.le_zero.1 hlen)
    subst hnil
    simp [bulkDeleteLoop, batches, runStmts]
  | succ fuel ih =>
    intro b rows tx hb hlen
    by_cases hpos : rows.length > 0
    · have htake : rows.take (if rows.length < b then rows.length else b) = rows.take b := by
        by_cases hgt : rows.length < b
        · rw [if_pos hgt, List.take_of_length_le (Nat.le_refl _),
            List.take_of_length_le (Nat.le_of_lt hgt)]
        · rw [if_neg hgt]
      have hdrop : rows.drop (if rows.length < b then rows.length else b) = rows.drop b := by
        by_cases hgt : rows.length < b
        · rw [if_pos hgt, List.drop_of_length_le (Nat.le_refl _),
            List.drop_of_length_le (Nat.le_of_lt hgt)]
        · rw [if_neg hgt]
      simp only [bulkDeleteLoop, batches, if_pos hpos, htake, hdrop, List.map_cons, runStmts]
      cases hexec : db.exec tx (Stmt.deactivate (rows.take b)) with
      | error err => rfl
      | ok tx1 =>
        have hlen2 : (rows.drop b).length ≤ fuel := by
          rw [List.length_drop]; omega
        have hb2 : 1 ≤ (if rows.length < b then rows.length else b) := by
          by_cases hgt : rows.length < b
          · rw [if_pos hgt]; exact hpos
          · rw [if_neg hgt]; exact hb
        simp only []
        rw [ih _ (rows.drop b) tx1 hb2 hlen2]
        by_cases hgt : rows.length < b
        · rw [if_pos hgt, List.drop_of_length_le (Nat.le_of_lt hgt), batches_nil, batches_nil]
        · rw [if_neg hgt]
    · have hnil : rows = [] := List.length_eq_zero.1 (by omega)
      subst hnil
      simp [bulkDeleteLoop, batches, runStmts]

theorem BulkUpdateEvents_eq_runStmts {σ ε : Type} (db : Database σ ε) (tx : σ)
    (first : GenconEvent) (rest : List GenconEvent) (activeEvents inactiveEvents : GoMap Int)
    (hload : loadEventIds db tx first.Year = Except.ok (activeEvents, inactiveEvents)) :
    BulkUpdateEvents db tx (first :: rest) =
      runStmts db tx
        (plannedStmts (classifyEvents activeEvents inactiveEvents first (first :: rest))) := by
  simp only [BulkUpdateEvents, hload, bulkInsert, bulkDelete, plannedStmts]
  rw [bulkInsertLoop_eq_runStmts db _ 100 _ tx (by decide) (Nat.le_refl _)]
  rw [runStmts_append, runStmts_append]
  generalize runStmts db tx _ = r1
  cases r1 with
  | none => rfl
  | some r1 =>
    obtain ⟨tx1, e1⟩ := r1
    cases e1 with
    | some err => rfl
    | none =>
      simp only []
      rw [bulkUpdate_eq_runStmts]
      generalize runStmts db tx1 _ = r2
      cases r2 with
      | none => rfl
      | some r2 =>
        obtain ⟨tx2, e2⟩ := r2
        cases e2 with
        | some err => rfl
        | none =>
          simp only []
          rw [bulkDeleteLoop_eq_runStmts db _ 100 _ tx2 (by decide) (Nat.le_refl _)]

/-! ## Reconciliation: classification (C1, C2) -/

theorem classifyEvents_updatedEvents (activeEvents inactiveEvents : GoMap Int)
    (first : GenconEvent) (parsedEvents : List GenconEvent) :
    (classifyEvents activeEvents inactiveEvents first parsedEvents).updatedEvents =
      parsedEvents.filter
        (fun p => decide (p.EventId ∈ activeEvents.keys ∨ p.EventId ∈ inactiveEvents.keys)) := by
  unfold classifyEvents
  rw [classifyLoop_updatedEvents]
  simp only [List.nil_append]
  apply List.filter_congr
  intro p _
  rw [Bool.eq_iff_iff, persistedEvents_contains]
  simp

theorem classifyEvents_newEvents (activeEvents inactiveEvents : GoMap Int)
    (first : GenconEvent) (parsedEvents : List GenconEvent) :
    (classifyEvents activeEvents inactiveEvents first parsedEvents).newEvents =
      parsedEvents.filter
        (fun p => decide (¬(p.EventId ∈ activeEvents.keys ∨ p.EventId ∈ inactiveEvents.keys))) := by
  unfold classifyEvents
  rw [classifyLoop_newEvents]
  simp only [List.nil_append]
  apply List.filter_congr
  intro p _
  rw [Bool.eq_iff_iff, Bool.not_eq_true', ← Bool.not_eq_true, persistedEvents_contains]
  simp

theorem classifyEvents_deletedEvents (activeEvents inactiveEvents : GoMap Int)
    (first : GenconEvent) (parsedEvents : List GenconEvent) (id : String) :
    id ∈ deletedEvents (classifyEvents activeEvents inactiveEvents first parsedEvents) ↔
      id ∈ activeEvents.keys ∧ ∀ p ∈ parsedEvents, p.EventId ≠ id := by
  unfold deletedEvents classifyEvents
  rw [classifyLoop_activeEvents]
  constructor
  · rintro ⟨hact, hall⟩
    refine ⟨hact, fun p hp heq => ?_⟩
    refine hall p hp ?_ heq
    rw [persistedEvents_contains, heq]
    exact Or.inl hact
  · rintro ⟨hact, hall⟩
    exact ⟨hact, fun p hp _ => hall p hp⟩

/-- C1: once the year index is loaded, `BulkUpdateEvents` on a non-empty
incoming list sends exactly the statements of its classification, in which
the updated records are the incoming records whose id is in the stored index
(active or inactive), the inserted records are the incoming records whose id
is not in the index, and the deactivated ids are the previously active ids
that no incoming record carries. -/
theorem BulkUpdateEvents_classifies {σ ε : Type} (db : Database σ ε) (tx : σ)
    (first : GenconEvent) (rest : List GenconEvent) (activeEvents inactiveEvents : GoMap Int)
    (hload : loadEventIds db tx first.Year = Except.ok (activeEvents, inactiveEvents)) :
    BulkUpdateEvents db tx (first :: rest) =
        runStmts db tx
          (plannedStmts (classifyEvents activeEvents inactiveEvents first (first :: rest))) ∧
      (classifyEvents activeEvents inactiveEvents first (first :: rest)).updatedEvents =
        (first :: rest).filter
          (fun p => decide (p.EventId ∈ activeEvents.keys ∨ p.EventId ∈ inactiveEvents.keys)) ∧
      (classifyEvents activeEvents inactiveEvents first (first :: rest)).newEvents =
        (first :: rest).filter
          (fun p =>
            decide (¬(p.EventId ∈ activeEvents.keys ∨ p.EventId ∈ inactiveEvents.keys))) ∧
      ∀ id : String,
        id ∈ deletedEvents (classifyEvents activeEvents inactiveEvents first (first :: rest)) ↔
          id ∈ activeEvents.keys ∧ ∀ p ∈ first :: rest, p.EventId ≠ id :=
  ⟨BulkUpdateEvents_eq_runStmts db tx first rest activeEvents inactiveEvents hload,
    classifyEvents_updatedEvents _ _ _ _, classifyEvents_newEvents _ _ _ _,
    classifyEvents_deletedEvents _ _ _ _⟩

/-- The example of the specification for C1: the store holds the active ids A1
and A2 and the snapshot carries A2 (changed) and A3 (new); then A3 is
inserted, A2 is updated and A1 is deactivated. -/
theorem BulkUpdateEvents_classifies_witness :
    loadEventIds (storeDb Unit) [sampleRow "A1" true, sampleRow "A2" true] 2019 =
        Except.ok ([("A1", 0), ("A2", 0)], []) ∧
      (classifyEvents [("A1", 0), ("A2", 0)] [] { sampleRow "A2" true with Title := "changed" }
          [{ sampleRow "A2" true with Title := "changed" }, sampleRow "A3" true]).newEvents =
        [sampleRow "A3" true] ∧
      (classifyEvents [("A1", 0), ("A2", 0)] [] { sampleRow "A2" true with Title := "changed" }
          [{ sampleRow "A2" true with Title := "changed" }, sampleRow "A3" true]).updatedEvents =
        [{ sampleRow "A2" true with Title := "changed" }] ∧
      deletedEvents
          (classifyEvents [("A1", 0), ("A2", 0)] [] { sampleRow "A2" true with Title := "changed" }
            [{ sampleRow "A2" true with Title := "changed" }, sampleRow "A3" true]) = ["A1"] ∧
      BulkUpdateEvents (storeDb Unit) [sampleRow "A1" true, sampleRow "A2" true]
          [{ sampleRow "A2" true with Title := "changed" }, sampleRow "A3" true] =
        runStmts (storeDb Unit) [sampleRow "A1" true, sampleRow "A2" true]
          (plannedStmts
            (classifyEvents [("A1", 0), ("A2", 0)] [] { sampleRow "A2" true with Title := "changed" }
              [{ sampleRow "A2" true with Title := "changed" }, sampleRow "A3" true])) :=
  ⟨by decide, by decide, by decide, by decide,
    (BulkUpdateEvents_classifies (storeDb Unit) [sampleRow "A1" true, sampleRow "A2" true]
      { sampleRow "A2" true with Title := "changed" } [sampleRow "A3" true]
      [("A1", 0), ("A2", 0)] [] (by decide)).1⟩

/-- C2: the id sets inserted, updated and deactivated that `BulkUpdateEvents`
computes are pairwise disjoint, and an id is in one of them exactly when it is
a previously active id or an incoming id. -/
theorem BulkUpdateEvents_partition (activeEvents inactiveEvents : GoMap Int)
    (first : GenconEvent) (rest : List GenconEvent) :
    (∀ id : String,
        id ∈ (classifyEvents activeEvents inactiveEvents first (first :: rest)).newEvents.map
            GenconEvent.EventId →
          id ∉ (classifyEvents activeEvents inactiveEvents first
            (first :: rest)).updatedEvents.map GenconEvent.EventId) ∧
      (∀ id : String,
        id ∈ (classifyEvents activeEvents inactiveEvents first (first :: rest)).newEvents.map
            GenconEvent.EventId →
          id ∉ deletedEvents (classifyEvents activeEvents inactiveEvents first (first :: rest))) ∧
      (∀ id : String,
        id ∈ (classifyEvents activeEvents inactiveEvents first (first :: rest)).updatedEvents.map
            GenconEvent.EventId →
          id ∉ deletedEvents (classifyEvents activeEvents inactiveEvents first (first :: rest))) ∧
      ∀ id : String,
        (id ∈ (classifyEvents activeEvents inactiveEvents first (first :: rest)).newEvents.map
              GenconEvent.EventId ∨
            id ∈ (classifyEvents activeEvents inactiveEvents first
              (first :: rest)).updatedEvents.map GenconEvent.EventId ∨
            id ∈ deletedEvents
              (classifyEvents activeEvents inactiveEvents first (first :: rest))) ↔
          (id ∈ activeEvents.keys ∨ id ∈ (first :: rest).map GenconEvent.EventId) := by
  simp only [classifyEvents_updatedEvents, classifyEvents_newEvents,
    classifyEvents_deletedEvents, List.mem_map, List.mem_filter, decide_eq_true_eq]
  refine ⟨?_, ?_, ?_, ?_⟩
  · rintro id ⟨p, ⟨_, hp⟩, rfl⟩ ⟨q, ⟨_, hq⟩, heq⟩
    rw [heq] at hq
    exact hp hq
  · rintro id ⟨p, ⟨hmem, _⟩, rfl⟩ ⟨_, hall⟩
    exact hall p hmem rfl
  · rintro id ⟨p, ⟨hmem, _⟩, rfl⟩ ⟨_, hall⟩
    exact hall p hmem rfl
  · intro id
    constructor
    · rintro (⟨p, ⟨hmem, _⟩, rfl⟩ | ⟨p, ⟨hmem, _⟩, rfl⟩ | ⟨hact, _⟩)
      · exact Or.inr ⟨p, hmem, rfl⟩
      · exact Or.inr ⟨p, hmem, rfl⟩
      · exact Or.inl hact
    · intro h
      by_cases hin : ∃ p, p ∈ first :: rest ∧ p.EventId = id
      · obtain ⟨p, hmem, rfl⟩ := hin
        by_cases hper : p.EventId ∈ activeEvents.keys ∨ p.EventId ∈ inactiveEvents.keys
        · exact Or.inr (Or.inl ⟨p, ⟨hmem, hper⟩, rfl⟩)
        · exact Or.inl ⟨p, ⟨hmem, hper⟩, rfl⟩
      · rcases h with hact | hinc
        · exact Or.inr (Or.inr ⟨hact, fun p hp heq => hin ⟨p, hp, heq⟩⟩)
        · exact absurd hinc hin

/-! ## Lemmas on the store -/

theorem Store.mem_insertRow (s : Store) (r x : GenconEvent) :
    x ∈ s.insertRow r ↔ x = r ∨ (x ∈ s ∧ x.EventId ≠ r.EventId) := by
  unfold Store.insertRow
  by_cases h : s.any (fun x => decide (x.EventId = r.EventId)) = true
  · rw [if_pos h]
    simp only [List.any_eq_true, decide_eq_true_eq] at h
    obtain ⟨w, hw, hwid⟩ := h
    simp only [List.mem_map]
    constructor
    · rintro ⟨z, hz, rfl⟩
      by_cases hid : z.EventId = r.EventId
      · left; simp [hid]
      · right; simp [hid, hz]
    · rintro (rfl | ⟨hx, hne⟩)
      · exact ⟨w, hw, by simp [hwid]⟩
      · exact ⟨x, hx, by simp [hne]⟩
  · rw [if_neg h]
    simp only [List.any_eq_true, decide_eq_true_eq, not_exists, not_and] at h
    simp only [List.mem_append, List.mem_singleton]
    constructor
    · rintro (hx | rfl)
      · exact Or.inr ⟨hx, h x hx⟩
      · exact Or.inl rfl
    · rintro (rfl | ⟨hx, _⟩)
      · exact Or.inr rfl
      · exact Or.inl hx

theorem Store.mem_updateRow (s : Store) (r x : GenconEvent) :
    x ∈ s.updateRow r ↔
      (x = r ∧ ∃ z ∈ s, z.EventId = r.EventId) ∨ (x ∈ s ∧ x.EventId ≠ r.EventId) := by
  unfold Store.updateRow
  simp only [List.mem_map]
  constructor
  · rintro ⟨z, hz, rfl⟩
    by_cases hid : z.EventId = r.EventId
    · left; exact ⟨by simp [hid], z, hz, hid⟩
    · right; simp [hid, hz]
  · rintro (⟨rfl, z, hz, hid⟩ | ⟨hx, hne⟩)
    · exact ⟨z, hz, by simp [hid]⟩
    · exact ⟨x, hx, by simp [hne]⟩

theorem Store.mem_foldl_insertRow (rows : List GenconEvent) :
    ∀ (s : Store) (x : GenconEvent), (rows.map GenconEvent.EventId).Nodup →
      (x ∈ rows.foldl Store.insertRow s ↔
        x ∈ rows ∨ (x ∈ s ∧ x.EventId ∉ rows.map GenconEvent.EventId)) := by
  induction rows with
  | nil => intro s x _; simp
  | cons r rows ih =>
    intro s x hnd
    rw [List.map_cons, List.nodup_cons] at hnd
    rw [List.foldl_cons, ih _ _ hnd.2, Store.mem_insertRow]
    simp only [List.mem_cons, List.map_cons, not_or]
    constructor
    · rintro (h | ⟨rfl | ⟨hx, hne⟩, hnot⟩)
      · exact Or.inl (Or.inr h)
      · exact Or.inl (Or.inl rfl)
      · exact Or.inr ⟨hx, hne, hnot⟩
    · rintro ((rfl | h) | ⟨hx, hne, hnot⟩)
      · exact Or.inr ⟨Or.inl rfl, hnd.1⟩
      · exact Or.inl h
      · exact Or.inr ⟨Or.inr ⟨hx, hne⟩, hnot⟩

theorem Store.ids_updateRow (s : Store) (r : GenconEvent) (k : String) :
    (∃ z ∈ s.updateRow r, z.EventId = k) ↔ ∃ z ∈ s, z.EventId = k := by
  constructor
  · rintro ⟨z, hz, rfl⟩
    rcases (Store.mem_updateRow s r z).1 hz with ⟨rfl, w, hw, hid⟩ | ⟨hz2, _⟩
    · exact ⟨w, hw, hid⟩
    · exact ⟨z, hz2, rfl⟩
  · rintro ⟨z, hz, rfl⟩
    by_cases hid : z.EventId = r.EventId
    · exact ⟨r, (Store.mem_updateRow s r r).2 (Or.inl ⟨rfl, z, hz, hid⟩), hid.symm⟩
    · exact ⟨z, (Store.mem_updateRow s r z).2 (Or.inr ⟨hz, hid⟩), rfl⟩

theorem Store.mem_foldl_updateRow (rows : List GenconEvent) :
    ∀ (s : Store) (x : GenconEvent), (rows.map GenconEvent.EventId).Nodup →
      (x ∈ rows.foldl Store.updateRow s ↔
        (x ∈ rows ∧ ∃ z ∈ s, z.EventId = x.EventId) ∨
          (x ∈ s ∧ x.EventId ∉ rows.map GenconEvent.EventId)) := by
  induction rows with
  | nil => intro s x _; simp
  | cons r rows ih =>
    intro s x hnd
    rw [List.map_cons, List.nodup_cons] at hnd
    rw [List.foldl_cons, ih _ _ hnd.2, Store.ids_updateRow, Store.mem_updateRow]
    simp only [List.mem_cons, List.map_cons, not_or]
    constructor
    · rintro (⟨h, hz⟩ | ⟨⟨rfl, hz⟩ | ⟨hx, hne⟩, hnot⟩)
      · exact Or.inl ⟨Or.inr h, hz⟩
      · exact Or.inl ⟨Or.inl rfl, hz⟩
      · exact Or.inr ⟨hx, hne, hnot⟩
    · rintro (⟨rfl | h, hz⟩ | ⟨hx, hne, hnot⟩)
      · exact Or.inr ⟨Or.inl ⟨rfl, hz⟩, hnd.1⟩
      · exact Or.inl ⟨h, hz⟩
      · exact Or.inr ⟨Or.inr ⟨hx, hne⟩, hnot⟩

theorem Store.mem_deactivate (s : Store) (ids : List String) (x : GenconEvent) :
    x ∈ s.deactivate ids ↔
      ∃ z ∈ s, x = if z.EventId ∈ ids then { z with Active := false } else z := by
  unfold Store.deactivate
  simp only [List.mem_map]
  constructor
  · rintro ⟨z, hz, rfl⟩; exact ⟨z, hz, rfl⟩
  · rintro ⟨z, hz, rfl⟩; exact ⟨z, hz, rfl⟩

theorem Store.deactivate_deactivate (s : Store) (ids1 ids2 : List String) :
    (s.deactivate ids1).deactivate ids2 = s.deactivate (ids1 ++ ids2) := by
  unfold Store.deactivate
  rw [List.map_map]
  apply List.map_congr_left
  intro x _
  by_cases h1 : x.EventId ∈ ids1 <;> by_cases h2 : x.EventId ∈ ids2 <;>
    simp [h1, h2, List.mem_append]

theorem Store.deactivate_nil (s : Store) : s.deactivate [] = s := by
  unfold Store.deactivate
  simp

theorem Store.updateRow_eq_self (s : Store) (r : GenconEvent)
    (h : ∀ x ∈ s, x.EventId = r.EventId → x = r) : s.updateRow r = s := by
  unfold Store.updateRow
  conv_rhs => rw [← List.map_id s]
  apply List.map_congr_left
  intro x hx
  by_cases hid : x.EventId = r.EventId
  · simp [hid, h x hx hid]
  · simp [hid]

theorem Store.foldl_updateRow_eq_self (rows : List GenconEvent) (s : Store)
    (h : ∀ r ∈ rows, ∀ x ∈ s, x.EventId = r.EventId → x = r) :
    rows.foldl Store.updateRow s = s := by
  induction rows with
  | nil => rfl
  | cons r rows ih =>
    rw [List.foldl_cons, Store.updateRow_eq_self s r (h r (List.mem_cons_self _ _))]
    exact ih (fun r1 hr1 => h r1 (List.mem_cons_of_mem _ hr1))

theorem runStmts_storeDb (ε : Type) (stmts : List Stmt) (s : Store) :
    runStmts (storeDb ε) s stmts = some (stmts.foldl Store.apply s, none) := by
  induction stmts generalizing s with
  | nil => rfl
  | cons st stmts ih =>
    simp only [runStmts, storeDb, List.foldl_cons]
    exact ih (s.apply st)

theorem Store.foldl_insert_batches (n fuel : Nat) (hn : 1 ≤ n) :
    ∀ (rows : List GenconEvent) (s : Store), rows.length ≤ fuel →
      ((batches n fuel rows).map Stmt.insert).foldl Store.apply s =
        rows.foldl Store.insertRow s := by
  induction fuel with
  | zero =>
    intro rows s hlen
    have hnil : rows = [] := List.length_eq_zero.1 (Nat.le_zero.1 hlen)
    subst hnil
    simp [batches]
  | succ fuel ih =>
    intro rows s hlen
    by_cases hpos : rows.length > 0
    · simp only [batches, if_pos hpos, List.map_cons, List.foldl_cons, Store.apply]
      rw [ih (rows.drop n) _ (by rw [List.length_drop]; omega), ← List.foldl_append,
        List.take_append_drop]
    · have hnil : rows = [] := List.length_eq_zero.1 (by omega)
      subst hnil
      simp [batches]

theorem Store.foldl_deactivate_batches (n fuel : Nat) (hn : 1 ≤ n) :
    ∀ (ids : List String) (s : Store), ids.length ≤ fuel →
      ((batches n fuel ids).map Stmt.deactivate).foldl Store.apply s = s.deactivate ids := by
  induction fuel with
  | zero =>
    intro ids s hlen
    have hnil : ids = [] := List.length_eq_zero.1 (Nat.le_zero.1 hlen)
    subst hnil
    simp [batches, Store.deactivate_nil]
  | succ fuel ih =>
    intro ids s hlen
    by_cases hpos : ids.length > 0
    · simp only [batches, if_pos hpos, List.map_cons, List.foldl_cons, Store.apply]
      rw [ih (ids.drop n) _ (by rw [List.length_drop]; omega), Store.deactivate_deactivate,
        List.take_append_drop]
    · have hnil : ids = [] := List.length_eq_zero.1 (by omega)
      subst hnil
      simp [batches, Store.deactivate_nil]

theorem runStmts_storeDb_plannedStmts (ε : Type) (c : Classification) (s : Store) :
    runStmts (storeDb ε) s (plannedStmts c) =
      some (((c.updatedEvents.foldl Store.updateRow
          (c.newEvents.foldl Store.insertRow s)).deactivate (deletedEvents c)), none) := by
  rw [runStmts_storeDb]
  unfold plannedStmts
  rw [List.foldl_append, List.foldl_append,
    Store.foldl_insert_batches 100 _ (by decide) _ _ (Nat.le_refl _),
    Store.foldl_deactivate_batches 100 _ (by decide) _ _ (Nat.le_refl _), List.foldl_map]
  rfl

theorem loadEventIdsLoop_ok (ε : Type) (rows : List IndexRow) :
    ∀ (a0 i0 : GoMap Int), ∃ a i : GoMap Int,
      loadEventIdsLoop (rows.map Except.ok) a0 i0 = (Except.ok (a, i) : Except ε _) ∧
        (∀ id : String, id ∈ a.keys ↔
          id ∈ a0.keys ∨ ∃ row ∈ rows, row.active = true ∧ row.id = id) ∧
        (∀ id : String, id ∈ i.keys ↔
          id ∈ i0.keys ∨ ∃ row ∈ rows, row.active = false ∧ row.id = id) := by
  induction rows with
  | nil => intro a0 i0; exact ⟨a0, i0, rfl, by simp, by simp⟩
  | cons row rows ih =>
    intro a0 i0
    by_cases hact : row.active = true
    · obtain ⟨a, i, heq, ha, hi⟩ := ih (a0.set row.id row.updateTime) i0
      refine ⟨a, i, ?_, ?_, ?_⟩
      · simp only [List.map_cons, loadEventIdsLoop, hact, if_true]
        exact heq
      · intro id
        rw [ha, GoMap.mem_keys_set]
        simp only [List.mem_cons, exists_eq_or_imp, hact, true_and]
        constructor
        · rintro ((h | h) | h)
          · exact Or.inr (Or.inl h.symm)
          · exact Or.inl h
          · exact Or.inr (Or.inr h)
        · rintro (h | h | h)
          · exact Or.inl (Or.inr h)
          · exact Or.inl (Or.inl h.symm)
          · exact Or.inr h
      · intro id
        rw [hi]
        simp [hact]
    · have hact2 : row.active = false := by simpa using hact
      obtain ⟨a, i, heq, ha, hi⟩ := ih a0 (i0.set row.id row.updateTime)
      refine ⟨a, i, ?_, ?_, ?_⟩
      · simp only [List.map_cons, loadEventIdsLoop, hact2]
        exact heq
      · intro id
        rw [ha]
        simp [hact2]
      · intro id
        rw [hi, GoMap.mem_keys_set]
        simp only [List.mem_cons, exists_eq_or_imp, hact2, true_and]
        constructor
        · rintro ((h | h) | h)
          · exact Or.inr (Or.inl h.symm)
          · exact Or.inl h
          · exact Or.inr (Or.inr h)
        · rintro (h | h | h)
          · exact Or.inl (Or.inr h)
          · exact Or.inl (Or.inl h.symm)
          · exact Or.inr h

theorem loadEventIds_storeDb (ε : Type) (s : Store) (year : Int) :
    ∃ a i : GoMap Int,
      loadEventIds (storeDb ε) s year = Except.ok (a, i) ∧
        (∀ id : String, id ∈ a.keys ↔
          ∃ r ∈ s, r.Year = year ∧ r.Active = true ∧ r.EventId = id) ∧
        (∀ id : String, id ∈ i.keys ↔
          ∃ r ∈ s, r.Year = year ∧ r.Active = false ∧ r.EventId = id) := by
  obtain ⟨a, i, heq, ha, hi⟩ := loadEventIdsLoop_ok ε (s.yearIndex year) [] []
  refine ⟨a, i, ?_, ?_, ?_⟩
  · simp only [loadEventIds, storeDb]
    exact heq
  · intro id
    rw [ha]
    simp only [Store.yearIndex, GoMap.keys, List.map_nil, List.not_mem_nil, false_or,
      List.mem_map, List.mem_filter, decide_eq_true_eq]
    constructor
    · rintro ⟨row, ⟨r, ⟨hr, hy⟩, rfl⟩, hact, hid⟩
      exact ⟨r, hr, hy, hact, hid⟩
    · rintro ⟨r, hr, hy, hact, hid⟩
      exact ⟨_, ⟨r, ⟨hr, hy⟩, rfl⟩, hact, hid⟩
  · intro id
    rw [hi]
    simp only [Store.yearIndex, GoMap.keys, List.map_nil, List.not_mem_nil, false_or,
      List.mem_map, List.mem_filter, decide_eq_true_eq]
    constructor
    · rintro ⟨row, ⟨r, ⟨hr, hy⟩, rfl⟩, hact, hid⟩
      exact ⟨r, hr, hy, hact, hid⟩
    · rintro ⟨r, hr, hy, hact, hid⟩
      exact ⟨_, ⟨r, ⟨hr, hy⟩, rfl⟩, hact, hid⟩

/-! ## Reconciliation: idempotence (C3) -/

theorem Store.deactivate_id (z : GenconEvent) (ids : List String) :
    (if z.EventId ∈ ids then { z with Active := false } else z).EventId = z.EventId := by
  by_cases h : z.EventId ∈ ids <;> simp [h]

theorem reconciled_store_facts (S : Store) (P : List GenconEvent) (y : Int)
    (K : String → Prop) [DecidablePred K] (del : List String)
    (hK : ∀ id : String, K id → ∃ r ∈ S, r.EventId = id)
    (hact : ∀ r ∈ S, r.Year = y → r.Active = true → r.EventId ∉ P.map GenconEvent.EventId →
      r.EventId ∈ del)
    (hdel : ∀ id ∈ del, id ∉ P.map GenconEvent.EventId)
    (hnd : (P.map GenconEvent.EventId).Nodup) :
    (∀ p ∈ P,
        p ∈ (((P.filter (fun p => decide (K p.EventId))).foldl Store.updateRow
          ((P.filter (fun p => decide (¬K p.EventId))).foldl Store.insertRow S)).deactivate
            del)) ∧
      (∀ r ∈ (((P.filter (fun p => decide (K p.EventId))).foldl Store.updateRow
          ((P.filter (fun p => decide (¬K p.EventId))).foldl Store.insertRow S)).deactivate
            del),
        r.EventId ∈ P.map GenconEvent.EventId → r ∈ P) ∧
      (∀ r ∈ (((P.filter (fun p => decide (K p.EventId))).foldl Store.updateRow
          ((P.filter (fun p => decide (¬K p.EventId))).foldl Store.insertRow S)).deactivate
            del),
        r.Year = y → r.Active = true → r.EventId ∈ P.map GenconEvent.EventId) := by
  have hndNew : ((P.filter (fun p => decide (¬K p.EventId))).map GenconEvent.EventId).Nodup :=
    hnd.sublist ((List.filter_sublist P).map _)
  have hndUpd : ((P.filter (fun p => decide (K p.EventId))).map GenconEvent.EventId).Nodup :=
    hnd.sublist ((List.filter_sublist P).map _)
  have hI := fun x => Store.mem_foldl_insertRow (P.filter (fun p => decide (¬K p.EventId))) S x
    hndNew
  have hU := fun x => Store.mem_foldl_updateRow (P.filter (fun p => decide (K p.EventId)))
    ((P.filter (fun p => decide (¬K p.EventId))).foldl Store.insertRow S) x hndUpd
  have hsplit : ∀ z : GenconEvent, z.EventId ∈ P.map GenconEvent.EventId →
      z.EventId ∈ (P.filter (fun p => decide (K p.EventId))).map GenconEvent.EventId ∨
        z.EventId ∈ (P.filter (fun p => decide (¬K p.EventId))).map GenconEvent.EventId := by
    intro z hz
    obtain ⟨q, hq, hqid⟩ := List.mem_map.1 hz
    by_cases hk : K q.EventId
    · exact Or.inl (List.mem_map.2 ⟨q, List.mem_filter.2 ⟨hq, by simpa using hk⟩, hqid⟩)
    · exact Or.inr (List.mem_map.2 ⟨q, List.mem_filter.2 ⟨hq, by simpa using hk⟩, hqid⟩)
  have hmemU : ∀ z, z ∈ (P.filter (fun p => decide (K p.EventId))).foldl Store.updateRow
      ((P.filter (fun p => decide (¬K p.EventId))).foldl Store.insertRow S) →
      z ∈ P ∨ (z ∈ S ∧ z.EventId ∉ P.map GenconEvent.EventId) := by
    intro z hz
    rcases (hU z).1 hz with ⟨hzu, _⟩ | ⟨hzI, hnotu⟩
    · exact Or.inl (List.mem_filter.1 hzu).1
    · rcases (hI z).1 hzI with hzn | ⟨hzS, hnotn⟩
      · exact Or.inl (List.mem_filter.1 hzn).1
      · refine Or.inr ⟨hzS, fun hin => ?_⟩
        rcases hsplit z hin with h | h
        · exact hnotu h
        · exact hnotn h
  refine ⟨?_, ?_, ?_⟩
  · intro p hp
    have hpdel : p.EventId ∉ del := fun h => hdel _ h (List.mem_map.2 ⟨p, hp, rfl⟩)
    rw [Store.mem_deactivate]
    refine ⟨p, ?_, by simp [hpdel]⟩
    rw [hU]
    by_cases hk : K p.EventId
    · left
      refine ⟨List.mem_filter.2 ⟨hp, by simpa using hk⟩, ?_⟩
      obtain ⟨r, hr, hrid⟩ := hK _ hk
      by_cases hrn : r.EventId ∈
          (P.filter (fun p => decide (¬K p.EventId))).map GenconEvent.EventId
      · obtain ⟨n, hn, hnid⟩ := List.mem_map.1 hrn
        exact ⟨n, (hI n).2 (Or.inl hn), by rw [hnid, hrid]⟩
      · exact ⟨r, (hI r).2 (Or.inr ⟨hr, hrn⟩), hrid⟩
    · right
      refine ⟨(hI p).2 (Or.inl (List.mem_filter.2 ⟨hp, by simpa using hk⟩)), fun hin => ?_⟩
      obtain ⟨u, hu, huid⟩ := List.mem_map.1 hin
      have hku : K u.EventId := by simpa using (List.mem_filter.1 hu).2
      rw [huid] at hku
      exact hk hku
  · intro r hr hrP
    obtain ⟨z, hz, rfl⟩ := (Store.mem_deactivate _ _ _).1 hr
    rw [Store.deactivate_id] at hrP
    have hzdel : z.EventId ∉ del := fun h => hdel _ h hrP
    rw [if_neg hzdel]
    rcases hmemU z hz with h | ⟨_, hnot⟩
    · exact h
    · exact absurd hrP hnot
  · intro r hr hyr hactive
    obtain ⟨z, hz, rfl⟩ := (Store.mem_deactivate _ _ _).1 hr
    rw [Store.deactivate_id]
    by_cases hzdel : z.EventId ∈ del
    · rw [if_pos hzdel] at hactive
      simp at hactive
    · rw [if_neg hzdel] at hactive hyr
      rcases hmemU z hz with h | ⟨hzS, hnot⟩
      · exact List.mem_map.2 ⟨z, h, rfl⟩
      · exact absurd (hact z hzS hyr hactive hnot) hzdel

/-- C3: on the store modelled as a map from id to row, for every store state
and every non-empty snapshot of distinct ids that all carry the year of the
first record, `BulkUpdateEvents` succeeds, a second application with the same
snapshot leaves the store of the first application unchanged, and the second
application classifies no record as inserted and no id as deactivated: its
statements are the updates of the snapshot rows only. -/
theorem BulkUpdateEvents_idempotent (ε : Type) (store : Store) (first : GenconEvent)
    (rest : List GenconEvent)
    (hyear : ∀ p ∈ first :: rest, p.Year = first.Year)
    (hids : ((first :: rest).map GenconEvent.EventId).Nodup) :
    ∃ (store1 : Store) (a i : GoMap Int),
      BulkUpdateEvents (storeDb ε) store (first :: rest) = some (store1, none) ∧
        BulkUpdateEvents (storeDb ε) store1 (first :: rest) = some (store1, none) ∧
        loadEventIds (storeDb ε) store1 first.Year = Except.ok (a, i) ∧
        (classifyEvents a i first (first :: rest)).newEvents = [] ∧
        deletedEvents (classifyEvents a i first (first :: rest)) = [] ∧
        plannedStmts (classifyEvents a i first (first :: rest)) =
          (first :: rest).map Stmt.update := by
  obtain ⟨a0, i0, hload0, ha0, hi0⟩ := loadEventIds_storeDb ε store first.Year
  generalize hP : first :: rest = P at hyear hids ⊢
  have hrun0 : BulkUpdateEvents (storeDb ε) store P =
      runStmts (storeDb ε) store (plannedStmts (classifyEvents a0 i0 first P)) := by
    rw [← hP]; exact BulkUpdateEvents_eq_runStmts _ _ _ _ _ _ hload0
  rw [runStmts_storeDb_plannedStmts, classifyEvents_updatedEvents, classifyEvents_newEvents]
    at hrun0
  have hdel0 := classifyEvents_deletedEvents a0 i0 first P
  obtain ⟨hF1, hF2, hF3⟩ := reconciled_store_facts store P first.Year
    (fun id => id ∈ a0.keys ∨ id ∈ i0.keys) (deletedEvents (classifyEvents a0 i0 first P))
    (by
      rintro id (h | h)
      · obtain ⟨r, hr, _, _, hid⟩ := (ha0 id).1 h
        exact ⟨r, hr, hid⟩
      · obtain ⟨r, hr, _, _, hid⟩ := (hi0 id).1 h
        exact ⟨r, hr, hid⟩)
    (by
      intro r hr hy hactive hnot
      rw [hdel0]
      refine ⟨(ha0 _).2 ⟨r, hr, hy, hactive, rfl⟩, fun p hp heq => ?_⟩
      exact hnot (List.mem_map.2 ⟨p, hp, heq⟩))
    (by
      intro id hid hin
      obtain ⟨p, hp, hpid⟩ := List.mem_map.1 hin
      exact ((hdel0 id).1 hid).2 p hp hpid)
    hids
  generalize hS1 : ((P.filter (fun p =>
      decide ((fun id => id ∈ a0.keys ∨ id ∈ i0.keys) p.EventId))).foldl Store.updateRow
        ((P.filter (fun p =>
          decide (¬(fun id => id ∈ a0.keys ∨ id ∈ i0.keys) p.EventId))).foldl
            Store.insertRow store)).deactivate
      (deletedEvents (classifyEvents a0 i0 first P)) = store1 at hF1 hF2 hF3
  have hrun0b : BulkUpdateEvents (storeDb ε) store P = some (store1, none) := by
    rw [hrun0, ← hS1]
  obtain ⟨a, i, hload1, ha1, hi1⟩ := loadEventIds_storeDb ε store1 first.Year
  have hnew : (classifyEvents a i first P).newEvents = [] := by
    rw [classifyEvents_newEvents, List.filter_eq_nil_iff]
    intro p hp
    simp only [decide_eq_true_eq, not_not]
    by_cases hactive : p.Active = true
    · exact Or.inl ((ha1 _).2 ⟨p, hF1 p hp, hyear p hp, hactive, rfl⟩)
    · exact Or.inr ((hi1 _).2 ⟨p, hF1 p hp, hyear p hp, by simpa using hactive, rfl⟩)
  have hupd : (classifyEvents a i first P).updatedEvents = P := by
    rw [classifyEvents_updatedEvents, List.filter_eq_self]
    intro p hp
    simp only [decide_eq_true_eq]
    by_cases hactive : p.Active = true
    · exact Or.inl ((ha1 _).2 ⟨p, hF1 p hp, hyear p hp, hactive, rfl⟩)
    · exact Or.inr ((hi1 _).2 ⟨p, hF1 p hp, hyear p hp, by simpa using hactive, rfl⟩)
  have hdel : deletedEvents (classifyEvents a i first P) = [] := by
    rw [List.eq_nil_iff_forall_not_mem]
    intro id hid
    obtain ⟨hin, hall⟩ := (classifyEvents_deletedEvents a i first P id).1 hid
    obtain ⟨r, hr, hy, hactive, hrid⟩ := (ha1 id).1 hin
    obtain ⟨p, hp, hpid⟩ := List.mem_map.1 (hF3 r hr hy hactive)
    exact hall p hp (hpid.trans hrid)
  have hplan : plannedStmts (classifyEvents a i first P) = P.map Stmt.update := by
    unfold plannedStmts
    rw [hnew, hupd, hdel]
    simp [batches]
  have hrun1 : BulkUpdateEvents (storeDb ε) store1 P = some (store1, none) := by
    have h1 : BulkUpdateEvents (storeDb ε) store1 P =
        runStmts (storeDb ε) store1 (plannedStmts (classifyEvents a i first P)) := by
      rw [← hP]; exact BulkUpdateEvents_eq_runStmts _ _ _ _ _ _ hload1
    rw [h1, hplan, runStmts_storeDb, List.foldl_map]
    have h2 : P.foldl (fun x y => Store.apply x (Stmt.update y)) store1 =
        P.foldl Store.updateRow store1 := rfl
    rw [h2, Store.foldl_updateRow_eq_self]
    intro r hr x hx hxid
    have hxP : x ∈ P := hF2 x hx (List.mem_map.2 ⟨r, hr, hxid.symm⟩)
    exact List.inj_on_of_nodup_map hids hxP hr hxid
  exact ⟨store1, a, i, hrun0b, hrun1, hload1, hnew, hdel, hplan⟩

/-- A concrete instance of C3: a store with an active row that the snapshot
drops, an inactive row that the snapshot brings back, and a new row. -/
theorem BulkUpdateEvents_idempotent_witness :
    (∀ p ∈ [sampleRow "A2" true, sampleRow "A3" true, sampleRow "A4" true],
        p.Year = (sampleRow "A2" true).Year) ∧
      ([sampleRow "A2" true, sampleRow "A3" true, sampleRow "A4" true].map
        GenconEvent.EventId).Nodup ∧
      ∃ (store1 : Store) (a i : GoMap Int),
        BulkUpdateEvents (storeDb Unit) [sampleRow "A1" true, sampleRow "A2" false]
            [sampleRow "A2" true, sampleRow "A3" true, sampleRow "A4" true] =
          some (store1, none) ∧
        BulkUpdateEvents (storeDb Unit) store1
            [sampleRow "A2" true, sampleRow "A3" true, sampleRow "A4" true] =
          some (store1, none) ∧
        loadEventIds (storeDb Unit) store1 (sampleRow "A2" true).Year = Except.ok (a, i) ∧
        (classifyEvents a i (sampleRow "A2" true)
          [sampleRow "A2" true, sampleRow "A3" true, sampleRow "A4" true]).newEvents = [] ∧
        deletedEvents (classifyEvents a i (sampleRow "A2" true)
          [sampleRow "A2" true, sampleRow "A3" true, sampleRow "A4" true]) = [] ∧
        plannedStmts (classifyEvents a i (sampleRow "A2" true)
          [sampleRow "A2" true, sampleRow "A3" true, sampleRow "A4" true]) =
          [sampleRow "A2" true, sampleRow "A3" true, sampleRow "A4" true].map Stmt.update :=
  ⟨by decide, by decide,
    BulkUpdateEvents_idempotent Unit [sampleRow "A1" true, sampleRow "A2" false]
      (sampleRow "A2" true) [sampleRow "A3" true, sampleRow "A4" true] (by decide) (by decide)⟩

/-! ## Reconciliation: failure (C4) -/

theorem BulkUpdateEvents_returns_error {σ ε : Type} (db : Database σ ε) (store : σ)
    (first : GenconEvent) (rest : List GenconEvent) :
    (∀ err : ε, loadEventIds db store first.Year = Except.error err →
        BulkUpdateEvents db store (first :: rest) = some (store, some err) ∧
          reconcile db store (first :: rest) = some (store, some err)) ∧
      (∀ (a i : GoMap Int) (sent : List Stmt) (stmt : Stmt) (unsent : List Stmt) (tx : σ)
          (err : ε),
        loadEventIds db store first.Year = Except.ok (a, i) →
        plannedStmts (classifyEvents a i first (first :: rest)) = sent ++ stmt :: unsent →
        runStmts db store sent = some (tx, none) →
        db.exec tx stmt = Except.error err →
        (db.isPGError err = true →
          BulkUpdateEvents db store (first :: rest) = some (tx, some err) ∧
            reconcile db store (first :: rest) = some (store, some err)) ∧
        (db.isPGError err = false →
          BulkUpdateEvents db store (first :: rest) = none)) := by
  constructor
  · intro err hload
    have h : BulkUpdateEvents db store (first :: rest) = some (store, some err) := by
      simp only [BulkUpdateEvents, hload]
    exact ⟨h, by simp only [reconcile, h]⟩
  · intro a i sent stmt unsent tx err hload hplan hsent hexec
    have hrun : BulkUpdateEvents db store (first :: rest) =
        if db.isPGError err = true then some (tx, some err) else none := by
      rw [BulkUpdateEvents_eq_runStmts db store first rest a i hload, hplan, runStmts_append,
        hsent]
      simp only [runStmts, hexec]
    constructor
    · intro hpg
      rw [if_pos hpg] at hrun
      exact ⟨hrun, by simp only [reconcile, hrun]⟩
    · intro hpg
      rw [hpg] at hrun
      simpa using hrun

/-- C4, the failing input: the insert of A3 and the update of A2 succeed and
the deactivation of A1 fails with an error that is no `pq.PGError`; the type
assertion of the logging line of `bulkDelete` panics and `BulkUpdateEvents`
does not return the error.  With a `pq.PGError` the error is returned, the
state of the transaction holds the insert and the update, and the rolled-back
store holds the two rows it started with. -/
theorem BulkUpdateEvents_non_pg_error :
    BulkUpdateEvents (failingDeactivateDb false) [sampleRow "A1" true, sampleRow "A2" true]
        [{ sampleRow "A2" true with Title := "changed" }, sampleRow "A3" true] = none ∧
      BulkUpdateEvents (failingDeactivateDb true) [sampleRow "A1" true, sampleRow "A2" true]
          [{ sampleRow "A2" true with Title := "changed" }, sampleRow "A3" true] =
        some ([sampleRow "A1" true, { sampleRow "A2" true with Title := "changed" },
          sampleRow "A3" true], some "deactivate failed") ∧
      reconcile (failingDeactivateDb true) [sampleRow "A1" true, sampleRow "A2" true]
          [{ sampleRow "A2" true with Title := "changed" }, sampleRow "A3" true] =
        some ([sampleRow "A1" true, sampleRow "A2" true], some "deactivate failed") := by
  decide

/-! ## Lemmas on the run-time library -/

theorem isDigit_iff_toNat (c : Char) : c.isDigit = true ↔ 48 ≤ c.toNat ∧ c.toNat ≤ 57 := by
  unfold Char.isDigit Char.toNat
  simp only [ge_iff_le, Bool.and_eq_true, decide_eq_true_eq, UInt32.le_def]
  exact Iff.rfl

theorem toNat_lt_of_char (c : Char) : c.toNat < 1114112 := by
  have h := c.valid
  unfold Char.toNat
  rcases h with h | ⟨_, h⟩
  · exact Nat.lt_trans h (by decide)
  · exact h

theorem utf8EncodeRune_ascii (c : Char) (h : c.toNat < 128) : utf8EncodeRune c = [c.toNat] := by
  unfold utf8EncodeRune
  simp only []
  rw [if_pos h]

theorem utf8EncodeRune_nonascii (c : Char) (h : 128 ≤ c.toNat) :
    ∃ (x y : Nat) (rest : List Nat),
      utf8EncodeRune c = x :: y :: rest ∧ 192 ≤ x ∧ x < 256 ∧ 128 ≤ y ∧ y < 192 := by
  have hlt := toNat_lt_of_char c
  unfold utf8EncodeRune
  simp only []
  rw [if_neg (by omega)]
  by_cases h1 : c.toNat < 2048
  · rw [if_pos h1]
    exact ⟨_, _, _, rfl, by omega, by omega, by omega, by omega⟩
  · rw [if_neg h1]
    by_cases h2 : c.toNat < 65536
    · rw [if_pos h2]
      exact ⟨_, _, _, rfl, by omega, by omega, by omega, by omega⟩
    · rw [if_neg h2]
      exact ⟨_, _, _, rfl, by omega, by omega, by omega, by omega⟩

theorem goBytes_take_ascii_ascii (a b : Char) (rest : List Char) (ha : a.toNat < 128)
    (hb : b.toNat < 128) : (goBytes (a :: b :: rest)).take 2 = [a.toNat, b.toNat] := by
  simp [goBytes, utf8EncodeRune_ascii a ha, utf8EncodeRune_ascii b hb]

theorem goBytes_take_ascii_nonascii (a b : Char) (rest : List Char) (ha : a.toNat < 128)
    (hb : 128 ≤ b.toNat) :
    ∃ y : Nat, (goBytes (a :: b :: rest)).take 2 = [a.toNat, y] ∧ 192 ≤ y ∧ y < 256 := by
  obtain ⟨x, y, more, heq, h1, h2, _, _⟩ := utf8EncodeRune_nonascii b hb
  exact ⟨x, by simp [goBytes, utf8EncodeRune_ascii a ha, heq], h1, h2⟩

theorem goBytes_take_nonascii (a : Char) (rest : List Char) (ha : 128 ≤ a.toNat) :
    ∃ x y : Nat, (goBytes (a :: rest)).take 2 = [x, y] ∧ 192 ≤ x ∧ x < 256 ∧
      128 ≤ y ∧ y < 192 := by
  obtain ⟨x, y, more, heq, h1, h2, h3, h4⟩ := utf8EncodeRune_nonascii a ha
  exact ⟨x, y, by simp [goBytes, heq], h1, h2, h3, h4⟩

theorem dropWhile_append_of_all {α : Type} (f : α → Bool) (c l : List α)
    (h : ∀ ch ∈ c, f ch = true) : (c ++ l).dropWhile f = l.dropWhile f := by
  induction c with
  | nil => rfl
  | cons x c ih =>
    rw [List.cons_append, List.dropWhile_cons, if_pos (h x (List.mem_cons_self _ _))]
    exact ih (fun ch hch => h ch (List.mem_cons_of_mem _ hch))

theorem dropWhile_eq_self_of_none {α : Type} (f : α → Bool) (l : List α)
    (h : ∀ ch ∈ l, f ch = false) : l.dropWhile f = l := by
  cases l with
  | nil => rfl
  | cons x l =>
    rw [List.dropWhile_cons, h x (List.mem_cons_self _ _)]
    simp

theorem TrimLeftFunc_letters (f : Char → Bool) (c : List Char) (a : Char) (rest : List Char)
    (hc : ∀ ch ∈ c, f ch = true) (ha : f a = false) :
    TrimLeftFunc (c ++ a :: rest) f = a :: rest := by
  unfold TrimLeftFunc
  rw [dropWhile_append_of_all f c _ hc, List.dropWhile_cons, ha]
  simp

theorem TrimRightFunc_digits (g : Char → Bool) (c d : List Char)
    (hc : ∀ ch ∈ c, g ch = false) (hd : ∀ ch ∈ d, g ch = true) :
    TrimRightFunc (c ++ d) g = c := by
  unfold TrimRightFunc
  rw [List.reverse_append,
    dropWhile_append_of_all g d.reverse _ (fun ch hch => hd ch (List.mem_reverse.1 hch)),
    dropWhile_eq_self_of_none g c.reverse (fun ch hch => hc ch (List.mem_reverse.1 hch)),
    List.reverse_reverse]

theorem atoiDigits_digit (x n : Nat) (rest : List Nat) (hx : 48 ≤ x ∧ x ≤ 57) :
    atoiDigits (x :: rest) n = atoiDigits rest (n * 10 + (x - 48)) := by
  have h1 : (x + 256 - 48) % 256 = x - 48 := by omega
  have h2 : ¬(x - 48 > 9) := by omega
  simp only [atoiDigits, h1, if_neg h2]

theorem atoiDigits_nondigit (x n : Nat) (rest : List Nat) (hlt : x < 256)
    (hx : ¬(48 ≤ x ∧ x ≤ 57)) : atoiDigits (x :: rest) n = none := by
  have h1 : (x + 256 - 48) % 256 > 9 := by omega
  simp only [atoiDigits, if_pos h1]

theorem two_pow_63 : (2 : Int) ^ 63 = 9223372036854775808 := by norm_num

theorem Atoi_two_digits (x y : Nat) (hx : 48 ≤ x ∧ x ≤ 57) (hy : 48 ≤ y ∧ y ≤ 57) :
    Atoi [x, y] = some ((10 * (x - 48) + (y - 48) : Nat) : Int) := by
  have h1 : ¬(x = 45 ∨ x = 43) := by omega
  have h2 : x ≠ 45 := by omega
  have hd : atoiDigits [x, y] 0 = some (10 * (x - 48) + (y - 48)) := by
    rw [atoiDigits_digit _ _ _ hx, atoiDigits_digit _ _ _ hy]
    simp only [atoiDigits]
    congr 1
    omega
  have h3 : (-(2 : Int) ^ 63 ≤ ((10 * (x - 48) + (y - 48) : Nat) : Int)) ∧
      ((10 * (x - 48) + (y - 48) : Nat) : Int) < (2 : Int) ^ 63 := by
    rw [two_pow_63]
    constructor <;> omega
  simp only [Atoi, if_neg h1, hd, if_neg h2, if_pos h3, reduceCtorEq, if_false]

theorem Atoi_sign_digit (x y : Nat) (hx : x = 43 ∨ x = 45) (hy : 48 ≤ y ∧ y ≤ 57) :
    ∃ v : Int, Atoi [x, y] = some v ∧ v ≤ 9 := by
  have h1 : x = 45 ∨ x = 43 := by omega
  have hne : ([y] : List Nat) ≠ [] := by simp
  by_cases h45 : x = 45
  · refine ⟨-((0 * 10 + (y - 48) : Nat) : Int), ?_, by omega⟩
    have h3 : (-(2 : Int) ^ 63 ≤ -((0 * 10 + (y - 48) : Nat) : Int)) ∧
        (-((0 * 10 + (y - 48) : Nat) : Int)) < (2 : Int) ^ 63 := by
      rw [two_pow_63]
      constructor <;> omega
    simp only [Atoi, if_pos h1, if_neg hne, atoiDigits_digit _ _ _ hy, atoiDigits, if_pos h45,
      if_pos h3]
  · refine ⟨((0 * 10 + (y - 48) : Nat) : Int), ?_, by omega⟩
    have h3 : (-(2 : Int) ^ 63 ≤ ((0 * 10 + (y - 48) : Nat) : Int)) ∧
        (((0 * 10 + (y - 48) : Nat) : Int)) < (2 : Int) ^ 63 := by
      rw [two_pow_63]
      constructor <;> omega
    simp only [Atoi, if_pos h1, if_neg hne, atoiDigits_digit _ _ _ hy, atoiDigits, if_neg h45,
      if_pos h3]

theorem Atoi_not_number (x y : Nat) (hx : x < 256) (hy : y < 256)
    (h1 : ¬((48 ≤ x ∧ x ≤ 57) ∧ (48 ≤ y ∧ y ≤ 57)))
    (h2 : ¬((x = 43 ∨ x = 45) ∧ (48 ≤ y ∧ y ≤ 57))) : Atoi [x, y] = none := by
  by_cases hs : x = 45 ∨ x = 43
  · have hyd : ¬(48 ≤ y ∧ y ≤ 57) := fun h => h2 ⟨by omega, h⟩
    simp only [Atoi, if_pos hs, atoiDigits_nondigit _ _ _ hy hyd, reduceCtorEq, if_false]
  · by_cases hxd : 48 ≤ x ∧ x ≤ 57
    · have hyd : ¬(48 ≤ y ∧ y ≤ 57) := fun h => h1 ⟨hxd, h⟩
      simp only [Atoi, if_neg hs, atoiDigits_digit _ _ _ hxd, atoiDigits_nondigit _ _ _ hy hyd,
        reduceCtorEq, if_false]
    · simp only [Atoi, if_neg hs, atoiDigits_nondigit _ _ _ hx hxd, reduceCtorEq, if_false]

theorem splitId_of_bytes (T : RuneTables) (rawEventId : String) (x y : Nat)
    (h : (goBytes (TrimLeftFunc rawEventId.data T.IsLetter)).take 2 = [x, y]) :
    splitId T rawEventId =
      match Atoi [x, y] with
      | none => Except.error SplitIdFailure.unableToParseYear
      | some twoDigitYear =>
        if 15 > twoDigitYear ∨ 19 < twoDigitYear then
          Except.error SplitIdFailure.unsupportedYear
        else Except.ok (String.mk (TrimRightFunc rawEventId.data T.IsDigit), 2000 + twoDigitYear) := by
  have hlen : ¬((goBytes (TrimLeftFunc rawEventId.data T.IsLetter)).length < 2) := by
    intro hlt
    have h2 := congrArg List.length h
    rw [List.length_take] at h2
    simp only [List.length_cons, List.length_nil] at h2
    omega
  simp only [splitId, if_neg hlen, h]

theorem splitId_letters_digits (T : RuneTables) (hT : T.Sound) (c : List Char) (a b : Char)
    (rest : List Char) (hc : ∀ ch ∈ c, T.IsLetter ch = true) (ha : a.isDigit = true)
    (hb : b.isDigit = true) (hrest : ∀ ch ∈ rest, ch.isDigit = true) :
    splitId T (String.mk (c ++ a :: b :: rest)) =
      if 15 > ((10 * (a.toNat - 48) + (b.toNat - 48) : Nat) : Int) ∨
          19 < ((10 * (a.toNat - 48) + (b.toNat - 48) : Nat) : Int) then
        Except.error SplitIdFailure.unsupportedYear
      else
        Except.ok (String.mk c, 2000 + ((10 * (a.toNat - 48) + (b.toNat - 48) : Nat) : Int)) := by
  have han := (isDigit_iff_toNat a).1 ha
  have hbn := (isDigit_iff_toNat b).1 hb
  have htail : TrimLeftFunc (String.mk (c ++ a :: b :: rest)).data T.IsLetter = a :: b :: rest :=
    TrimLeftFunc_letters _ c a _ hc (hT.digit_not_letter a ha)
  have hcat : TrimRightFunc (String.mk (c ++ a :: b :: rest)).data T.IsDigit = c := by
    apply TrimRightFunc_digits
    · intro ch hch
      exact hT.letter_not_digit ch (hc ch hch)
    · intro ch hch
      rcases List.mem_cons.1 hch with rfl | hch
      · exact hT.digit_isDigit _ ha
      · rcases List.mem_cons.1 hch with rfl | hch
        · exact hT.digit_isDigit _ hb
        · exact hT.digit_isDigit _ (hrest ch hch)
  have hbytes : (goBytes (TrimLeftFunc (String.mk (c ++ a :: b :: rest)).data T.IsLetter)).take 2 =
      [a.toNat, b.toNat] := by
    rw [htail]
    exact goBytes_take_ascii_ascii a b rest (by omega) (by omega)
  rw [splitId_of_bytes T _ _ _ hbytes, Atoi_two_digits _ _ han hbn, hcat]

theorem asciiTables_sound : asciiTables.Sound := by
  refine ⟨fun ch h => h, ?_, ?_⟩
  · intro ch h
    have hd := (isDigit_iff_toNat ch).1 h
    simp only [asciiTables, Char.isAlpha, Char.isUpper, Char.isLower, Bool.or_eq_false_iff,
      Bool.and_eq_false_imp, decide_eq_true_eq, decide_eq_false_iff_not, ge_iff_le,
      UInt32.le_def]
    unfold Char.toNat at hd
    constructor
    · intro h1 h2
      have h1n : 65 ≤ ch.val.toNat := h1
      have h2n : ch.val.toNat ≤ 90 := h2
      omega
    · intro h1 h2
      have h1n : 97 ≤ ch.val.toNat := h1
      omega
  · intro ch h
    cases hd : ch.isDigit with
    | false => exact hd
    | true =>
      exfalso
      have hdn := (isDigit_iff_toNat ch).1 hd
      unfold Char.toNat at hdn
      simp only [asciiTables, Char.isAlpha, Char.isUpper, Char.isLower, Bool.or_eq_true,
        Bool.and_eq_true, decide_eq_true_eq, ge_iff_le, UInt32.le_def] at h
      rcases h with ⟨h1, h2⟩ | ⟨h1, h2⟩
      · have h1n : 65 ≤ ch.val.toNat := h1
        omega
      · have h1n : 97 ≤ ch.val.toNat := h1
        omega

theorem char_eq_of_toNat (a b : Char) (h : a.toNat = b.toNat) : a = b :=
  Char.ext (UInt32.ext h)

theorem toNat_ofNat_digit (n : Nat) (hn : n ≤ 9) : (Char.ofNat (48 + n)).toNat = 48 + n := by
  interval_cases n <;> rfl

/-! ## Event identity (C5, C6, C7) -/

/-- C5: for every category made only of letters, every two-digit year from 15
to 19 and every string of decimal digits, `splitId` applied to the code built
from them returns the category and 2000 plus the year, and so do
`CategoryFromEvent` and `YearFromEvent`. -/
theorem splitId_left_inverse (T : RuneTables) (hT : T.Sound) (c d : String) (yy : Nat)
    (hc : ∀ ch ∈ c.data, T.IsLetter ch = true) (hyy : 15 ≤ yy ∧ yy ≤ 19)
    (hd : ∀ ch ∈ d.data, ch.isDigit = true) :
    splitId T (mkEventCode c yy d) = Except.ok (c, 2000 + (yy : Int)) ∧
      CategoryFromEvent T (mkEventCode c yy d) = Except.ok c ∧
      YearFromEvent T (mkEventCode c yy d) = Except.ok (2000 + (yy : Int)) := by
  have ha := toNat_ofNat_digit (yy / 10) (by omega)
  have hb := toNat_ofNat_digit (yy % 10) (by omega)
  have hda : (Char.ofNat (48 + yy / 10)).isDigit = true := by
    rw [isDigit_iff_toNat, ha]; omega
  have hdb : (Char.ofNat (48 + yy % 10)).isDigit = true := by
    rw [isDigit_iff_toNat, hb]; omega
  have hval : 10 * ((Char.ofNat (48 + yy / 10)).toNat - 48) +
      ((Char.ofNat (48 + yy % 10)).toNat - 48) = yy := by
    rw [ha, hb]; omega
  have hcode : mkEventCode c yy d =
      String.mk (c.data ++ Char.ofNat (48 + yy / 10) :: Char.ofNat (48 + yy % 10) :: d.data) := by
    simp [mkEventCode]
  have hsplit : splitId T (mkEventCode c yy d) = Except.ok (c, 2000 + (yy : Int)) := by
    rw [hcode, splitId_letters_digits T hT c.data _ _ d.data hc hda hdb hd, hval]
    have hrange : ¬(15 > (yy : Int) ∨ 19 < (yy : Int)) := by omega
    rw [if_neg hrange]
  refine ⟨hsplit, ?_, ?_⟩
  · simp only [CategoryFromEvent, hsplit]; rfl
  · simp only [YearFromEvent, hsplit]; rfl

/-- A concrete instance of C5: the category RPG, the year 19 and the tail
123456. -/
theorem splitId_left_inverse_witness :
    mkEventCode "RPG" 19 "123456" = "RPG19123456" ∧
      splitId asciiTables (mkEventCode "RPG" 19 "123456") = Except.ok ("RPG", 2000 + (19 : Int)) ∧
      CategoryFromEvent asciiTables (mkEventCode "RPG" 19 "123456") = Except.ok "RPG" ∧
      YearFromEvent asciiTables (mkEventCode "RPG" 19 "123456") = Except.ok (2000 + (19 : Int)) :=
  ⟨by decide,
    splitId_left_inverse asciiTables asciiTables_sound "RPG" "123456" 19 (by decide) (by decide)
      (by decide)⟩

/-- C6: for every event code made of letters followed by at least two decimal
digits, with `yy` the value of the first two digits, `splitId` fails with the
unsupported-year error when `yy < 15` or `yy > 19` and returns the category
and `2000 + yy` when `15 ≤ yy ≤ 19`. -/
theorem splitId_year_range (T : RuneTables) (hT : T.Sound) (c : List Char) (a b : Char)
    (rest : List Char) (hc : ∀ ch ∈ c, T.IsLetter ch = true) (ha : a.isDigit = true)
    (hb : b.isDigit = true) (hrest : ∀ ch ∈ rest, ch.isDigit = true) :
    ((10 * (a.toNat - 48) + (b.toNat - 48) < 15 ∨ 19 < 10 * (a.toNat - 48) + (b.toNat - 48)) →
        splitId T (String.mk (c ++ a :: b :: rest)) =
          Except.error SplitIdFailure.unsupportedYear) ∧
      ((15 ≤ 10 * (a.toNat - 48) + (b.toNat - 48) ∧ 10 * (a.toNat - 48) + (b.toNat - 48) ≤ 19) →
        splitId T (String.mk (c ++ a :: b :: rest)) =
          Except.ok (String.mk c, 2000 + ((10 * (a.toNat - 48) + (b.toNat - 48) : Nat) : Int))) := by
  rw [splitId_letters_digits T hT c a b rest hc ha hb hrest]
  constructor
  · intro h
    rw [if_pos (by omega)]
  · intro h
    rw [if_neg (by omega)]

/-- The boundary years of C6: 14 and 20 are refused, 15 and 19 are accepted. -/
theorem splitId_year_range_witness :
    splitId asciiTables "RPG14123" = Except.error SplitIdFailure.unsupportedYear ∧
      splitId asciiTables "RPG20123" = Except.error SplitIdFailure.unsupportedYear ∧
      splitId asciiTables "RPG15123" = Except.ok ("RPG", 2015) ∧
      splitId asciiTables "RPG19123" = Except.ok ("RPG", 2019) :=
  ⟨(splitId_year_range asciiTables asciiTables_sound "RPG".data '1' '4' "123".data (by decide)
      (by decide) (by decide) (by decide)).1 (by decide),
    (splitId_year_range asciiTables asciiTables_sound "RPG".data '2' '0' "123".data (by decide)
      (by decide) (by decide) (by decide)).1 (by decide),
    (splitId_year_range asciiTables asciiTables_sound "RPG".data '1' '5' "123".data (by decide)
      (by decide) (by decide) (by decide)).2 (by decide),
    (splitId_year_range asciiTables asciiTables_sound "RPG".data '1' '9' "123".data (by decide)
      (by decide) (by decide) (by decide)).2 (by decide)⟩

/-- C7, as stated, fails: the tail of the code RPG+5123 starts with a sign and
a digit, which are not both decimal digits, and `splitId` stops with the
unsupported-year error, not with the unable-to-parse error. -/
theorem splitId_sign_counterexample :
    TrimLeftFunc "RPG+5123".data asciiTables.IsLetter = '+' :: '5' :: "123".data ∧
      ¬(('+' : Char).isDigit = true ∧ ('5' : Char).isDigit = true) ∧
      splitId asciiTables "RPG+5123" = Except.error SplitIdFailure.unsupportedYear ∧
      splitId asciiTables "RPG+5123" ≠ Except.error SplitIdFailure.unableToParseYear := by
  decide

/-- C7, amended: for every event code whose tail after the leading letters has
at least two characters that are not both decimal digits, `splitId` returns no
result; it stops with the unsupported-year error when the first character is a
sign `+` or `-` and the second a decimal digit, and with the unable-to-parse
error otherwise. -/
theorem splitId_malformed_tail (T : RuneTables) (rawEventId : String) (a b : Char)
    (rest : List Char)
    (htail : TrimLeftFunc rawEventId.data T.IsLetter = a :: b :: rest)
    (hnot : ¬(a.isDigit = true ∧ b.isDigit = true)) :
    (((a = '+' ∨ a = '-') ∧ b.isDigit = true) →
        splitId T rawEventId = Except.error SplitIdFailure.unsupportedYear) ∧
      (¬((a = '+' ∨ a = '-') ∧ b.isDigit = true) →
        splitId T rawEventId = Except.error SplitIdFailure.unableToParseYear) := by
  have hplus : ('+' : Char).toNat = 43 := rfl
  have hminus : ('-' : Char).toNat = 45 := rfl
  by_cases ha : a.toNat < 128
  · by_cases hb : b.toNat < 128
    · have hbytes := goBytes_take_ascii_ascii a b rest ha hb
      rw [← htail] at hbytes
      rw [splitId_of_bytes T _ _ _ hbytes]
      constructor
      · rintro ⟨hsign, hbd⟩
        have hsn : a.toNat = 43 ∨ a.toNat = 45 := by
          rcases hsign with rfl | rfl
          · exact Or.inl rfl
          · exact Or.inr rfl
        obtain ⟨v, hv, hle⟩ := Atoi_sign_digit _ _ hsn ((isDigit_iff_toNat b).1 hbd)
        rw [hv]
        simp only []
        rw [if_pos (by omega)]
      · intro hns
        rw [Atoi_not_number _ _ (by omega) (by omega)
          (fun h => hnot ⟨(isDigit_iff_toNat a).2 h.1, (isDigit_iff_toNat b).2 h.2⟩)
          (fun h => hns ⟨by
            rcases h.1 with h43 | h45
            · exact Or.inl (char_eq_of_toNat _ _ (h43.trans hplus.symm))
            · exact Or.inr (char_eq_of_toNat _ _ (h45.trans hminus.symm)),
            (isDigit_iff_toNat b).2 h.2⟩)]
    · obtain ⟨y, hbytes, hy1, hy2⟩ := goBytes_take_ascii_nonascii a b rest ha (by omega)
      rw [← htail] at hbytes
      rw [splitId_of_bytes T _ _ _ hbytes]
      constructor
      · rintro ⟨_, hbd⟩
        have := (isDigit_iff_toNat b).1 hbd
        omega
      · intro _
        rw [Atoi_not_number _ _ (by omega) hy2 (by omega) (by omega)]
  · obtain ⟨x, y, hbytes, hx1, hx2, hy1, hy2⟩ := goBytes_take_nonascii a (b :: rest) (by omega)
    rw [← htail] at hbytes
    rw [splitId_of_bytes T _ _ _ hbytes]
    constructor
    · rintro ⟨hsign, _⟩
      rcases hsign with rfl | rfl
      · rw [hplus] at ha; omega
      · rw [hminus] at ha; omega
    · intro _
      rw [Atoi_not_number _ _ hx2 (by omega) (by omega) (by omega)]

/-- Two concrete instances of the amended C7: a sign followed by a digit, and
a tail that starts with a letter-free, digit-free character. -/
theorem splitId_malformed_tail_witness :
    splitId asciiTables "RPG-5123" = Except.error SplitIdFailure.unsupportedYear ∧
      splitId asciiTables "RPG#5123" = Except.error SplitIdFailure.unableToParseYear :=
  ⟨(splitId_malformed_tail asciiTables "RPG-5123" '-' '5' "123".data (by decide)
      (by decide)).1 (by decide),
    (splitId_malformed_tail asciiTables "RPG#5123" '#' '5' "123".data (by decide)
      (by decide)).2 (by decide)⟩

/-! ## Calendar merge (C8, C9, C10) -/

theorem latestEnd_snoc (e : GenconEvent) (es : List GenconEvent) (x : GenconEvent) :
    latestEnd e (es ++ [x]) = max (latestEnd e es) x.EndTime := by
  simp [latestEnd, List.foldl_append]

theorem Merged_nil (e : GenconEvent) : Merged e [] := by
  intro n x h
  simp at h

theorem Merged_snoc (e : GenconEvent) (es : List GenconEvent) (x : GenconEvent)
    (h : Merged e es) (hx : x.StartTime ≤ latestEnd e es) : Merged e (es ++ [x]) := by
  intro n y hy
  by_cases hn : n < es.length
  · rw [List.getElem?_append_left hn] at hy
    rw [List.take_append_of_le_length (Nat.le_of_lt hn)]
    exact h n y hy
  · have hle : es.length ≤ n := Nat.le_of_not_lt hn
    rw [List.getElem?_append_right hle] at hy
    have hn2 : n - es.length = 0 := by
      by_contra hne
      have hlt : 1 ≤ n - es.length := Nat.one_le_iff_ne_zero.2 hne
      rw [List.getElem?_eq_none (by simpa using hlt)] at hy
      cases hy
    rw [hn2] at hy
    have hxy : x = y := by simpa using hy
    have hnl : n = es.length := by omega
    rw [← hxy, hnl, List.take_left]
    exact hx

theorem newClusterForEvent_some (T : RuneTables) (PlannerLink : GenconEvent → String)
    (event : GenconEvent) (h : GenconLink T event ≠ none) :
    ∃ cluster, newClusterForEvent T PlannerLink event = some cluster ∧
      cluster.StartTime = event.StartTime ∧ cluster.EndTime = event.EndTime ∧
      cluster.SimilarCount = 1 := by
  unfold newClusterForEvent
  cases hl : GenconLink T event with
  | none => exact absurd hl h
  | some url => exact ⟨_, rfl, rfl, rfl, rfl⟩

theorem mergeLoop_runs (T : RuneTables) (PlannerLink : GenconEvent → String)
    (rest : List GenconEvent) :
    ∀ (e : GenconEvent) (es : List GenconEvent) (cluster : CalendarEventCluster)
      (grouped : List CalendarEventCluster),
      cluster.StartTime = e.StartTime → cluster.EndTime = latestEnd e es → Merged e es →
      (∀ x ∈ rest, GenconLink T x ≠ none) →
      ∃ (more : List GenconEvent) (tailRuns : List (List GenconEvent))
        (clusters : List CalendarEventCluster) (last : CalendarEventCluster),
        mergeLoop T PlannerLink rest cluster grouped = some (last, grouped ++ clusters) ∧
          rest = more ++ tailRuns.flatten ∧
          List.Forall₂ IsClusterOf ((e :: (es ++ more)) :: tailRuns) (clusters ++ [last]) ∧
          List.Chain' Separated ((e :: (es ++ more)) :: tailRuns) := by
  induction rest with
  | nil =>
    intro e es cluster grouped hs he hm _
    refine ⟨[], [], [], cluster, by simp [mergeLoop], by simp, ?_, by simp⟩
    simp only [List.append_nil, List.nil_append, List.forall₂_cons, List.forall₂_nil_left_iff,
      and_true]
    exact ⟨e, es, rfl, hs, he, hm⟩
  | cons x rest ih =>
    intro e es cluster grouped hs he hm hlinks
    have hlinksRest : ∀ y ∈ rest, GenconLink T y ≠ none :=
      fun y hy => hlinks y (List.mem_cons_of_mem _ hy)
    by_cases hgap : x.StartTime > cluster.EndTime
    · obtain ⟨fresh, hfresh, hfs, hfe, _⟩ :=
        newClusterForEvent_some T PlannerLink x (hlinks x (List.mem_cons_self _ _))
      obtain ⟨more, tailRuns, clusters, last, hloop, hrest, hall, hchain⟩ :=
        ih x [] fresh (grouped ++ [cluster]) hfs (by simpa [latestEnd] using hfe) (Merged_nil x)
          hlinksRest
      refine ⟨[], (x :: more) :: tailRuns, cluster :: clusters, last, ?_, ?_, ?_, ?_⟩
      · simp only [mergeLoop, if_pos hgap, hfresh, hloop, List.append_assoc,
          List.singleton_append]
      · simp only [List.nil_append, List.flatten_cons, List.cons_append]
        rw [hrest]
      · simp only [List.append_nil, List.cons_append]
        refine List.Forall₂.cons ⟨e, es, rfl, hs, he, hm⟩ ?_
        simpa using hall
      · simp only [List.append_nil]
        refine List.Chain'.cons ⟨e, es, x, more, rfl, rfl, ?_⟩ (by simpa using hchain)
        rw [← he]
        exact hgap
    · have hstart : x.StartTime ≤ latestEnd e es := by rw [← he]; omega
      by_cases hext : x.EndTime > cluster.EndTime
      · obtain ⟨more, tailRuns, clusters, last, hloop, hrest, hall, hchain⟩ :=
          ih e (es ++ [x])
            { cluster with EndTime := x.EndTime, SimilarCount := cluster.SimilarCount + 1 }
            grouped hs
            (by
              rw [latestEnd_snoc, ← he]
              exact (max_eq_right (le_of_lt hext)).symm)
            (Merged_snoc e es x hm hstart) hlinksRest
        refine ⟨x :: more, tailRuns, clusters, last, ?_, ?_, ?_, ?_⟩
        · simp only [mergeLoop, if_neg hgap, if_pos hext, hloop]
        · rw [hrest]; rfl
        · simpa [List.append_assoc] using hall
        · simpa [List.append_assoc] using hchain
      · obtain ⟨more, tailRuns, clusters, last, hloop, hrest, hall, hchain⟩ :=
          ih e (es ++ [x]) cluster grouped hs
            (by
              rw [latestEnd_snoc, ← he]
              exact (max_eq_left (by omega)).symm)
            (Merged_snoc e es x hm hstart) hlinksRest
        refine ⟨x :: more, tailRuns, clusters, last, ?_, ?_, ?_, ?_⟩
        · simp only [mergeLoop, if_neg hgap, if_neg hext, hloop]
        · rw [hrest]; rfl
        · simpa [List.append_assoc] using hall
        · simpa [List.append_assoc] using hchain

/-- C8: for every non-empty list of one day's records whose links can be
built, the merge loop splits the list into consecutive runs and emits one
cluster for each run, in order: the first run opens at the first record, a
run opens exactly at a record that starts strictly after the latest end time
of the run before it, every other record (also one starting exactly at that
end time) is merged into the open run, and each cluster starts with the first
record of its run and ends at the latest end time of its run. -/
theorem clusterDayGroup_merges (T : RuneTables) (PlannerLink : GenconEvent → String)
    (first : GenconEvent) (rest : List GenconEvent) (grouped : List CalendarEventCluster)
    (hlinks : ∀ x ∈ first :: rest, GenconLink T x ≠ none) :
    ∃ (runs : List (List GenconEvent)) (clusters : List CalendarEventCluster),
      clusterDayGroup T PlannerLink (first :: rest) grouped = some (grouped ++ clusters) ∧
        runs.flatten = first :: rest ∧
        List.Forall₂ IsClusterOf runs clusters ∧
        List.Chain' Separated runs := by
  obtain ⟨cluster, hcluster, hs, he, _⟩ :=
    newClusterForEvent_some T PlannerLink first (hlinks first (List.mem_cons_self _ _))
  obtain ⟨more, tailRuns, clusters, last, hloop, hrest, hall, hchain⟩ :=
    mergeLoop_runs T PlannerLink rest first [] cluster grouped hs
      (by simpa [latestEnd] using he) (Merged_nil first)
      (fun x hx => hlinks x (List.mem_cons_of_mem _ hx))
  refine ⟨(first :: more) :: tailRuns, clusters ++ [last], ?_, ?_, by simpa using hall,
    by simpa using hchain⟩
  · simp only [clusterDayGroup, hcluster, hloop, List.append_assoc]
  · simp only [List.flatten_cons, List.cons_append]
    rw [hrest]

/-- The example of the specification for C8: the windows 10:00-12:00,
11:00-13:00 and 14:00-15:00 give the clusters 10:00-13:00 with count 2 and
14:00-15:00 with count 1. -/
theorem clusterDayGroup_merges_witness :
    (clusterDayGroup asciiTables (fun _ => "")
        [sampleSession "RPG19000001" 600 720, sampleSession "RPG19000002" 660 780,
          sampleSession "RPG19000003" 840 900] []).map
        (fun l => l.map CalendarEventCluster.window) = some [(600, 780, 2), (840, 900, 1)] ∧
      ∃ (runs : List (List GenconEvent)) (clusters : List CalendarEventCluster),
        clusterDayGroup asciiTables (fun _ => "")
            [sampleSession "RPG19000001" 600 720, sampleSession "RPG19000002" 660 780,
              sampleSession "RPG19000003" 840 900] [] = some ([] ++ clusters) ∧
          runs.flatten =
            [sampleSession "RPG19000001" 600 720, sampleSession "RPG19000002" 660 780,
              sampleSession "RPG19000003" 840 900] ∧
          List.Forall₂ IsClusterOf runs clusters ∧
          List.Chain' Separated runs :=
  ⟨by decide,
    clusterDayGroup_merges asciiTables (fun _ => "") (sampleSession "RPG19000001" 600 720)
      [sampleSession "RPG19000002" 660 780, sampleSession "RPG19000003" 840 900] []
      (by decide)⟩

/-- C9, as stated, fails: a session from 11:00 to 12:00 inside the cluster
10:00-13:00 leaves the cluster with its end time and with the count 1. -/
theorem mergeLoop_contained_counterexample :
    (clusterDayGroup asciiTables (fun _ => "")
        [sampleSession "RPG19000001" 600 780, sampleSession "RPG19000002" 660 720] []).map
        (fun l => l.map CalendarEventCluster.window) = some [(600, 780, 1)] := by
  decide

/-- C9, amended: a record that starts no later than the end time of the open
cluster and ends no later than it leaves the cluster as it is, end time and
count included, and emits no cluster; the count is incremented only for a
merged record that ends after the end time of the cluster. -/
theorem mergeLoop_contained (T : RuneTables) (PlannerLink : GenconEvent → String)
    (event : GenconEvent) (rest : List GenconEvent) (cluster : CalendarEventCluster)
    (grouped : List CalendarEventCluster)
    (hstart : event.StartTime ≤ cluster.EndTime) :
    (event.EndTime ≤ cluster.EndTime →
        mergeLoop T PlannerLink (event :: rest) cluster grouped =
          mergeLoop T PlannerLink rest cluster grouped) ∧
      (cluster.EndTime < event.EndTime →
        mergeLoop T PlannerLink (event :: rest) cluster grouped =
          mergeLoop T PlannerLink rest
            { cluster with EndTime := event.EndTime, SimilarCount := cluster.SimilarCount + 1 }
            grouped) := by
  have hgap : ¬(event.StartTime > cluster.EndTime) := by omega
  constructor
  · intro hend
    have hext : ¬(event.EndTime > cluster.EndTime) := by omega
    simp only [mergeLoop, if_neg hgap, if_neg hext]
  · intro hend
    simp only [mergeLoop, if_neg hgap, if_pos hend]

/-- A concrete instance of the amended C9: the contained session leaves the
open cluster 10:00-13:00 untouched. -/
theorem mergeLoop_contained_witness :
    mergeLoop asciiTables (fun _ => "") [sampleSession "RPG19000002" 660 720]
        { Title := "", StartTime := 600, EndTime := 780, GenconUrl := [], PlannerUrl := "",
          ShortCategory := "", ShortDescription := "", SimilarCount := 1 } [] =
      mergeLoop asciiTables (fun _ => "") []
        { Title := "", StartTime := 600, EndTime := 780, GenconUrl := [], PlannerUrl := "",
          ShortCategory := "", ShortDescription := "", SimilarCount := 1 } [] :=
  (mergeLoop_contained asciiTables (fun _ => "") (sampleSession "RPG19000002" 660 720) []
    { Title := "", StartTime := 600, EndTime := 780, GenconUrl := [], PlannerUrl := "",
      ShortCategory := "", ShortDescription := "", SimilarCount := 1 } [] (by decide)).1
    (by decide)

/-- C10, the failing input: a day group whose only id does not resolve to a
loaded record (it was starred after the starred records were loaded) makes
`LoadStarredEventClusters` stop at `dayGroupEvents[0]` without returning,
although the other group resolves. -/
theorem LoadStarredEventClusters_stale_group :
    LoadStarredEventClusters asciiTables (fun _ => "")
        (Except.ok [Except.ok ("thu", ["RPG19000001"]), Except.ok ("fri", ["RPG19000009"])] :
          Except Unit (List (Except Unit (String × List String))))
        [sampleSession "RPG19000001" 600 720] = none := by
  decide

/-! ## Lemmas on strings -/

theorem removeAll_of_not_mem (s : List Char) (c : Char) (h : c ∉ s) : removeAll s c = s := by
  unfold removeAll
  rw [List.filter_eq_self]
  intro x hx
  have hne : x ≠ c := fun heq => h (heq ▸ hx)
  simp [hne]

theorem mem_removeAll (s : List Char) (c x : Char) : x ∈ removeAll s c ↔ x ∈ s ∧ x ≠ c := by
  unfold removeAll
  simp [List.mem_filter]

theorem ContainsAny_eq_false (s chars : List Char) :
    ContainsAny s chars = false ↔ ∀ c ∈ s, c ∉ chars := by
  unfold ContainsAny
  simp [List.any_eq_false]

theorem mem_of_mem_TrimSpace (s : List Char) (x : Char) (h : x ∈ TrimSpace s) : x ∈ s := by
  unfold TrimSpace TrimRightFunc TrimLeftFunc at h
  have h1 : x ∈ (List.dropWhile IsSpace s).rdropWhile IsSpace := h
  exact (List.dropWhile_sublist IsSpace).subset
    ((List.rdropWhile_prefix IsSpace (List.dropWhile IsSpace s)).subset h1)

theorem TrimSpace_trimmed (s : List Char) : Trimmed (TrimSpace s) := by
  have hdef : TrimSpace s = (List.dropWhile IsSpace s).rdropWhile IsSpace := rfl
  constructor
  · intro c hc
    rw [hdef] at hc
    obtain ⟨t, ht⟩ := List.rdropWhile_prefix IsSpace (List.dropWhile IsSpace s)
    have hhead : (List.dropWhile IsSpace s).head? = some c := by
      rw [← ht]
      cases hr : (List.dropWhile IsSpace s).rdropWhile IsSpace with
      | nil => rw [hr] at hc; simp at hc
      | cons y ys =>
        rw [hr] at hc
        simp only [List.head?_cons, Option.some.injEq] at hc
        simp [hc]
    have hnot := List.head?_dropWhile_not IsSpace s
    rw [hhead] at hnot
    exact hnot
  · intro c hc
    rw [hdef, List.rdropWhile, List.getLast?_reverse] at hc
    have hnot := List.head?_dropWhile_not IsSpace (List.dropWhile IsSpace s).reverse
    rw [hc] at hnot
    exact hnot

theorem TrimSpace_eq_self (s : List Char) (h : Trimmed s) : TrimSpace s = s := by
  have hdef : TrimSpace s = (List.dropWhile IsSpace s).rdropWhile IsSpace := rfl
  have h1 : List.dropWhile IsSpace s = s := by
    cases s with
    | nil => rfl
    | cons c t =>
      have hc := h.1 c rfl
      rw [List.dropWhile_cons, hc]
      simp
  rw [hdef, h1, List.rdropWhile]
  have h2 : List.dropWhile IsSpace s.reverse = s.reverse := by
    cases hr : s.reverse with
    | nil => rfl
    | cons c t =>
      have hlast : s.getLast? = some c := by
        rw [← List.head?_reverse, hr]; rfl
      have hc := h.2 c hlast
      rw [List.dropWhile_cons, hc]
      simp
  rw [h2, List.reverse_reverse]

/-! ## Lemmas on the csv reader -/

theorem mem_of_mem_csvNormalize (s : List Char) : ∀ x ∈ csvNormalize s, x ∈ s := by
  induction s with
  | nil => intro x hx; simp [csvNormalize] at hx
  | cons c rest ih =>
    intro x hx
    unfold csvNormalize at hx
    by_cases hc : c = '\r'
    · rw [if_pos hc] at hx
      cases rest with
      | nil => simp at hx
      | cons d more =>
        simp only [] at hx
        by_cases hd : d = '\n'
        · rw [if_pos hd] at hx
          exact List.mem_cons_of_mem _ (ih x hx)
        · rw [if_neg hd] at hx
          rcases List.mem_cons.1 hx with rfl | hx
          · exact List.mem_cons_self _ _
          · exact List.mem_cons_of_mem _ (ih x hx)
    · rw [if_neg hc] at hx
      rcases List.mem_cons.1 hx with rfl | hx
      · exact List.mem_cons_self _ _
      · exact List.mem_cons_of_mem _ (ih x hx)

theorem csvNormalize_eq_self (s : List Char) (hnl : '\n' ∉ s)
    (hlast : s.getLast? ≠ some '\r') : csvNormalize s = s := by
  induction s with
  | nil => rfl
  | cons c rest ih =>
    have hnl2 : '\n' ∉ rest := fun h => hnl (List.mem_cons_of_mem _ h)
    unfold csvNormalize
    cases rest with
    | nil =>
      have hc : c ≠ '\r' := by
        intro h
        apply hlast
        simp [h]
      rw [if_neg hc]
      simp [csvNormalize]
    | cons d more =>
      have hd : d ≠ '\n' := by
        intro h
        apply hnl
        simp [h]
      have hrest : csvNormalize (d :: more) = d :: more := by
        apply ih hnl2
        intro h
        apply hlast
        rw [List.getLast?_cons_cons]
        exact h
      by_cases hc : c = '\r'
      · rw [if_pos hc]
        simp only []
        rw [if_neg hd, hrest]
      · rw [if_neg hc, hrest]

theorem csvFields_chars (stream : List Char) :
    ∀ (st : CsvState) (fields : List (List Char)) (f : List Char),
      f ∈ csvFields st stream fields →
      f ∈ fields ∨ ∀ x ∈ f, x ∈ st.field ∨ x ∈ stream := by
  induction stream with
  | nil =>
    intro st fields f hf
    cases st <;> simp only [csvFields, List.mem_append, List.mem_singleton] at hf
    · rcases hf with hf | rfl
      · exact Or.inl hf
      · exact Or.inr (by simp)
    · rcases hf with hf | rfl
      · exact Or.inl hf
      · exact Or.inr (fun x hx => Or.inl hx)
    · exact Or.inl hf
    · rcases hf with hf | rfl
      · exact Or.inl hf
      · exact Or.inr (fun x hx => Or.inl hx)
  | cons c rest ih =>
    intro st fields f hf
    have hstep : ∀ (st2 : CsvState) (fields2 : List (List Char)),
        f ∈ csvFields st2 rest fields2 →
        (∀ g ∈ fields2, g ∈ fields ∨ ∀ x ∈ g, x ∈ st.field ∨ x ∈ c :: rest) →
        (∀ x ∈ st2.field, x ∈ st.field ∨ x ∈ c :: rest) →
        f ∈ fields ∨ ∀ x ∈ f, x ∈ st.field ∨ x ∈ c :: rest := by
      intro st2 fields2 hmem hfields hfield
      rcases ih st2 fields2 f hmem with h | h
      · exact hfields f h
      · right
        intro x hx
        rcases h x hx with h2 | h2
        · exact hfield x h2
        · exact Or.inr (List.mem_cons_of_mem _ h2)
    have hkeep : ∀ g ∈ fields, g ∈ fields ∨ ∀ x ∈ g, x ∈ st.field ∨ x ∈ c :: rest :=
      fun g hg => Or.inl hg
    have hadd : ∀ g ∈ fields ++ [st.field],
        g ∈ fields ∨ ∀ x ∈ g, x ∈ st.field ∨ x ∈ c :: rest := by
      intro g hg
      rcases List.mem_append.1 hg with hg | hg
      · exact Or.inl hg
      · rw [List.mem_singleton.1 hg]
        exact Or.inr (fun x hx => Or.inl hx)
    have hdone : f ∈ fields ++ [st.field] →
        f ∈ fields ∨ ∀ x ∈ f, x ∈ st.field ∨ x ∈ c :: rest := hadd f
    cases st with
    | fieldStart =>
      simp only [csvFields] at hf
      by_cases h1 : c = '"'
      · rw [if_pos h1] at hf
        exact hstep _ _ hf hkeep (by simp [CsvState.field])
      · rw [if_neg h1] at hf
        by_cases h2 : c = ' '
        · rw [if_pos h2] at hf
          exact hstep _ _ hf hadd (by simp [CsvState.field])
        · rw [if_neg h2] at hf
          by_cases h3 : c = '\n'
          · rw [if_pos h3] at hf
            exact hdone hf
          · rw [if_neg h3] at hf
            exact hstep _ _ hf hkeep (by simp [CsvState.field])
    | unquoted field =>
      simp only [csvFields] at hf
      by_cases h1 : c = '"'
      · rw [if_pos h1] at hf
        exact Or.inl hf
      · rw [if_neg h1] at hf
        by_cases h2 : c = ' '
        · rw [if_pos h2] at hf
          exact hstep _ _ hf hadd (by simp [CsvState.field])
        · rw [if_neg h2] at hf
          by_cases h3 : c = '\n'
          · rw [if_pos h3] at hf
            exact hdone hf
          · rw [if_neg h3] at hf
            refine hstep _ _ hf hkeep ?_
            intro x hx
            simp only [CsvState.field, List.mem_append, List.mem_singleton] at hx ⊢
            rcases hx with hx | rfl
            · exact Or.inl hx
            · exact Or.inr (List.mem_cons_self _ _)
    | quoted field =>
      simp only [csvFields] at hf
      by_cases h1 : c = '"'
      · rw [if_pos h1] at hf
        exact hstep _ _ hf hkeep (fun x hx => Or.inl hx)
      · rw [if_neg h1] at hf
        refine hstep _ _ hf hkeep ?_
        intro x hx
        simp only [CsvState.field, List.mem_append, List.mem_singleton] at hx ⊢
        rcases hx with hx | rfl
        · exact Or.inl hx
        · exact Or.inr (List.mem_cons_self _ _)
    | quoteSeen field =>
      simp only [csvFields] at hf
      by_cases h1 : c = '"'
      · rw [if_pos h1] at hf
        refine hstep _ _ hf hkeep ?_
        intro x hx
        simp only [CsvState.field, List.mem_append, List.mem_singleton] at hx ⊢
        rcases hx with hx | rfl
        · exact Or.inl hx
        · exact Or.inr (by simp [h1])
      · rw [if_neg h1] at hf
        by_cases h2 : c = ' '
        · rw [if_pos h2] at hf
          exact hstep _ _ hf hadd (by simp [CsvState.field])
        · rw [if_neg h2] at hf
          by_cases h3 : c = '\n'
          · rw [if_pos h3] at hf
            exact hdone hf
          · rw [if_neg h3] at hf
            exact Or.inl hf

theorem csvRead_chars (input : List Char) (f : List Char) (hf : f ∈ csvRead input) :
    ∀ x ∈ f, x ∈ input := by
  unfold csvRead at hf
  cases hstream : (csvNormalize input).dropWhile (fun c => decide (c = '\n')) with
  | nil => rw [hstream] at hf; simp at hf
  | cons c rest =>
    rw [hstream] at hf
    simp only [] at hf
    rcases csvFields_chars (c :: rest) CsvState.fieldStart [] f hf with h | h
    · simp at h
    · intro x hx
      rcases h x hx with h2 | h2
      · simp [CsvState.field] at h2
      · rw [← hstream] at h2
        exact mem_of_mem_csvNormalize input x ((List.dropWhile_sublist _).subset h2)

theorem csvFields_unquoted_word (w : List Char) :
    ∀ (field : List Char) (fields : List (List Char)),
      '"' ∉ w → ' ' ∉ w → '\n' ∉ w →
      csvFields (CsvState.unquoted field) w fields = fields ++ [field ++ w] := by
  induction w with
  | nil => intro field fields _ _ _; simp [csvFields]
  | cons c rest ih =>
    intro field fields h1 h2 h3
    have hc1 : c ≠ '"' := fun h => h1 (by simp [h])
    have hc2 : c ≠ ' ' := fun h => h2 (by simp [h])
    have hc3 : c ≠ '\n' := fun h => h3 (by simp [h])
    simp only [csvFields, if_neg hc1, if_neg hc2, if_neg hc3]
    rw [ih _ _ (fun h => h1 (List.mem_cons_of_mem _ h)) (fun h => h2 (List.mem_cons_of_mem _ h))
      (fun h => h3 (List.mem_cons_of_mem _ h))]
    simp

theorem csvRead_word (w : List Char) (hne : w ≠ []) (h1 : '"' ∉ w) (h2 : ' ' ∉ w)
    (h3 : '\n' ∉ w) (hlast : w.getLast? ≠ some '\r') : csvRead w = [w] := by
  unfold csvRead
  rw [csvNormalize_eq_self w h3 hlast]
  cases w with
  | nil => exact absurd rfl hne
  | cons c rest =>
    have hc1 : c ≠ '"' := fun h => h1 (by simp [h])
    have hc2 : c ≠ ' ' := fun h => h2 (by simp [h])
    have hc3 : c ≠ '\n' := fun h => h3 (by simp [h])
    rw [List.dropWhile_cons]
    simp only [hc3, decide_False]
    simp only [csvFields, if_neg hc1, if_neg hc2, if_neg hc3, Bool.false_eq_true, if_false]
    rw [csvFields_unquoted_word rest _ _ (fun h => h1 (List.mem_cons_of_mem _ h))
      (fun h => h2 (List.mem_cons_of_mem _ h)) (fun h => h3 (List.mem_cons_of_mem _ h))]
    simp

theorem csvFields_quoted_phrase (phrase : List Char) :
    ∀ (field : List Char) (fields : List (List Char)), '"' ∉ phrase →
      csvFields (CsvState.quoted field) (phrase ++ ['"']) fields = fields ++ [field ++ phrase] := by
  induction phrase with
  | nil => intro field fields _; simp [csvFields]
  | cons c rest ih =>
    intro field fields h1
    have hc1 : c ≠ '"' := fun h => h1 (by simp [h])
    simp only [List.cons_append, csvFields, if_neg hc1, List.append_eq]
    rw [ih _ _ (fun h => h1 (List.mem_cons_of_mem _ h))]
    simp

theorem csvRead_quoted_phrase (phrase : List Char) (h1 : '"' ∉ phrase)
    (h3 : '\n' ∉ phrase) : csvRead ('"' :: (phrase ++ ['"'])) = [phrase] := by
  unfold csvRead
  rw [csvNormalize_eq_self]
  · rw [List.dropWhile_cons]
    simp only [Char.reduceEq, decide_False, Bool.false_eq_true, if_false, csvFields, if_true]
    rw [csvFields_quoted_phrase phrase _ _ h1]
    simp
  · simp only [List.mem_cons, List.mem_append, List.mem_singleton, not_or]
    exact ⟨by decide, h3, by decide⟩
  · rw [← List.cons_append, List.getLast?_concat]
    decide

/-! ## Lemmas on the query parser -/

theorem parseTerms_eq_filterMap (tokens : List (List Char)) (textQueries : List String) :
    parseTerms tokens textQueries = textQueries ++ tokens.filterMap parseTerm := by
  induction tokens generalizing textQueries with
  | nil => simp [parseTerms]
  | cons token rest ih =>
    simp only [parseTerms, List.filterMap_cons]
    cases h : parseTerm token with
    | none => simp only []; exact ih textQueries
    | some t => simp only []; rw [ih]; simp

theorem parseTerm_eq_termOfToken (token : List Char) : parseTerm token = termOfToken token := by
  have hset : ":<>=-~".data = [':', '<', '>', '=', '-', '~'] := by decide
  unfold parseTerm termOfToken
  simp only [hset]
  generalize (if token.head? = some '-' then token.dropWhile (fun c => decide (c = '-'))
    else token) = body
  by_cases hany : body.any (fun c => decide (c ∈ [':', '<', '>', '=', '-', '~'])) = true
  · have hc : ContainsAny body [':', '<', '>', '=', '-', '~'] = true := hany
    rw [if_pos hc, if_pos hany]
  · have hc : ¬(ContainsAny body [':', '<', '>', '=', '-', '~'] = true) := hany
    rw [if_neg hc, if_neg hany]
    have hnone : ∀ c ∈ body, c ∉ [':', '<', '>', '=', '-', '~'] :=
      (ContainsAny_eq_false body _).1 (by simpa using hc)
    have hrm : ∀ x ∈ [':', '<', '>', '=', '-', '~'], removeAll body x = body := by
      intro x hx
      exact removeAll_of_not_mem body x (fun hmem => hnone x hmem hx)
    rw [hrm '<' (by decide), hrm '>' (by decide), hrm '=' (by decide), hrm '-' (by decide),
      hrm '~' (by decide)]
    by_cases hempty : TrimSpace body = []
    · rw [if_pos hempty, if_pos (by rw [hempty]; rfl)]
    · rw [if_neg hempty, if_neg (by rw [List.length_eq_zero]; exact hempty)]

theorem parseTerm_structure (token : List Char) (t : String) (h : parseTerm token = some t) :
    ∃ body : List Char, body ≠ [] ∧ Trimmed body ∧
      (∀ x ∈ body, x ∈ token ∧ x ∉ [':', '<', '>', '=', '-', '~']) ∧
      (t.data = body ∨ t.data = '!' :: body) := by
  rw [parseTerm_eq_termOfToken] at h
  unfold termOfToken at h
  simp only [] at h
  have hsub : ∀ x ∈ (if token.head? = some '-' then
      token.dropWhile (fun c => decide (c = '-')) else token), x ∈ token := by
    intro x hx
    by_cases hneg : token.head? = some '-'
    · rw [if_pos hneg] at hx
      exact (List.dropWhile_sublist _).subset hx
    · rw [if_neg hneg] at hx
      exact hx
  generalize (if token.head? = some '-' then token.dropWhile (fun c => decide (c = '-'))
    else token) = body at h hsub
  by_cases hany : body.any (fun c => decide (c ∈ [':', '<', '>', '=', '-', '~'])) = true
  · rw [if_pos hany] at h
    cases h
  · rw [if_neg hany] at h
    by_cases hempty : TrimSpace body = []
    · rw [if_pos hempty] at h
      cases h
    · rw [if_neg hempty] at h
      have hnone : ∀ c ∈ body, c ∉ [':', '<', '>', '=', '-', '~'] := by
        have := (ContainsAny_eq_false body [':', '<', '>', '=', '-', '~']).1
          (by unfold ContainsAny; simpa using hany)
        exact this
      refine ⟨TrimSpace body, hempty, TrimSpace_trimmed body, ?_, ?_⟩
      · intro x hx
        have hxb := mem_of_mem_TrimSpace body x hx
        exact ⟨hsub x hxb, hnone x hxb⟩
      · have ht : t = String.mk (if token.head? = some '-' then '!' :: TrimSpace body
            else TrimSpace body) := (Option.some.inj h).symm
        by_cases hneg : token.head? = some '-'
        · rw [if_pos hneg] at ht
          right; rw [ht]
        · rw [if_neg hneg] at ht
          left; rw [ht]

theorem mem_stripTsquerySymbols (s : List Char) (x : Char) :
    x ∈ stripTsquerySymbols s ↔ x ∈ s ∧ x ∉ ['!', '&', '(', ')', '|'] := by
  unfold stripTsquerySymbols
  simp only [mem_removeAll, List.mem_cons, List.mem_singleton, List.not_mem_nil, or_false,
    not_or]
  tauto

theorem stripTsquerySymbols_eq_self (s : List Char)
    (h : ∀ x ∈ s, x ∉ ['!', '&', '(', ')', '|']) : stripTsquerySymbols s = s := by
  unfold stripTsquerySymbols
  rw [removeAll_of_not_mem s '!' (fun hm => h _ hm (by decide)),
    removeAll_of_not_mem s '&' (fun hm => h _ hm (by decide)),
    removeAll_of_not_mem s '(' (fun hm => h _ hm (by decide)),
    removeAll_of_not_mem s ')' (fun hm => h _ hm (by decide)),
    removeAll_of_not_mem s '|' (fun hm => h _ hm (by decide))]

theorem parseQuery_term_structure (currentYear : Int) (searchQuery yearParam : String)
    (t : String) (ht : t ∈ (parseQuery currentYear searchQuery yearParam).TextQueries) :
    ∃ body : List Char, body ≠ [] ∧ Trimmed body ∧
      (∀ x ∈ body, x ∉ ['!', '&', '(', ')', '|'] ∧ x ∉ [':', '<', '>', '=', '-', '~']) ∧
      (t.data = body ∨ t.data = '!' :: body) := by
  have ht2 : t ∈ (splitQuery searchQuery).filterMap parseTerm := by
    have := ht
    simp only [parseQuery, parseTerms_eq_filterMap, List.nil_append] at this
    exact this
  obtain ⟨token, htoken, hterm⟩ := List.mem_filterMap.1 ht2
  obtain ⟨body, hne, htrim, hchars, hshape⟩ := parseTerm_structure token t hterm
  refine ⟨body, hne, htrim, ?_, hshape⟩
  intro x hx
  have hxt := (hchars x hx).1
  have hxs := csvRead_chars _ token htoken x hxt
  exact ⟨((mem_stripTsquerySymbols _ x).1 hxs).2, (hchars x hx).2⟩

theorem parseTerms_clean_body (body : List Char) (hne : body ≠ []) (htrim : Trimmed body)
    (hchars : ∀ x ∈ body, x ∉ ['!', '&', '(', ')', '|'] ∧ x ∉ [':', '<', '>', '=', '-', '~'])
    (h1 : '"' ∉ body) (h2 : ' ' ∉ body) (h3 : '\n' ∉ body) :
    parseTerms (csvRead body) [] = [String.mk body] := by
  have hlast : body.getLast? ≠ some '\r' := by
    intro h
    have := htrim.2 _ h
    revert this
    decide
  rw [csvRead_word body hne h1 h2 h3 hlast, parseTerms_eq_filterMap]
  simp only [List.nil_append, List.filterMap_cons, List.filterMap_nil]
  rw [parseTerm_eq_termOfToken]
  unfold termOfToken
  have hhead : ¬(body.head? = some '-') := by
    intro h
    have hmem : '-' ∈ body := by
      cases body with
      | nil => simp at h
      | cons c rest =>
        simp only [List.head?_cons, Option.some.injEq] at h
        simp [h]
    exact (hchars _ hmem).2 (by decide)
  have hany : ¬(body.any (fun c => decide (c ∈ [':', '<', '>', '=', '-', '~'])) = true) := by
    rw [List.any_eq_true]
    rintro ⟨x, hx, hmem⟩
    exact (hchars x hx).2 (by simpa using hmem)
  simp only [if_neg hhead, if_neg hany, TrimSpace_eq_self body htrim, if_neg hne]

/-! ## Query parser: terms (C11, C12, C13, C14) -/

/-- C11, as stated, fails: the token sci-fi neither begins with a hyphen nor
contains one of `: < > = ~`, yet it contributes no term. -/
theorem parseQuery_hyphen_counterexample :
    splitQuery "sci-fi" = ["sci-fi".data] ∧
      (parseQuery 2019 "sci-fi" "").TextQueries = [] ∧
      (parseQuery 2019 "sci-fi" "").TextQueries ≠ ["sci-fi"] := by
  decide

/-- C11, amended: for every raw query `parseQuery` maps the tokens to terms in
order, each token contributing the term of `termOfToken`: a token that begins
with `-` is negated and loses its leading hyphens, a token whose rest contains
one of `: < > = - ~` contributes nothing, the rest is trimmed and contributes
nothing when empty, and gets the prefix `!` when negated; and a phrase in
double quotes is one token that keeps its inner spaces. -/
theorem parseQuery_terms (currentYear : Int) (searchQuery yearParam : String) :
    (parseQuery currentYear searchQuery yearParam).TextQueries =
        (splitQuery searchQuery).filterMap termOfToken ∧
      ∀ phrase : List Char, '"' ∉ phrase → '\n' ∉ phrase →
        splitQuery (String.mk ('"' :: (phrase ++ ['"']))) = [stripTsquerySymbols phrase] := by
  constructor
  · simp only [parseQuery, parseTerms_eq_filterMap, List.nil_append]
    apply List.filterMap_congr
    intro token _
    exact parseTerm_eq_termOfToken token
  · intro phrase h1 h3
    have hstrip : stripTsquerySymbols ('"' :: (phrase ++ ['"'])) =
        '"' :: (stripTsquerySymbols phrase ++ ['"']) := by
      simp [stripTsquerySymbols, removeAll, List.filter_cons, List.filter_append]
    unfold splitQuery
    rw [hstrip]
    exact csvRead_quoted_phrase _
      (fun h => h1 ((mem_stripTsquerySymbols phrase _).1 h).1)
      (fun h => h3 ((mem_stripTsquerySymbols phrase _).1 h).1)

/-- The example of the specification for C11: a negated word, a quoted phrase
and a field filter. -/
theorem parseQuery_terms_witness :
    (parseQuery 2019 "-dragon \"space opera\" foo:bar" "").TextQueries =
        ["!dragon", "space opera"] ∧
      (parseQuery 2019 "-dragon \"space opera\" foo:bar" "").TextQueries =
        (splitQuery "-dragon \"space opera\" foo:bar").filterMap termOfToken ∧
      splitQuery (String.mk ('"' :: ("space opera".data ++ ['"']))) =
        [stripTsquerySymbols "space opera".data] :=
  ⟨by decide, (parseQuery_terms 2019 "-dragon \"space opera\" foo:bar" "").1,
    (parseQuery_terms 2019 "" "").2 "space opera".data (by decide) (by decide)⟩

/-- C12, as stated, fails: the negation marker is removed before the query is
split, so parsing the term !dragon gives the term dragon. -/
theorem parseQuery_negated_counterexample :
    (parseQuery 2019 "-dragon" "").TextQueries = ["!dragon"] ∧
      (parseQuery 2019 "!dragon" "").TextQueries = ["dragon"] ∧
      (parseQuery 2019 "!dragon" "").TextQueries ≠ ["!dragon"] := by
  decide

/-- C12, amended: for every term that `parseQuery` can output and that contains
no double quote, no space and no line feed, parsing the term alone yields the
term itself when it is not negated, and the term without its negation marker
when it is negated. -/
theorem parseQuery_reparse (currentYear : Int) (searchQuery yearParam : String)
    (currentYear2 : Int) (yearParam2 : String) (t : String)
    (ht : t ∈ (parseQuery currentYear searchQuery yearParam).TextQueries)
    (h1 : '"' ∉ t.data) (h2 : ' ' ∉ t.data) (h3 : '\n' ∉ t.data) :
    (t.data.head? ≠ some '!' → (parseQuery currentYear2 t yearParam2).TextQueries = [t]) ∧
      (∀ u : List Char, t.data = '!' :: u →
        (parseQuery currentYear2 t yearParam2).TextQueries = [String.mk u]) := by
  obtain ⟨body, hne, htrim, hchars, hshape⟩ :=
    parseQuery_term_structure currentYear searchQuery yearParam t ht
  have hbang : '!' ∉ body := fun h => (hchars _ h).1 (by decide)
  have hstripBody : stripTsquerySymbols body = body :=
    stripTsquerySymbols_eq_self body (fun x hx => (hchars x hx).1)
  rcases hshape with hshape | hshape
  · have hb1 : '"' ∉ body := by rw [← hshape]; exact h1
    have hb2 : ' ' ∉ body := by rw [← hshape]; exact h2
    have hb3 : '\n' ∉ body := by rw [← hshape]; exact h3
    constructor
    · intro _
      simp only [parseQuery, splitQuery]
      rw [hshape, hstripBody, parseTerms_clean_body body hne htrim hchars hb1 hb2 hb3,
        ← hshape]
    · intro u hu
      exfalso
      apply hbang
      rw [← hshape, hu]
      exact List.mem_cons_self _ _
  · have hb1 : '"' ∉ body := fun h => h1 (by rw [hshape]; exact List.mem_cons_of_mem _ h)
    have hb2 : ' ' ∉ body := fun h => h2 (by rw [hshape]; exact List.mem_cons_of_mem _ h)
    have hb3 : '\n' ∉ body := fun h => h3 (by rw [hshape]; exact List.mem_cons_of_mem _ h)
    constructor
    · intro hhead
      exfalso
      apply hhead
      rw [hshape]
      rfl
    · intro u hu
      have hub : u = body := by
        rw [hshape] at hu
        exact (List.cons.inj hu).2.symm
      have hstrip : stripTsquerySymbols ('!' :: body) = body := by
        have h0 : stripTsquerySymbols ('!' :: body) = stripTsquerySymbols body := by
          simp [stripTsquerySymbols, removeAll, List.filter_cons]
        rw [h0, hstripBody]
      simp only [parseQuery, splitQuery]
      rw [hshape, hstrip, parseTerms_clean_body body hne htrim hchars hb1 hb2 hb3, hub]

/-- A concrete instance of the amended C12: the terms of the query
`-dragon cat` are !dragon and cat; parsing cat gives cat, parsing !dragon
gives dragon. -/
theorem parseQuery_reparse_witness :
    "cat" ∈ (parseQuery 2019 "-dragon cat" "").TextQueries ∧
      "!dragon" ∈ (parseQuery 2019 "-dragon cat" "").TextQueries ∧
      (parseQuery 2020 "cat" "").TextQueries = ["cat"] ∧
      (parseQuery 2020 "!dragon" "").TextQueries = [String.mk "dragon".data] :=
  ⟨by decide, by decide,
    (parseQuery_reparse 2019 "-dragon cat" "" 2020 "" "cat" (by decide) (by decide) (by decide)
      (by decide)).1 (by decide),
    (parseQuery_reparse 2019 "-dragon cat" "" 2020 "" "!dragon" (by decide) (by decide)
      (by decide) (by decide)).2 "dragon".data (by decide)⟩

/-- C13: for every raw query and year parameter, every term of `TextQueries` is
non-empty, has no leading and no trailing white space, contains none of the
characters `& ( ) | : < > = - ~`, and contains `!` at most as its first
character. -/
theorem parseQuery_terms_sanitized (currentYear : Int) (searchQuery yearParam : String)
    (t : String) (ht : t ∈ (parseQuery currentYear searchQuery yearParam).TextQueries) :
    t.data ≠ [] ∧ Trimmed t.data ∧
      (∀ x ∈ t.data, x ∉ ['&', '(', ')', '|', ':', '<', '>', '=', '-', '~']) ∧
      '!' ∉ t.data.tail := by
  obtain ⟨body, hne, htrim, hchars, hshape⟩ :=
    parseQuery_term_structure currentYear searchQuery yearParam t ht
  have hbody : ∀ x ∈ body, x ∉ ['&', '(', ')', '|', ':', '<', '>', '=', '-', '~'] := by
    intro x hx hmem
    have h1 := (hchars x hx).1
    have h2 := (hchars x hx).2
    simp only [List.mem_cons, List.mem_singleton, List.not_mem_nil, or_false, not_or] at h1 h2 hmem
    tauto
  have hbang : '!' ∉ body := fun h => (hchars _ h).1 (by decide)
  rcases hshape with hshape | hshape
  · rw [hshape]
    exact ⟨hne, htrim, hbody, fun h => hbang (List.mem_of_mem_tail h)⟩
  · rw [hshape]
    refine ⟨by simp, ⟨?_, ?_⟩, ?_, hbang⟩
    · intro c hc
      simp only [List.head?_cons, Option.some.injEq] at hc
      rw [← hc]
      decide
    · intro c hc
      apply htrim.2 c
      cases body with
      | nil => exact absurd rfl hne
      | cons b rest => rw [List.getLast?_cons_cons] at hc; exact hc
    · intro x hx
      rcases List.mem_cons.1 hx with rfl | hx
      · decide
      · exact hbody x hx

/-- A concrete instance of C13: the term !dragon of the query
`-dragon (cat|dog) a&b`. -/
theorem parseQuery_terms_sanitized_witness :
    (parseQuery 2019 "-dragon (cat|dog) a&b" "").TextQueries = ["!dragon", "catdog", "ab"] ∧
      ("!dragon".data ≠ [] ∧ Trimmed "!dragon".data ∧
        (∀ x ∈ "!dragon".data, x ∉ ['&', '(', ')', '|', ':', '<', '>', '=', '-', '~']) ∧
        '!' ∉ "!dragon".data.tail) :=
  ⟨by decide, parseQuery_terms_sanitized 2019 "-dragon (cat|dog) a&b" "" "!dragon" (by decide)⟩

/-- C14, as stated, fails: the token lo-fi holds an inner hyphen and contributes
no term, not the term lofi. -/
theorem parseTerm_hyphen_counterexample :
    parseTerm "lo-fi".data = none ∧ (parseQuery 2019 "lo-fi" "").TextQueries = [] ∧
      (parseQuery 2019 "lo-fi" "").TextQueries ≠ ["lofi"] := by
  decide

/-- C14, amended: a token whose rest after the removal of its leading hyphens
contains one of `: < > = - ~` (an inner hyphen included) contributes no term;
every other token contributes its rest with the white space trimmed,
prefixed with the negation marker when the token began with a hyphen, unless
the trimmed rest is empty. -/
theorem parseTerm_token (token : List Char) :
    ((∃ c ∈ (if token.head? = some '-' then token.dropWhile (fun c => decide (c = '-'))
          else token), c ∈ [':', '<', '>', '=', '-', '~']) →
        parseTerm token = none) ∧
      ((∀ c ∈ (if token.head? = some '-' then token.dropWhile (fun c => decide (c = '-'))
          else token), c ∉ [':', '<', '>', '=', '-', '~']) →
        parseTerm token =
          if TrimSpace (if token.head? = some '-' then
              token.dropWhile (fun c => decide (c = '-')) else token) = [] then none
          else some (String.mk (if token.head? = some '-' then
            '!' :: TrimSpace (token.dropWhile (fun c => decide (c = '-')))
            else TrimSpace token))) := by
  rw [parseTerm_eq_termOfToken]
  unfold termOfToken
  constructor
  · rintro ⟨c, hc, hmem⟩
    have hany : (if token.head? = some '-' then token.dropWhile (fun c => decide (c = '-'))
        else token).any (fun c => decide (c ∈ [':', '<', '>', '=', '-', '~'])) = true := by
      rw [List.any_eq_true]
      exact ⟨c, hc, by simpa using hmem⟩
    simp only [hany, if_true]
  · intro hall
    have hany : ¬((if token.head? = some '-' then token.dropWhile (fun c => decide (c = '-'))
        else token).any (fun c => decide (c ∈ [':', '<', '>', '=', '-', '~'])) = true) := by
      rw [List.any_eq_true]
      rintro ⟨c, hc, hmem⟩
      exact hall c hc (by simpa using hmem)
    simp only [if_neg hany]
    by_cases hneg : token.head? = some '-'
    · simp only [if_pos hneg]
    · simp only [if_neg hneg]

/-- Two concrete instances of the amended C14: a negated token, and a token
with an inner hyphen. -/
theorem parseTerm_token_witness :
    parseTerm "-dragon".data = some "!dragon" ∧ parseTerm "hi-fi".data = none :=
  ⟨by
      have h := (parseTerm_token "-dragon".data).2 (by decide)
      rw [h]
      decide,
    (parseTerm_token "hi-fi".data).1 (by decide)⟩

/-! ## Query parser: year (C15) -/

theorem atoiDigits_goBytes (ds : List Char) :
    ∀ n : Nat, atoiDigits (goBytes ds) n =
      if ds.all Char.isDigit = true then
        some (ds.foldl (fun n c => n * 10 + (c.toNat - 48)) n)
      else none := by
  induction ds with
  | nil => intro n; simp [goBytes, atoiDigits]
  | cons c rest ih =>
    intro n
    by_cases hd : c.isDigit = true
    · have hn := (isDigit_iff_toNat c).1 hd
      rw [goBytes, utf8EncodeRune_ascii c (by omega), List.singleton_append,
        atoiDigits_digit _ _ _ hn, ih]
      simp [hd]
    · have hall : ¬((c :: rest).all Char.isDigit = true) := by simp [hd]
      rw [if_neg hall]
      by_cases ha : c.toNat < 128
      · rw [goBytes, utf8EncodeRune_ascii c ha, List.singleton_append]
        exact atoiDigits_nondigit _ _ _ (by omega) (fun h => hd ((isDigit_iff_toNat c).2 h))
      · obtain ⟨x, y, more, heq, hx1, hx2, _, _⟩ := utf8EncodeRune_nonascii c (by omega)
        rw [goBytes, heq, List.cons_append]
        exact atoiDigits_nondigit _ _ _ hx2 (by omega)

theorem goBytes_eq_nil (s : List Char) : goBytes s = [] ↔ s = [] := by
  cases s with
  | nil => simp [goBytes]
  | cons c rest =>
    simp only [goBytes, List.append_eq_nil, reduceCtorEq, iff_false, not_and]
    intro h
    exfalso
    by_cases ha : c.toNat < 128
    · rw [utf8EncodeRune_ascii c ha] at h
      cases h
    · obtain ⟨x, y, more, heq, _⟩ := utf8EncodeRune_nonascii c (by omega)
      rw [heq] at h
      cases h

theorem Atoi_goBytes (s : List Char) :
    Atoi (goBytes s) =
      match integerLiteral s with
      | some v => if -(2 : Int) ^ 63 ≤ v ∧ v < (2 : Int) ^ 63 then some v else none
      | none => none := by
  cases s with
  | nil => simp [goBytes, Atoi, integerLiteral]
  | cons c rest =>
    have hminus : ('-' : Char).toNat = 45 := rfl
    have hplus : ('+' : Char).toNat = 43 := rfl
    by_cases hm : c = '-'
    · subst hm
      have hb : goBytes ('-' :: rest) = 45 :: goBytes rest := by
        rw [goBytes, utf8EncodeRune_ascii _ (by decide)]; rfl
      rw [hb]
      simp only [Atoi, integerLiteral, true_or, if_true, goBytes_eq_nil, atoiDigits_goBytes]
      by_cases hr : rest = []
      · simp [hr]
      · by_cases hall : rest.all Char.isDigit = true
        · simp only [hr, hall, if_true, if_false, ne_eq, not_false_eq_true, and_self,
            decimalValue]
        · simp only [hr, hall, if_false, ne_eq, not_false_eq_true, and_false, Bool.false_eq_true]
    · by_cases hp : c = '+'
      · subst hp
        have hb : goBytes ('+' :: rest) = 43 :: goBytes rest := by
          rw [goBytes, utf8EncodeRune_ascii _ (by decide)]; rfl
        rw [hb]
        simp only [Atoi, integerLiteral, or_true, if_true, goBytes_eq_nil, atoiDigits_goBytes,
          Char.reduceEq, if_false, Nat.reduceEqDiff]
        by_cases hr : rest = []
        · simp [hr]
        · by_cases hall : rest.all Char.isDigit = true
          · simp only [hr, hall, if_true, if_false, ne_eq, not_false_eq_true, and_self,
              decimalValue]
          · simp only [hr, hall, if_false, ne_eq, not_false_eq_true, and_false,
              Bool.false_eq_true]
      · obtain ⟨b, bytes, hb, hb45, hb43⟩ : ∃ b bytes, goBytes (c :: rest) = b :: bytes ∧
            b ≠ 45 ∧ b ≠ 43 := by
          by_cases ha : c.toNat < 128
          · refine ⟨c.toNat, goBytes rest, ?_, ?_, ?_⟩
            · rw [goBytes, utf8EncodeRune_ascii c ha]; rfl
            · intro h; exact hm (char_eq_of_toNat _ _ (h.trans hminus.symm))
            · intro h; exact hp (char_eq_of_toNat _ _ (h.trans hplus.symm))
          · obtain ⟨x, y, more, heq, hx1, _, _, _⟩ := utf8EncodeRune_nonascii c (by omega)
            exact ⟨x, y :: (more ++ goBytes rest), by rw [goBytes, heq]; rfl, by omega, by omega⟩
        have hdig := atoiDigits_goBytes (c :: rest) 0
        rw [hb] at hdig
        rw [hb]
        have hor : ¬(b = 45 ∨ b = 43) := by
          rintro (h | h)
          · exact hb45 h
          · exact hb43 h
        simp only [Atoi, integerLiteral, if_neg hor, if_neg hm, if_neg hp, reduceCtorEq,
          if_false, hdig, if_neg hb45]
        by_cases hall : (c :: rest).all Char.isDigit = true
        · simp only [hall, if_true, decimalValue]
        · simp only [hall, if_false, Bool.false_eq_true]

/-- C15: for every raw query and year parameter, with the current year as an
input, `parseQuery` sets `Year` to the integer that the white-space-trimmed
year parameter denotes when the parameter is an integer in decimal notation
that fits the 64-bit `int`, and to the current year otherwise; `parseQuery`
is a total function: it returns a query for every input. -/
theorem parseQuery_year (currentYear : Int) (searchQuery yearParam : String) :
    (parseQuery currentYear searchQuery yearParam).Year =
      match integerLiteral (TrimSpace yearParam.data) with
      | some v => if -(2 : Int) ^ 63 ≤ v ∧ v < (2 : Int) ^ 63 then v else currentYear
      | none => currentYear := by
  simp only [parseQuery, parseYear]
  by_cases hlen : (TrimSpace yearParam.data).length > 0
  · rw [if_pos hlen, Atoi_goBytes]
    cases hlit : integerLiteral (TrimSpace yearParam.data) with
    | none => rfl
    | some v =>
      simp only []
      by_cases hrange : -(2 : Int) ^ 63 ≤ v ∧ v < (2 : Int) ^ 63
      · rw [if_pos hrange, if_pos hrange]
      · rw [if_neg hrange, if_neg hrange]
  · rw [if_neg hlen]
    have hnil : TrimSpace yearParam.data = [] := List.length_eq_zero.1 (by omega)
    rw [hnil]
    rfl

/-! ## Lemmas on the partition of groups -/

theorem GoMap.get?_of_not_contains {ν : Type} (m : GoMap ν) (k : String)
    (h : m.contains k = false) : m.get? k = none := by
  unfold GoMap.get?
  unfold GoMap.contains at h
  rw [List.any_eq_false] at h
  rw [List.find?_eq_none.2 (fun x hx => h x hx)]
  rfl

theorem GoMap.get?_append_singleton {ν : Type} (m : GoMap ν) (k k1 : String) (v : ν) :
    GoMap.get? (m ++ [(k, v)]) k1 =
      match m.get? k1 with
      | some w => some w
      | none => if k1 = k then some v else none := by
  unfold GoMap.get?
  induction m with
  | nil =>
    by_cases h : k = k1
    · simp [h]
    · have h2 : ¬(k1 = k) := fun e => h e.symm
      simp [h, h2]
  | cons p m ih =>
    by_cases hp : p.1 = k1
    · simp [List.find?_cons, hp]
    · simp only [List.cons_append, List.find?_cons, hp, decide_False]
      exact ih

theorem GoMap.get?_map_replace {ν : Type} (m : GoMap ν) (k k1 : String) (v : ν) :
    GoMap.get? (m.map (fun p => if p.1 = k then (k, v) else p)) k1 =
      if k1 = k then (if m.contains k = true then some v else none) else m.get? k1 := by
  unfold GoMap.get? GoMap.contains
  induction m with
  | nil => by_cases h : k1 = k <;> simp [h]
  | cons p m ih =>
    rw [List.map_cons, List.any_cons]
    by_cases hpk : p.1 = k
    · rw [if_pos hpk]
      by_cases h : k1 = k
      · rw [List.find?_cons_of_pos _ (by simp [h]), if_pos h]
        simp [hpk]
      · have hk : ¬(k = k1) := fun e => h e.symm
        have hp1 : ¬(p.1 = k1) := fun e => h (e.symm.trans hpk)
        rw [List.find?_cons_of_neg _ (by simpa using hk), ih, if_neg h, if_neg h,
          List.find?_cons_of_neg _ (by simpa using hp1)]
    · rw [if_neg hpk]
      by_cases h : k1 = k
      · have hp1 : ¬(p.1 = k1) := fun e => hpk (e.trans h)
        rw [List.find?_cons_of_neg _ (by simpa using hp1), ih, if_pos h, if_pos h]
        have hd : decide (p.1 = k) = false := decide_eq_false hpk
        rw [hd, Bool.false_or]
      · rw [if_neg h]
        by_cases hp1 : p.1 = k1
        · rw [List.find?_cons_of_pos _ (by simpa using hp1),
            List.find?_cons_of_pos _ (by simpa using hp1)]
        · rw [List.find?_cons_of_neg _ (by simpa using hp1), ih, if_neg h,
            List.find?_cons_of_neg _ (by simpa using hp1)]

theorem GoMap.get?_set {ν : Type} (m : GoMap ν) (k k1 : String) (v : ν) :
    (m.set k v).get? k1 = if k1 = k then some v else m.get? k1 := by
  unfold GoMap.set
  by_cases hc : m.contains k = true
  · rw [if_pos hc, GoMap.get?_map_replace, if_pos hc]
  · rw [if_neg hc, GoMap.get?_append_singleton]
    have hcf : m.contains k = false := by simpa using hc
    by_cases h : k1 = k
    · rw [if_pos h, h, GoMap.get?_of_not_contains m k hcf]
      simp
    · rw [if_neg h]
      cases m.get? k1 <;> simp [h]

theorem bytesLE_total (a b : List Nat) : bytesLE a b = true ∨ bytesLE b a = true := by
  induction a generalizing b with
  | nil => left; rfl
  | cons x xs ih =>
    cases b with
    | nil => right; rfl
    | cons y ys =>
      simp only [bytesLE, Bool.or_eq_true, Bool.and_eq_true, decide_eq_true_eq]
      rcases Nat.lt_trichotomy x y with h | h | h
      · exact Or.inl (Or.inl h)
      · rcases ih ys with h2 | h2
        · exact Or.inl (Or.inr ⟨h, h2⟩)
        · exact Or.inr (Or.inr ⟨h.symm, h2⟩)
      · exact Or.inr (Or.inl h)

theorem bytesLE_trans (a b c : List Nat) (h1 : bytesLE a b = true) (h2 : bytesLE b c = true) :
    bytesLE a c = true := by
  induction a generalizing b c with
  | nil => rfl
  | cons x xs ih =>
    cases b with
    | nil => simp [bytesLE] at h1
    | cons y ys =>
      cases c with
      | nil => simp [bytesLE] at h2
      | cons z zs =>
        simp only [bytesLE, Bool.or_eq_true, Bool.and_eq_true, decide_eq_true_eq] at h1 h2 ⊢
        rcases h1 with h1 | ⟨h1, h1r⟩
        · rcases h2 with h2 | ⟨h2, _⟩
          · exact Or.inl (Nat.lt_trans h1 h2)
          · exact Or.inl (h2 ▸ h1)
        · rcases h2 with h2 | ⟨h2, h2r⟩
          · exact Or.inl (h1 ▸ h2)
          · exact Or.inr ⟨h1.trans h2, ih ys zs h1r h2r⟩

instance stringLE_isTotal : IsTotal String stringLE :=
  ⟨fun _ _ => bytesLE_total _ _⟩

instance stringLE_isTrans : IsTrans String stringLE :=
  ⟨fun _ _ _ h1 h2 => bytesLE_trans _ _ _ h1 h2⟩

theorem partitionLoop_invariant (keyFunction : EventGroup → String) (rest : List EventGroup) :
    ∀ (processed : List EventGroup) (partitions : GoMap (List EventGroup))
      (keys : List String),
      keys.Nodup →
      (∀ k, k ∈ keys ↔ ∃ g ∈ processed, keyFunction g = k) →
      (∀ k, partitions.get? k =
        if k ∈ keys then some (processed.filter (fun g => decide (keyFunction g = k)))
        else none) →
      (partitionLoop keyFunction rest partitions keys).2.Nodup ∧
        (∀ k, k ∈ (partitionLoop keyFunction rest partitions keys).2 ↔
          ∃ g ∈ processed ++ rest, keyFunction g = k) ∧
        (∀ k, (partitionLoop keyFunction rest partitions keys).1.get? k =
          if k ∈ (partitionLoop keyFunction rest partitions keys).2 then
            some ((processed ++ rest).filter (fun g => decide (keyFunction g = k)))
          else none) := by
  induction rest with
  | nil =>
    intro processed partitions keys hnd hkeys hget
    simp only [partitionLoop, List.append_nil]
    exact ⟨hnd, hkeys, hget⟩
  | cons group rest ih =>
    intro processed partitions keys hnd hkeys hget
    have hassoc : processed ++ group :: rest = (processed ++ [group]) ++ rest := by simp
    rw [hassoc]
    by_cases hin : keyFunction group ∈ keys
    · have hsome := hget (keyFunction group)
      rw [if_pos hin] at hsome
      simp only [partitionLoop, hsome]
      apply ih (processed ++ [group]) _ keys hnd
      · intro k
        rw [hkeys k]
        constructor
        · rintro ⟨g, hg, hk⟩
          exact ⟨g, List.mem_append_left _ hg, hk⟩
        · rintro ⟨g, hg, hk⟩
          rcases List.mem_append.1 hg with hg | hg
          · exact ⟨g, hg, hk⟩
          · rw [List.mem_singleton.1 hg] at hk
            rw [← hk]
            exact (hkeys _).1 hin
      · intro k
        rw [GoMap.get?_set]
        by_cases hk : k = keyFunction group
        · rw [if_pos hk, hk, if_pos hin]
          simp [List.filter_append]
        · rw [if_neg hk, hget k]
          have hk2 : ¬(keyFunction group = k) := fun e => hk e.symm
          simp [List.filter_append, hk2]
    · have hnone := hget (keyFunction group)
      rw [if_neg hin] at hnone
      simp only [partitionLoop, hnone]
      apply ih (processed ++ [group]) _ (keys ++ [keyFunction group])
      · rw [List.nodup_append]
        refine ⟨hnd, List.nodup_singleton _, ?_⟩
        intro a ha hb
        rw [List.mem_singleton.1 hb] at ha
        exact hin ha
      · intro k
        rw [List.mem_append, hkeys k]
        constructor
        · rintro (⟨g, hg, hk⟩ | hk)
          · exact ⟨g, List.mem_append_left _ hg, hk⟩
          · exact ⟨group, by simp, (List.mem_singleton.1 hk).symm⟩
        · rintro ⟨g, hg, hk⟩
          rcases List.mem_append.1 hg with hg | hg
          · exact Or.inl ⟨g, hg, hk⟩
          · rw [List.mem_singleton.1 hg] at hk
            exact Or.inr (List.mem_singleton.2 hk.symm)
      · intro k
        rw [GoMap.get?_set]
        by_cases hk : k = keyFunction group
        · rw [if_pos hk, hk, if_pos (by simp)]
          have hempty : processed.filter (fun g => decide (keyFunction g = keyFunction group)) =
              [] := by
            rw [List.filter_eq_nil_iff]
            intro g hg hkey
            exact hin ((hkeys _).2 ⟨g, hg, by simpa using hkey⟩)
          simp [List.filter_append, hempty]
        · rw [if_neg hk, hget k]
          have hk2 : ¬(keyFunction group = k) := fun e => hk e.symm
          by_cases hkin : k ∈ keys
          · rw [if_pos hkin, if_pos (List.mem_append_left _ hkin)]
            simp [List.filter_append, hk2]
          · have hkin2 : k ∉ keys ++ [keyFunction group] := by
              simp [hkin, hk]
            rw [if_neg hkin, if_neg hkin2]

/-! ## Partition of groups (C16) -/

/-- C16: for every list of groups and every key function, `partitionGroups`
returns the keys of the groups without duplicates and in ascending order of
Go strings, and a map that holds, for each of these keys, exactly the groups
with that key in their original order, and nothing for any other key. -/
theorem partitionGroups_spec (groups : List EventGroup) (keyFunction : EventGroup → String) :
    (partitionGroups groups keyFunction).1.Nodup ∧
      (partitionGroups groups keyFunction).1.Sorted stringLE ∧
      (∀ k, k ∈ (partitionGroups groups keyFunction).1 ↔ ∃ g ∈ groups, keyFunction g = k) ∧
      (∀ k, (partitionGroups groups keyFunction).2.get? k =
        if k ∈ (partitionGroups groups keyFunction).1 then
          some (groups.filter (fun g => decide (keyFunction g = k)))
        else none) := by
  obtain ⟨hnd, hkeys, hget⟩ := partitionLoop_invariant keyFunction groups [] [] []
    List.nodup_nil (by simp) (by intro k; simp [GoMap.get?])
  simp only [List.nil_append] at hkeys hget
  have hperm := List.perm_insertionSort stringLE (partitionLoop keyFunction groups [] []).2
  simp only [partitionGroups, sortStrings]
  refine ⟨hperm.nodup_iff.2 hnd, List.sorted_insertionSort stringLE _, ?_, ?_⟩
  · intro k
    rw [hperm.mem_iff, hkeys k]
  · intro k
    rw [hget k]
    by_cases hk : k ∈ (partitionLoop keyFunction groups [] []).2
    · rw [if_pos hk, if_pos (hperm.mem_iff.2 hk)]
    · rw [if_neg hk, if_neg (fun h => hk (hperm.mem_iff.1 h))]

/-! ## Lemmas on the aggregation of groups -/

theorem sumTickets_split (rows : List EventRow) :
    sumTickets rows =
      sumTicketsOn 3 rows + sumTicketsOn 4 rows + sumTicketsOn 5 rows + sumTicketsOn 6 rows +
        sumTicketsOn 0 rows +
        sumTickets (rows.filter (fun r => decide (r.day_of_week ∉ [3, 4, 5, 6, 0]))) := by
  induction rows with
  | nil => simp [sumTickets, sumTicketsOn]
  | cons r rows ih =>
    have hcons : sumTickets (r :: rows) = r.event.TicketsAvailable + sumTickets rows := by
      simp [sumTickets]
    have hon : ∀ d : Int, sumTicketsOn d (r :: rows) =
        (if r.day_of_week = d then r.event.TicketsAvailable else 0) + sumTicketsOn d rows := by
      intro d
      simp [sumTicketsOn]
    rw [hcons, hon 3, hon 4, hon 5, hon 6, hon 0, ih, List.filter_cons]
    by_cases h3 : r.day_of_week = 3
    · simp [h3, sumTickets]; ring
    · by_cases h4 : r.day_of_week = 4
      · simp [h4, sumTickets]; ring
      · by_cases h5 : r.day_of_week = 5
        · simp [h5, sumTickets]; ring
        · by_cases h6 : r.day_of_week = 6
          · simp [h6, sumTickets]; ring
          · by_cases h0 : r.day_of_week = 0
            · simp [h0, sumTickets]; ring
            · simp [h3, h4, h5, h6, h0, sumTickets]; ring

theorem sumTickets_eq_ticketsOf (rows : List EventRow) : sumTickets rows = ticketsOf rows := by
  induction rows with
  | nil => rfl
  | cons r rows ih =>
    have hcons : sumTickets (r :: rows) = r.event.TicketsAvailable + sumTickets rows := by
      simp [sumTickets]
    rw [hcons, ih]
    rfl

theorem sumTicketsOn_eq_ticketsOnDay (day : Int) (rows : List EventRow) :
    sumTicketsOn day rows = ticketsOnDay day rows := by
  induction rows with
  | nil => rfl
  | cons r rows ih =>
    have hcons : sumTicketsOn day (r :: rows) =
        (if r.day_of_week = day then r.event.TicketsAvailable else 0) + sumTicketsOn day rows := by
      simp [sumTicketsOn]
    rw [hcons, ih]
    unfold ticketsOnDay
    by_cases hd : r.day_of_week = day
    · rw [if_pos hd, List.filter_cons_of_pos (by simpa using hd)]
      rfl
    · rw [if_neg hd, List.filter_cons_of_neg (by simpa using hd), Int.zero_add]

theorem aggregateGroups_members (rows : List EventRow) (c : GroupRow)
    (hc : c ∈ aggregateGroups rows) :
    ∃ (first : EventRow) (rest : List EventRow),
      c = groupAggregate first rest ∧
        first :: rest = rows.filter (fun r => decide (groupKey r = groupKey first)) := by
  unfold aggregateGroups groupRows at hc
  obtain ⟨members, hmem, hagg⟩ := List.mem_filterMap.1 hc
  obtain ⟨k, _, hk⟩ := List.mem_map.1 hmem
  cases members with
  | nil => simp at hagg
  | cons first rest =>
    refine ⟨first, rest, (Option.some.inj hagg).symm, ?_⟩
    have hfirst : first ∈ rows.filter (fun r => decide (groupKey r = k)) := by
      rw [hk]
      exact List.mem_cons_self _ _
    have hkey : groupKey first = k := of_decide_eq_true (List.mem_filter.1 hfirst).2
    rw [hkey, hk]

theorem contributingRecords_of_join (selected : List EventRow) (e first : EventRow)
    (rest : List EventRow) (hjoin : joinsGroup e (groupAggregate first rest) = true) :
    contributingRecords selected e =
      selected.filter (fun r => decide (groupKey r = groupKey first)) := by
  simp only [joinsGroup, groupAggregate, Bool.and_eq_true, decide_eq_true_eq] at hjoin
  obtain ⟨⟨⟨htitle, hcat⟩, hkey⟩, _⟩ := hjoin
  unfold contributingRecords
  apply List.filter_congr
  intro r _
  rw [hkey, hcat, htitle]
  simp only [groupKey, Prod.mk.injEq, Bool.decide_and, Bool.and_assoc]

theorem rowToGroup_aggregates (selected table : List EventRow) (e : EventRow) (c : GroupRow)
    (he : e ∈ table) (hc : c ∈ aggregateGroups selected) (hjoin : joinsGroup e c = true) :
    AggregatesRecords selected table (rowToGroup e c) := by
  obtain ⟨first, rest, hagg, hmembers⟩ := aggregateGroups_members selected c hc
  subst hagg
  have hrec : contributingRecords selected e = first :: rest := by
    rw [contributingRecords_of_join selected e first rest hjoin, hmembers]
  have hsplit := sumTickets_split (first :: rest)
  rw [sumTickets_eq_ticketsOf, sumTicketsOn_eq_ticketsOnDay, sumTicketsOn_eq_ticketsOnDay,
    sumTicketsOn_eq_ticketsOnDay, sumTicketsOn_eq_ticketsOnDay, sumTicketsOn_eq_ticketsOnDay,
    sumTickets_eq_ticketsOf] at hsplit
  have htotal : (rowToGroup e (groupAggregate first rest)).TotalTickets =
      ticketsOf (first :: rest) := sumTickets_eq_ticketsOf _
  have hday : (rowToGroup e (groupAggregate first rest)).dayTickets =
      ticketsOnDay 3 (first :: rest) + ticketsOnDay 4 (first :: rest) +
        ticketsOnDay 5 (first :: rest) + ticketsOnDay 6 (first :: rest) +
        ticketsOnDay 0 (first :: rest) := by
    unfold EventGroup.dayTickets
    rw [← sumTicketsOn_eq_ticketsOnDay, ← sumTicketsOn_eq_ticketsOnDay,
      ← sumTicketsOn_eq_ticketsOnDay, ← sumTicketsOn_eq_ticketsOnDay,
      ← sumTicketsOn_eq_ticketsOnDay]
    rfl
  refine ⟨e, he, rfl, rfl, rfl, ?_⟩
  rw [hrec]
  refine ⟨by simp, rfl, htotal, sumTicketsOn_eq_ticketsOnDay 3 _,
    sumTicketsOn_eq_ticketsOnDay 4 _, sumTicketsOn_eq_ticketsOnDay 5 _,
    sumTicketsOn_eq_ticketsOnDay 6 _, sumTicketsOn_eq_ticketsOnDay 0 _, ?_, ?_⟩
  · rw [htotal, hday]
    exact hsplit
  · intro hdays
    have hnone : (first :: rest).filter (fun r => decide (r.day_of_week ∉ [3, 4, 5, 6, 0])) =
        [] := by
      rw [List.filter_eq_nil_iff]
      intro r hr h
      exact (of_decide_eq_true h) (hdays r hr)
    rw [htotal, hday, hsplit, hnone]
    simp [ticketsOf]

/-! ## Aggregation of groups (C17) -/

/-- C17, as stated, fails: the only record of the group is active and falls on
a Tuesday (day 2); `FindEvents` returns the group with five tickets in total
and none in the five ticket counts of the days. -/
theorem FindEvents_tuesday_counterexample :
    (FindEvents (fun _ => 0) (fun _ _ => true) [sampleEventRow "BGM19000001" 2 100 5]
        { Year := 2019 }).map
        (fun l => l.map (fun g => (g.Count, g.TotalTickets, g.dayTickets))) =
      some [(1, 5, 0)] ∧
    (LoadEventGroups
        [sampleEventRow "BGM19000001" 3 100 1, sampleEventRow "BGM19000002" 2 200 5]
        "BGM" 2019 []).map (fun g => (g.Count, g.TotalTickets, g.dayTickets)) = [(2, 6, 1)] := by
  decide

/-- C17, amended: every group that `LoadEventGroups` or `FindEvents` returns
stands for a row of the table and is aggregated from its contributing
records, the active rows selected by the query that share cluster key, short
category and title with that row; `Count` is the number of these records,
`TotalTickets` their tickets, and `TotalTickets` is the sum of the five ticket
counts plus the tickets of the contributing records that fall on a day other
than Wednesday to Sunday, hence equal to that sum when every contributing
record falls on one of the five days. -/
theorem EventGroup_aggregation (hourOf : Int → Int)
    (matchesTsquery : String → EventRow → Bool) (table : List EventRow) (cat : String)
    (year : Int) (days : List Int) (query : ParsedQuery) :
    (∀ r ∈ table.filter (loadEventGroupsInnerWhere cat year),
        r ∈ table ∧ r.event.Active = true ∧ r.event.Year = year ∧ r.event.ShortCategory = cat) ∧
      (∀ r ∈ table.filter (innerWhere hourOf matchesTsquery query),
        r ∈ table ∧ r.event.Active = true ∧ r.event.Year = query.Year) ∧
      (∀ g ∈ LoadEventGroups table cat year days,
        AggregatesRecords (table.filter (loadEventGroupsInnerWhere cat year)) table g) ∧
      (∀ gs, FindEvents hourOf matchesTsquery table query = some gs →
        ∀ g ∈ gs,
          AggregatesRecords (table.filter (innerWhere hourOf matchesTsquery query)) table g) := by
  refine ⟨?_, ?_, ?_, ?_⟩
  · intro r hr
    have h := List.mem_filter.1 hr
    simp only [loadEventGroupsInnerWhere, Bool.and_eq_true, decide_eq_true_eq] at h
    exact ⟨h.1, h.2.1.1, h.2.1.2, h.2.2⟩
  · intro r hr
    have h := List.mem_filter.1 hr
    simp only [innerWhere, Bool.and_eq_true, decide_eq_true_eq] at h
    exact ⟨h.1, h.2.1.1.1.1.1.1, h.2.1.1.1.1.1.2⟩
  · intro g hg
    unfold LoadEventGroups at hg
    simp only [List.mem_flatten, List.mem_map] at hg
    obtain ⟨l, ⟨e, het, rfl⟩, hg⟩ := hg
    obtain ⟨c, hcf, rfl⟩ := List.mem_map.1 hg
    have hc := List.mem_filter.1 hcf
    have hjoin : joinsGroup e c = true := by
      have h2 := hc.2
      rw [Bool.and_eq_true] at h2
      exact h2.1
    exact rowToGroup_aggregates _ table e c (List.mem_filter.1 het).1 hc.1 hjoin
  · intro gs hgs g hg
    unfold FindEvents at hgs
    simp only [] at hgs
    split at hgs
    · cases hgs
    · have hgs2 := Option.some.inj hgs
      rw [← hgs2] at hg
      simp only [List.mem_flatten, List.mem_map] at hg
      obtain ⟨l, ⟨e, het, rfl⟩, hg⟩ := hg
      obtain ⟨c, hcf, rfl⟩ := List.mem_map.1 hg
      have hc := List.mem_filter.1 hcf
      have hjoin : joinsGroup e c = true := by
        have h2 := hc.2
        rw [Bool.and_eq_true] at h2
        exact h2.1
      exact rowToGroup_aggregates _ table e c (List.mem_filter.1 het).1 hc.1 hjoin

/-- A concrete instance of the amended C17: a table with a group of a
Wednesday record and a Thursday record and one record of another title; the
group returned has the count 2 and the tickets 6, and no group with another
count or other tickets aggregates these records. -/
theorem EventGroup_aggregation_witness :
    FindEvents (fun _ => 0) (fun _ _ => true)
        [sampleEventRow "BGM19000001" 3 100 1, sampleEventRow "BGM19000002" 4 200 5]
        { Year := 2019 } =
      some [{ Name := "Catan", EventId := "BGM19000001", ShortCategory := "BGM", Count := 2,
              WedTickets := 1, ThursTickets := 5, TotalTickets := 6 }] ∧
    AggregatesRecords
      ([sampleEventRow "BGM19000001" 3 100 1, sampleEventRow "BGM19000002" 4 200 5].filter
        (innerWhere (fun _ => 0) (fun _ _ => true) { Year := 2019 }))
      [sampleEventRow "BGM19000001" 3 100 1, sampleEventRow "BGM19000002" 4 200 5]
      { Name := "Catan", EventId := "BGM19000001", ShortCategory := "BGM", Count := 2,
        WedTickets := 1, ThursTickets := 5, TotalTickets := 6 } ∧
    ¬ AggregatesRecords
      ([sampleEventRow "BGM19000001" 3 100 1, sampleEventRow "BGM19000002" 4 200 5].filter
        (innerWhere (fun _ => 0) (fun _ _ => true) { Year := 2019 }))
      [sampleEventRow "BGM19000001" 3 100 1, sampleEventRow "BGM19000002" 4 200 5]
      { Name := "Catan", EventId := "BGM19000001", ShortCategory := "BGM", Count := 5,
        WedTickets := 1, ThursTickets := 5, TotalTickets := 6 } :=
  ⟨by decide,
    (EventGroup_aggregation (fun _ => 0) (fun _ _ => true)
      [sampleEventRow "BGM19000001" 3 100 1, sampleEventRow "BGM19000002" 4 200 5] "BGM" 2019 []
      { Year := 2019 }).2.2.2
      [{ Name := "Catan", EventId := "BGM19000001", ShortCategory := "BGM", Count := 2,
         WedTickets := 1, ThursTickets := 5, TotalTickets := 6 }]
      (by decide)
      { Name := "Catan", EventId := "BGM19000001", ShortCategory := "BGM", Count := 2,
        WedTickets := 1, ThursTickets := 5, TotalTickets := 6 }
      (by decide),
    by decide⟩

/-! ## Batches of statements (C18) -/

theorem batches_flatten {α : Type} (n fuel : Nat) (hn : 1 ≤ n) :
    ∀ l : List α, l.length ≤ fuel → (batches n fuel l).flatten = l := by
  induction fuel with
  | zero =>
    intro l hlen
    have hnil : l = [] := List.length_eq_zero.1 (Nat.le_zero.1 hlen)
    subst hnil
    simp [batches]
  | succ fuel ih =>
    intro l hlen
    by_cases hpos : l.length > 0
    · simp only [batches, if_pos hpos, List.flatten_cons]
      rw [ih (l.drop n) (by rw [List.length_drop]; omega), List.take_append_drop]
    · have hnil : l = [] := List.length_eq_zero.1 (by omega)
      subst hnil
      simp [batches]

theorem batches_length {α : Type} (n fuel : Nat) (hn : 1 ≤ n) :
    ∀ l : List α, ∀ b ∈ batches n fuel l, 1 ≤ b.length ∧ b.length ≤ n := by
  induction fuel with
  | zero => intro l b hb; simp [batches] at hb
  | succ fuel ih =>
    intro l b hb
    by_cases hpos : l.length > 0
    · simp only [batches, if_pos hpos, List.mem_cons] at hb
      rcases hb with rfl | hb
      · rw [List.length_take]
        omega
      · exact ih _ b hb
    · simp only [batches, if_neg hpos, List.not_mem_nil] at hb

theorem runStmts_ok {σ ε : Type} (db : Database σ ε)
    (hok : ∀ (tx : σ) (stmt : Stmt), ∃ tx1, db.exec tx stmt = Except.ok tx1)
    (stmts : List Stmt) : ∀ tx : σ, ∃ tx1, runStmts db tx stmts = some (tx1, none) := by
  induction stmts with
  | nil => intro tx; exact ⟨tx, rfl⟩
  | cons stmt rest ih =>
    intro tx
    obtain ⟨tx1, h1⟩ := hok tx stmt
    obtain ⟨tx2, h2⟩ := ih tx1
    exact ⟨tx2, by simp only [runStmts, h1, h2]⟩

theorem runStmts_recordingDb (ε : Type) (stmts : List Stmt) :
    ∀ log : List Stmt, runStmts (recordingDb ε) log stmts = some (log ++ stmts, none) := by
  induction stmts with
  | nil => intro log; simp [runStmts]
  | cons stmt rest ih =>
    intro log
    have hexec : (recordingDb ε).exec log stmt = Except.ok (log ++ [stmt]) := rfl
    simp only [runStmts, hexec, ih (log ++ [stmt])]
    simp

/-- C18: on every database on which no statement fails, `bulkInsert`,
`bulkUpdate` and `bulkDelete` terminate without error for every list; the
statements of `bulkInsert` and `bulkDelete` carry consecutive batches of at
least one and at most 100 rows or ids whose concatenation is the input list,
and `bulkUpdate` sends one statement for each row, in order; the statements
are what the recording database receives. -/
theorem bulk_statements {σ ε : Type} (db : Database σ ε)
    (hok : ∀ (tx : σ) (stmt : Stmt), ∃ tx1, db.exec tx stmt = Except.ok tx1) (tx : σ)
    (newRows updatedRows : List GenconEvent) (deletedIds : List String) :
    (∃ (bs : List (List GenconEvent)) (tx1 : σ),
        bulkInsert db tx newRows = some (tx1, none) ∧
        bulkInsert db tx newRows = runStmts db tx (bs.map Stmt.insert) ∧
        bulkInsert (recordingDb ε) [] newRows = some (bs.map Stmt.insert, none) ∧
        bs.flatten = newRows ∧ ∀ b ∈ bs, 1 ≤ b.length ∧ b.length ≤ 100) ∧
      (∃ tx1 : σ,
        bulkUpdate db tx updatedRows = some (tx1, none) ∧
        bulkUpdate db tx updatedRows = runStmts db tx (updatedRows.map Stmt.update) ∧
        bulkUpdate (recordingDb ε) [] updatedRows =
          some (updatedRows.map Stmt.update, none)) ∧
      (∃ (bs : List (List String)) (tx1 : σ),
        bulkDelete db tx deletedIds = some (tx1, none) ∧
        bulkDelete db tx deletedIds = runStmts db tx (bs.map Stmt.deactivate) ∧
        bulkDelete (recordingDb ε) [] deletedIds = some (bs.map Stmt.deactivate, none) ∧
        bs.flatten = deletedIds ∧ ∀ b ∈ bs, 1 ≤ b.length ∧ b.length ≤ 100) := by
  refine ⟨?_, ?_, ?_⟩
  · have heq : ∀ {τ : Type} (d : Database τ ε) (t : τ), bulkInsert d t newRows =
        runStmts d t ((batches 100 newRows.length newRows).map Stmt.insert) :=
      fun d t => bulkInsertLoop_eq_runStmts d _ 100 newRows t (by decide) (Nat.le_refl _)
    obtain ⟨tx1, h1⟩ := runStmts_ok db hok ((batches 100 newRows.length newRows).map Stmt.insert) tx
    refine ⟨batches 100 newRows.length newRows, tx1, by rw [heq, h1], heq db tx, ?_,
      batches_flatten 100 _ (by decide) newRows (Nat.le_refl _),
      batches_length 100 _ (by decide) newRows⟩
    rw [heq, runStmts_recordingDb]
    simp
  · obtain ⟨tx1, h1⟩ := runStmts_ok db hok (updatedRows.map Stmt.update) tx
    refine ⟨tx1, by rw [bulkUpdate_eq_runStmts, h1], bulkUpdate_eq_runStmts db updatedRows tx, ?_⟩
    rw [bulkUpdate_eq_runStmts, runStmts_recordingDb]
    simp
  · have heq : ∀ {τ : Type} (d : Database τ ε) (t : τ), bulkDelete d t deletedIds =
        runStmts d t ((batches 100 deletedIds.length deletedIds).map Stmt.deactivate) :=
      fun d t => bulkDeleteLoop_eq_runStmts d _ 100 deletedIds t (by decide) (Nat.le_refl _)
    obtain ⟨tx1, h1⟩ :=
      runStmts_ok db hok ((batches 100 deletedIds.length deletedIds).map Stmt.deactivate) tx
    refine ⟨batches 100 deletedIds.length deletedIds, tx1, by rw [heq, h1], heq db tx, ?_,
      batches_flatten 100 _ (by decide) deletedIds (Nat.le_refl _),
      batches_length 100 _ (by decide) deletedIds⟩
    rw [heq, runStmts_recordingDb]
    simp

/-- A concrete instance of C18 on the recording database: two rows to insert,
one row to update and two ids to deactivate give three statements. -/
theorem bulk_statements_witness :
    (∀ (tx : List Stmt) (stmt : Stmt), ∃ tx1, (recordingDb Unit).exec tx stmt = Except.ok tx1) ∧
      bulkInsert (recordingDb Unit) [] [sampleRow "A1" true, sampleRow "A2" true] =
        some ([Stmt.insert [sampleRow "A1" true, sampleRow "A2" true]], none) ∧
      ((∃ (bs : List (List GenconEvent)) (tx1 : List Stmt),
          bulkInsert (recordingDb Unit) [] [sampleRow "A1" true, sampleRow "A2" true] =
            some (tx1, none) ∧
          bulkInsert (recordingDb Unit) [] [sampleRow "A1" true, sampleRow "A2" true] =
            runStmts (recordingDb Unit) [] (bs.map Stmt.insert) ∧
          bulkInsert (recordingDb Unit) [] [sampleRow "A1" true, sampleRow "A2" true] =
            some (bs.map Stmt.insert, none) ∧
          bs.flatten = [sampleRow "A1" true, sampleRow "A2" true] ∧
          ∀ b ∈ bs, 1 ≤ b.length ∧ b.length ≤ 100) ∧
        (∃ tx1 : List Stmt,
          bulkUpdate (recordingDb Unit) [] [sampleRow "A3" true] = some (tx1, none) ∧
          bulkUpdate (recordingDb Unit) [] [sampleRow "A3" true] =
            runStmts (recordingDb Unit) [] ([sampleRow "A3" true].map Stmt.update) ∧
          bulkUpdate (recordingDb Unit) [] [sampleRow "A3" true] =
            some ([sampleRow "A3" true].map Stmt.update, none)) ∧
        (∃ (bs : List (List String)) (tx1 : List Stmt),
          bulkDelete (recordingDb Unit) [] ["A4", "A5"] = some (tx1, none) ∧
          bulkDelete (recordingDb Unit) [] ["A4", "A5"] =
            runStmts (recordingDb Unit) [] (bs.map Stmt.deactivate) ∧
          bulkDelete (recordingDb Unit) [] ["A4", "A5"] = some (bs.map Stmt.deactivate, none) ∧
          bs.flatten = ["A4", "A5"] ∧ ∀ b ∈ bs, 1 ≤ b.length ∧ b.length ≤ 100)) :=
  ⟨fun tx stmt => ⟨tx ++ [stmt], rfl⟩, by decide,
    bulk_statements (recordingDb Unit) (fun tx stmt => ⟨tx ++ [stmt], rfl⟩) []
      [sampleRow "A1" true, sampleRow "A2" true] [sampleRow "A3" true] ["A4", "A5"]⟩

/-! ## Separation and counts of the clusters (C19) -/

theorem mergeLoop_separated (T : RuneTables) (PlannerLink : GenconEvent → String)
    (rest : List GenconEvent) :
    ∀ (cluster : CalendarEventCluster) (grouped : List CalendarEventCluster),
      1 ≤ cluster.SimilarCount →
      (∀ x ∈ rest, GenconLink T x ≠ none) →
      ∃ (clusters : List CalendarEventCluster) (last : CalendarEventCluster),
        mergeLoop T PlannerLink rest cluster grouped = some (last, grouped ++ clusters) ∧
          List.Chain' (fun c1 c2 => c1.EndTime < c2.StartTime) (clusters ++ [last]) ∧
          (∀ c, (clusters ++ [last]).head? = some c → c.StartTime = cluster.StartTime) ∧
          (∀ c ∈ clusters ++ [last], 1 ≤ c.SimilarCount) ∧
          ((clusters ++ [last]).map (fun c => c.SimilarCount)).sum ≤
            cluster.SimilarCount + (rest.length : Int) := by
  induction rest with
  | nil =>
    intro cluster grouped hcount _
    refine ⟨[], cluster, by simp [mergeLoop], by simp, ?_, ?_, by simp⟩
    · intro c hc
      simp only [List.nil_append, List.head?_cons, Option.some.injEq] at hc
      rw [← hc]
    · intro c hc
      simp only [List.nil_append, List.mem_singleton] at hc
      rw [hc]; exact hcount
  | cons x rest ih =>
    intro cluster grouped hcount hlinks
    have hlinksRest : ∀ y ∈ rest, GenconLink T y ≠ none :=
      fun y hy => hlinks y (List.mem_cons_of_mem _ hy)
    by_cases hgap : x.StartTime > cluster.EndTime
    · obtain ⟨fresh, hfresh, hfs, _, hfc⟩ :=
        newClusterForEvent_some T PlannerLink x (hlinks x (List.mem_cons_self _ _))
      obtain ⟨clusters, last, hloop, hchain, hhead, hcounts, hsum⟩ :=
        ih fresh (grouped ++ [cluster]) (by rw [hfc]) hlinksRest
      refine ⟨cluster :: clusters, last, ?_, ?_, ?_, ?_, ?_⟩
      · simp only [mergeLoop, if_pos hgap, hfresh, hloop, List.append_assoc,
          List.singleton_append]
      · rw [List.cons_append, List.chain'_cons']
        refine ⟨?_, hchain⟩
        intro c hc
        have hcs := hhead c hc
        rw [hcs, hfs]
        exact hgap
      · intro c hc
        simp only [List.cons_append, List.head?_cons, Option.some.injEq] at hc
        rw [← hc]
      · intro c hc
        rcases List.mem_cons.1 hc with rfl | hc
        · exact hcount
        · exact hcounts c hc
      · simp only [List.cons_append, List.map_cons, List.sum_cons, List.length_cons]
        rw [hfc] at hsum
        push_cast
        omega
    · by_cases hext : x.EndTime > cluster.EndTime
      · obtain ⟨clusters, last, hloop, hchain, hhead, hcounts, hsum⟩ :=
          ih { cluster with EndTime := x.EndTime, SimilarCount := cluster.SimilarCount + 1 }
            grouped (by simp only; omega) hlinksRest
        refine ⟨clusters, last, ?_, hchain, hhead, hcounts, ?_⟩
        · simp only [mergeLoop, if_neg hgap, if_pos hext, hloop]
        · simp only [List.length_cons] at hsum ⊢
          push_cast
          omega
      · obtain ⟨clusters, last, hloop, hchain, hhead, hcounts, hsum⟩ :=
          ih cluster grouped hcount hlinksRest
        refine ⟨clusters, last, ?_, hchain, hhead, hcounts, ?_⟩
        · simp only [mergeLoop, if_neg hgap, if_neg hext, hloop]
        · simp only [List.length_cons]
          push_cast
          omega

/-- C19: for every non-empty day group whose links can be built, the clusters
that the merge loop emits are separated and ordered: each cluster starts
strictly after the end time of the cluster emitted before it, every cluster
has a `SimilarCount` of at least one, and the counts of the clusters of the
group add up to at most the number of records of the group. -/
theorem clusterDayGroup_separated (T : RuneTables) (PlannerLink : GenconEvent → String)
    (first : GenconEvent) (rest : List GenconEvent) (grouped : List CalendarEventCluster)
    (hlinks : ∀ x ∈ first :: rest, GenconLink T x ≠ none) :
    ∃ clusters : List CalendarEventCluster,
      clusterDayGroup T PlannerLink (first :: rest) grouped = some (grouped ++ clusters) ∧
        List.Chain' (fun c1 c2 => c1.EndTime < c2.StartTime) clusters ∧
        (∀ c ∈ clusters, 1 ≤ c.SimilarCount) ∧
        (clusters.map (fun c => c.SimilarCount)).sum ≤ ((first :: rest).length : Int) := by
  obtain ⟨cluster, hcluster, _, _, hc1⟩ :=
    newClusterForEvent_some T PlannerLink first (hlinks first (List.mem_cons_self _ _))
  obtain ⟨clusters, last, hloop, hchain, _, hcounts, hsum⟩ :=
    mergeLoop_separated T PlannerLink rest cluster grouped (by rw [hc1])
      (fun x hx => hlinks x (List.mem_cons_of_mem _ hx))
  refine ⟨clusters ++ [last], ?_, hchain, hcounts, ?_⟩
  · simp only [clusterDayGroup, hcluster, hloop, List.append_assoc]
  · rw [hc1] at hsum
    simp only [List.length_cons]
    push_cast
    omega

/-- A concrete instance of C19: four sessions, one of them inside the first
cluster, give two clusters with the counts 2 and 1. -/
theorem clusterDayGroup_separated_witness :
    (clusterDayGroup asciiTables (fun _ => "")
        [sampleSession "RPG19000001" 600 720, sampleSession "RPG19000002" 660 780,
          sampleSession "RPG19000003" 700 710, sampleSession "RPG19000004" 840 900] []).map
        (fun l => l.map CalendarEventCluster.window) = some [(600, 780, 2), (840, 900, 1)] ∧
      ∃ clusters : List CalendarEventCluster,
        clusterDayGroup asciiTables (fun _ => "")
            [sampleSession "RPG19000001" 600 720, sampleSession "RPG19000002" 660 780,
              sampleSession "RPG19000003" 700 710, sampleSession "RPG19000004" 840 900] [] =
          some ([] ++ clusters) ∧
        List.Chain' (fun c1 c2 => c1.EndTime < c2.StartTime) clusters ∧
        (∀ c ∈ clusters, 1 ≤ c.SimilarCount) ∧
        (clusters.map (fun c => c.SimilarCount)).sum ≤
          (([sampleSession "RPG19000001" 600 720, sampleSession "RPG19000002" 660 780,
            sampleSession "RPG19000003" 700 710,
            sampleSession "RPG19000004" 840 900].length : Nat) : Int) :=
  ⟨by decide,
    clusterDayGroup_separated asciiTables (fun _ => "") (sampleSession "RPG19000001" 600 720)
      [sampleSession "RPG19000002" 660 780, sampleSession "RPG19000003" 700 710,
        sampleSession "RPG19000004" 840 900] [] (by decide)⟩

/-! ## Rows of categories (C20) -/

/-- C20, the failing input: for two summaries `CategoryList` builds one row and
that row is empty, and for four summaries the second row is empty: with an
even number of summaries the last row loses the final two. -/
theorem categoryRows_even_length :
    categoryRows [sampleSummary "a", sampleSummary "b"] = some [[]] ∧
      categoryRows [sampleSummary "a", sampleSummary "b", sampleSummary "c", sampleSummary "d"] =
        some [[sampleSummary "a", sampleSummary "b"], []] ∧
      categoryRows [sampleSummary "a", sampleSummary "b", sampleSummary "c"] =
        some [[sampleSummary "a", sampleSummary "b"], [sampleSummary "c"]] := by
  decide

/-! ## The slices of the event code (C21) -/

theorem utf8EncodeRune_length_pos (c : Char) : 1 ≤ (utf8EncodeRune c).length := by
  by_cases h : c.toNat < 128
  · rw [utf8EncodeRune_ascii c h]
    simp
  · obtain ⟨x, y, rest, henc, _⟩ := utf8EncodeRune_nonascii c (by omega)
    rw [henc]
    simp

theorem goBytes_length_lt_two (l : List Char) :
    (goBytes l).length < 2 ↔ l = [] ∨ ∃ c, l = [c] ∧ c.toNat < 128 := by
  cases l with
  | nil => simp [goBytes]
  | cons c rest =>
    simp only [goBytes, List.length_append]
    by_cases h : c.toNat < 128
    · rw [utf8EncodeRune_ascii c h]
      cases rest with
      | nil =>
        simp only [goBytes, List.length_cons, List.length_nil]
        exact ⟨fun _ => Or.inr ⟨c, rfl, h⟩, fun _ => by omega⟩
      | cons d rest =>
        have hd := utf8EncodeRune_length_pos d
        simp only [goBytes, List.length_append, List.length_cons, List.length_nil]
        constructor
        · intro hlt
          omega
        · intro hor
          rcases hor with hnil | ⟨x, hx, _⟩
          · cases hnil
          · cases hx
    · obtain ⟨x, y, tail, henc, _⟩ := utf8EncodeRune_nonascii c (by omega)
      rw [henc]
      simp only [List.length_cons]
      constructor
      · intro hlt
        omega
      · intro hor
        rcases hor with hnil | ⟨x, hx, hlt⟩
        · cases hnil
        · cases hx
          exact absurd hlt h

/-- C21: the slice `yearId[:2]` of `splitId` and the slice `[2:]` of
`GenconLink` are in range exactly when the event code without its leading
letters has at least two bytes.  With two bytes or more `splitId` returns a
result or stops with one of its two errors, and `GenconLink` returns the link;
with fewer, `splitId` and `GenconLink` stop with the slice out of range.  The
codes with fewer than two bytes are those that leave nothing or one ASCII
character after their leading letters, among them every code of letters only
and the empty code. -/
theorem splitId_slice_precondition (T : RuneTables) (e : GenconEvent) :
    ((goSlice (yearIdBytes T e.EventId) 0 2).isSome = true ↔
        2 ≤ (yearIdBytes T e.EventId).length) ∧
      ((goSlice (yearIdBytes T e.EventId) 2 (yearIdBytes T e.EventId).length).isSome = true ↔
        2 ≤ (yearIdBytes T e.EventId).length) ∧
      (2 ≤ (yearIdBytes T e.EventId).length →
        goSlice (yearIdBytes T e.EventId) 0 2 = some ((yearIdBytes T e.EventId).take 2) ∧
          ((∃ r, splitId T e.EventId = Except.ok r) ∨
            splitId T e.EventId = Except.error SplitIdFailure.unableToParseYear ∨
            splitId T e.EventId = Except.error SplitIdFailure.unsupportedYear) ∧
          goSlice (yearIdBytes T e.EventId) 2 (yearIdBytes T e.EventId).length =
            some ((yearIdBytes T e.EventId).drop 2) ∧
          GenconLink T e =
            some (goBytes "http://gencon.com/events/".data ++ (yearIdBytes T e.EventId).drop 2)) ∧
      ((yearIdBytes T e.EventId).length < 2 →
        splitId T e.EventId = Except.error SplitIdFailure.sliceOutOfRange ∧
          GenconLink T e = none) ∧
      ((yearIdBytes T e.EventId).length < 2 ↔
        TrimLeftFunc e.EventId.data T.IsLetter = [] ∨
          ∃ c, TrimLeftFunc e.EventId.data T.IsLetter = [c] ∧ c.toNat < 128) ∧
      ((∀ c ∈ e.EventId.data, T.IsLetter c = true) → (yearIdBytes T e.EventId).length < 2) := by
  refine ⟨?_, ?_, ?_, ?_, ?_, ?_⟩
  · unfold goSlice
    by_cases h : 0 ≤ 2 ∧ 2 ≤ (yearIdBytes T e.EventId).length
    · rw [if_pos h]
      exact ⟨fun _ => h.2, fun _ => rfl⟩
    · rw [if_neg h]
      exact ⟨fun hs => (by cases hs), fun h2 => absurd ⟨Nat.zero_le 2, h2⟩ h⟩
  · unfold goSlice
    by_cases h : 2 ≤ (yearIdBytes T e.EventId).length ∧
        (yearIdBytes T e.EventId).length ≤ (yearIdBytes T e.EventId).length
    · rw [if_pos h]
      exact ⟨fun _ => h.1, fun _ => rfl⟩
    · rw [if_neg h]
      exact ⟨fun hs => (by cases hs), fun h2 => absurd ⟨h2, Nat.le_refl _⟩ h⟩
  · intro h2
    have hnot : ¬ (yearIdBytes T e.EventId).length < 2 := by omega
    refine ⟨?_, ?_, ?_, ?_⟩
    · unfold goSlice
      rw [if_pos ⟨Nat.zero_le 2, h2⟩]
      rfl
    · unfold yearIdBytes at hnot
      unfold splitId
      simp only []
      rw [if_neg hnot]
      split
      · exact Or.inr (Or.inl rfl)
      · split
        · exact Or.inr (Or.inr rfl)
        · exact Or.inl ⟨_, rfl⟩
    · unfold goSlice
      rw [if_pos ⟨h2, Nat.le_refl _⟩, List.take_length]
    · unfold yearIdBytes at hnot ⊢
      unfold GenconLink
      simp only []
      rw [if_neg hnot]
  · intro hlt
    unfold yearIdBytes at hlt
    constructor
    · unfold splitId
      simp only []
      rw [if_pos hlt]
    · unfold GenconLink
      simp only []
      rw [if_pos hlt]
  · exact goBytes_length_lt_two _
  · intro hall
    have hnil : TrimLeftFunc e.EventId.data T.IsLetter = [] := by
      unfold TrimLeftFunc
      exact List.dropWhile_eq_nil_iff.2 hall
    unfold yearIdBytes
    rw [hnil]
    simp [goBytes]

/-- Concrete instances of C21: the empty code, `RPG` and `RPG1` stop with the
slice out of range; `RPG€`, three bytes after the letters, stops with the
parse error; `RPG19000123` returns and its link holds the bytes after the
year. -/
theorem splitId_slice_precondition_witness :
    splitId asciiTables "" = Except.error SplitIdFailure.sliceOutOfRange ∧
      splitId asciiTables "RPG1" = Except.error SplitIdFailure.sliceOutOfRange ∧
      splitId asciiTables "RPG€" = Except.error SplitIdFailure.unableToParseYear ∧
      splitId asciiTables "RPG19000123" = Except.ok ("RPG", 2019) ∧
      (yearIdBytes asciiTables "RPG").length < 2 ∧
      (splitId asciiTables "RPG" = Except.error SplitIdFailure.sliceOutOfRange ∧
        GenconLink asciiTables { EventId := "RPG" } = none) ∧
      2 ≤ (yearIdBytes asciiTables "RPG19000123").length ∧
      GenconLink asciiTables { EventId := "RPG19000123" } =
        some (goBytes "http://gencon.com/events/".data ++
          (yearIdBytes asciiTables "RPG19000123").drop 2) :=
  ⟨by decide, by decide, by decide, by decide, by decide,
    (splitId_slice_precondition asciiTables { EventId := "RPG" }).2.2.2.1 (by decide),
    by decide,
    ((splitId_slice_precondition asciiTables { EventId := "RPG19000123" }).2.2.1
      (by decide)).2.2.2⟩

end Genconplanner
